import Mathlib

/-!
# Visioner model container (visioner/cxx/model.cc)

A shallow embedding of the ensemble container `bob::visioner::Model`:
the per-output LUT sequences, bulk replacement (`set`), `reset`, scoring,
the list of selected features and the persistence entry points.  Further
sections embed the boosting problem (`lut_problem.h`), the determinant
(`det.cc`), the linear machine (`LinearMachine.cc`) and the Gaussian mixture
(`GMMMachine.cc`).

Conventions of the embedding.

* `std::vector` is a `List`; an index (`uint64_t`) is a `Nat`.  No index
  arithmetic other than `r ++` below a vector size occurs, so no wrap-around
  can happen.
* An out-of-range `operator[]` is undefined behaviour in the source.  Every
  function that indexes a vector returns an `Option`; `none` stands for such
  an access.
* `double` is a type parameter `D` with an addition and a zero.  No algebraic
  law is assumed of it, so everything proved holds of IEEE doubles with the
  accumulation order of the source.
-/

namespace Visioner

/-- Modelled from the spec: the class `LUT`, declared in a header outside
`model.cc`.  A LUT is a feature index together with the ordered sequence
of its entries, indexed by the quantized feature value. -/
structure LUT (D : Type) where
  feature : Nat
  entries : List D
deriving DecidableEq, Repr

/-- Entry access `lut[fv]`; out of range is undefined in the source. -/
def LUT.index {D : Type} (lut : LUT D) (fv : Nat) : Option D :=
  lut.entries[fv]?

/-- The state of a `Model` object: the parameters (`m_param`, inherited from
`Parametrizable`), the per-output LUT sequences (`m_mluts`) and the state of
the concrete subtype (`m_sub`), which only the virtual hooks touch. -/
structure Model (P D S : Type) where
  m_param : P
  m_mluts : List (List (LUT D))
  m_sub : S
deriving DecidableEq, Repr

variable {P D S : Type}

/-- Modelled from the spec: the accessor `n_outputs()` of the missing header
`model.h`; the number of outputs is the number of per-output sequences. -/
def Model.n_outputs (m : Model P D S) : Nat :=
  m.m_mluts.length

/-- Modelled from the spec: the accessor `n_luts(o)` of the missing header
`model.h`, the length of the sequence of output `o`. -/
def Model.n_luts (m : Model P D S) (o : Nat) : Option Nat :=
  (m.m_mluts[o]?).map List.length

/-- The assignment `v[o] = x` on a vector: undefined when `o` is out of range. -/
def assignAt {α : Type} (v : List α) (o : Nat) (x : α) : Option (List α) :=
  if o < v.length then some (v.set o x) else none

/-- The loop `for (o = 0; o < n_outputs(); o ++) m_mluts[o] = mluts[o];`
of `Model::set`, run over the outputs `os` still to be visited. -/
def setLoop (mluts : List (List (LUT D))) :
    List Nat → List (List (LUT D)) → Option (List (List (LUT D)))
  | [], cur => some cur
  | o :: os, cur =>
    match mluts[o]? with
    | none => none
    | some src =>
      match assignAt cur o src with
      | none => none
      | some cur1 => setLoop mluts os cur1

/-- Embedding of `Model::set`: the returned flag and the model afterwards. -/
def Model.set (m : Model P D S) (mluts : List (List (LUT D))) :
    Option (Bool × Model P D S) :=
  if mluts.length ≠ m.n_outputs then
    some (false, m)
  else
    match setLoop mluts (List.range m.n_outputs) m.m_mluts with
    | none => none
    | some cur => some (true, { m with m_mluts := cur })

/-- The effect of `std::vector::resize(n)`: keep the first `n` elements, or
append value-initialised ones up to length `n`. -/
def resize {α : Type} (v : List α) (n : Nat) (dflt : α) : List α :=
  v.take n ++ List.replicate (n - v.length) dflt

/-- The loop `for (o = 0; o < n_outputs(); o ++) m_mluts[o].clear();` of
`Model::reset`, run over the outputs `os` still to be visited. -/
def clearLoop : List Nat → List (List (LUT D)) → Option (List (List (LUT D)))
  | [], cur => some cur
  | o :: os, cur =>
    match assignAt cur o [] with
    | none => none
    | some cur1 => clearLoop os cur1

/-- Embedding of `Model::reset(param)`.  `tagger_n_outputs param` stands for
`make_tagger(param)->n_outputs()`, an external collaborator. -/
def Model.reset (tagger_n_outputs : P → Nat) (m : Model P D S) (param : P) :
    Option (Model P D S) :=
  let m1 : Model P D S := { m with m_param := param }
  let m2 : Model P D S :=
    { m1 with m_mluts := resize m1.m_mluts (tagger_n_outputs param) [] }
  match clearLoop (List.range m2.n_outputs) m2.m_mluts with
  | none => none
  | some cur => some { m2 with m_mluts := cur }

/-- The constructor `Model::Model(param)`: the base class stores `param`, the
vector of sequences starts empty, then `reset(param)` runs.  `sub` is the
state the concrete subtype starts with. -/
def Model.construct (tagger_n_outputs : P → Nat) (param : P) (sub : S) :
    Option (Model P D S) :=
  Model.reset tagger_n_outputs { m_param := param, m_mluts := [], m_sub := sub } param

/-- The body of the loop of `Model::score(o, rbegin, rend, x, y)`, run over
the rounds `rs` still to be visited with the running `sum`.  `get` is the
virtual feature evaluation `get(feature, x, y)` of the subtype. -/
def Model.scoreLoop [Add D] (m : Model P D S) (get : Nat → Int → Int → Nat)
    (o : Nat) (x y : Int) : List Nat → D → Option D
  | [], sum => some sum
  | r :: rs, sum =>
    match m.m_mluts[o]? with
    | none => none
    | some seq =>
      match seq[r]? with
      | none => none
      | some lut =>
        match lut.index (get lut.feature x y) with
        | none => none
        | some e => Model.scoreLoop m get o x y rs (sum + e)

/-- Embedding of `Model::score(o, rbegin, rend, x, y)`: `sum = 0.0`, then the loop
`for (r = rbegin; r < rend; r ++)`. -/
def Model.scoreRange [Add D] [Zero D] (m : Model P D S)
    (get : Nat → Int → Int → Nat) (o rbegin rend : Nat) (x y : Int) : Option D :=
  m.scoreLoop get o x y (List.range' rbegin (rend - rbegin)) 0

/-- Embedding of `Model::score(o, x, y)`: `return score(o, 0, n_luts(o), x, y);`. -/
def Model.score [Add D] [Zero D] (m : Model P D S)
    (get : Nat → Int → Int → Nat) (o : Nat) (x y : Int) : Option D :=
  match m.n_luts o with
  | none => none
  | some n => m.scoreRange get o 0 n x y

/-- The scan of `std::unique`: keep an element when it differs from the last
one kept (`prev`). -/
def uniqueFrom (prev : Nat) : List Nat → List Nat
  | [] => []
  | b :: t => if prev = b then uniqueFrom prev t else b :: uniqueFrom b t

/-- Removal of consecutive duplicates, `erase(std::unique(..), end)`. -/
def eraseAdjacent : List Nat → List Nat
  | [] => []
  | a :: t => a :: uniqueFrom a t

/-- Modelled from the spec: the helper `unique(result)` of the missing
utility header.  The spec asks for a deduplicated result in ascending order;
the helper sorts the vector ascending and erases consecutive duplicates. -/
def unique (data : List Nat) : List Nat :=
  eraseAdjacent (data.insertionSort (fun a b => a ≤ b))

/-- The inner loop of `Model::features`,
`for (r = 0; r < n_luts(o); r ++) result.push_back(m_mluts[o][r].feature());`,
run over the rounds `rs` still to be visited. -/
def Model.featuresRounds (m : Model P D S) (o : Nat) :
    List Nat → List Nat → Option (List Nat)
  | [], result => some result
  | r :: rs, result =>
    match m.m_mluts[o]? with
    | none => none
    | some seq =>
      match seq[r]? with
      | none => none
      | some lut => Model.featuresRounds m o rs (result ++ [lut.feature])

/-- The outer loop of `Model::features`, `for (o = 0; o < n_outputs(); o ++)`. -/
def Model.featuresOutputs (m : Model P D S) :
    List Nat → List Nat → Option (List Nat)
  | [], result => some result
  | o :: os, result =>
    match m.n_luts o with
    | none => none
    | some n =>
      match m.featuresRounds o (List.range n) result with
      | none => none
      | some result1 => Model.featuresOutputs m os result1

/-- Embedding of `Model::features()`: collect the feature of every LUT, then `unique`. -/
def Model.features (m : Model P D S) : Option (List Nat) :=
  (m.featuresOutputs (List.range m.n_outputs) []).map unique

/-- The entries a run of LUTs selects at `(x, y)`, in order:
`entries[get(feature, x, y)]` of each LUT (undefined once one lookup is out
of range). -/
def entriesAt (get : Nat → Int → Int → Nat) (x y : Int) :
    List (LUT D) → Option (List D)
  | [] => some []
  | lut :: t =>
    match lut.index (get lut.feature x y), entriesAt get x y t with
    | some e, some es => some (e :: es)
    | _, _ => none

/-- The score as the spec words it: the sum, over the rounds `r` in
`[rbegin, rend)` taken in round order, of `entries[get(feature, x, y)]` of the
`r`-th LUT of output `o`. -/
def scoreSpec [Add D] [Zero D] (m : Model P D S) (get : Nat → Int → Int → Nat)
    (o rbegin rend : Nat) (x y : Int) : Option D :=
  match m.m_mluts[o]? with
  | none => none
  | some seq =>
    (entriesAt get x y ((seq.drop rbegin).take (rend - rbegin))).map
      (fun es => es.foldl (fun acc e => acc + e) 0)

/-! ## Persistence: `Model::save`, `Model::load(path)`, `Model::load(path, model)`

The stream layer (`std::ofstream`, `boost::iostreams::filtering_stream`, the
gzip filters, the boost archives) and the virtual hooks `save(oa)` / `load(ia)`
of the concrete subtype are external.  They are the fields of `Streams`; the
three entry points below are written once, over an arbitrary `Streams`, one
field use per source statement.  A failed stream operation is visible only in
the `good()` flag of the stream, which is what the source tests. -/

/-- The record encoding of an archive: `binary_[io]archive` or `text_[io]archive`. -/
inductive ArchiveKind where
  | binary
  | text
deriving DecidableEq, Repr

/-- The external stream layer.  `FS` is the state of the file system, `OF`/`IF`
an opened `std::ofstream`/`std::ifstream`, `OS`/`IS` a
`filtering_ostream`/`filtering_istream`. -/
structure Streams (P D S FS OF OS IF IS : Type) where
  /-- Statement `boost::filesystem::extension(filename)`. -/
  extension : String → String
  /-- Statement `std::ofstream file(path.c_str(), mode)`; the flag says whether `mode`
  contains `std::ios_base::binary` (it always contains `out | trunc`). -/
  ofstream : FS → String → Bool → OF
  /-- A fresh `boost::iostreams::filtering_ostream`. -/
  filtering_ostream : OS
  /-- Statement `ofs.push(boost::iostreams::basic_gzip_compressor<>())`. -/
  push_gzip_compressor : OS → OS
  /-- Statement `ofs.push(file)`. -/
  push_ofstream : OS → OF → OS
  /-- Statement `ofs.good()`. -/
  ogood : OS → Bool
  /-- Construction of the output archive on the stream. -/
  oarchive : ArchiveKind → OS → OS
  /-- Statement `oa << m_param`. -/
  write_param : ArchiveKind → P → OS → OS
  /-- Statement `oa << m_mluts`. -/
  write_mluts : ArchiveKind → List (List (LUT D)) → OS → OS
  /-- The virtual hook `save(oa)` of the subtype. -/
  save_hook : ArchiveKind → S → OS → OS
  /-- Destruction of the output archive at the end of its block. -/
  oarchive_done : ArchiveKind → OS → OS
  /-- Destruction of the output stream and of the file when `save` returns. -/
  close_out : FS → OS → FS
  /-- Statement `std::ifstream file(path.c_str(), mode)`; the flag says whether `mode`
  contains `std::ios_base::binary` (it always contains `in`). -/
  ifstream : FS → String → Bool → IF
  /-- A fresh `boost::iostreams::filtering_istream`. -/
  filtering_istream : IS
  /-- Statement `ifs.push(boost::iostreams::basic_gzip_decompressor<>())`. -/
  push_gzip_decompressor : IS → IS
  /-- Statement `ifs.push(file)`. -/
  push_ifstream : IS → IF → IS
  /-- Statement `ifs.good()`. -/
  igood : IS → Bool
  /-- Construction of the input archive on the stream. -/
  iarchive : ArchiveKind → IS → IS
  /-- Statement `ia >> param`: the new value of the variable read into, and the stream. -/
  read_param : ArchiveKind → IS → P → P × IS
  /-- Statement `ia >> m_mluts`. -/
  read_mluts : ArchiveKind → IS → List (List (LUT D)) → List (List (LUT D)) × IS
  /-- The virtual hook `load(ia)` of the subtype. -/
  load_hook : ArchiveKind → IS → S → S × IS
  /-- Destruction of the input archive at the end of its block. -/
  iarchive_done : ArchiveKind → IS → IS

variable {FS OF OS IF IS : Type}

/-- Embedding of `is_dot_gz(filename)`: the extension is `.gz` or `.vbgz`. -/
def is_dot_gz (io : Streams P D S FS OF OS IF IS) (filename : String) : Bool :=
  io.extension filename == ".gz" || io.extension filename == ".vbgz"

/-- Embedding of `is_dot_vbin(filename)`: the extension is `.vbin` or `.vbgz`. -/
def is_dot_vbin (io : Streams P D S FS OF OS IF IS) (filename : String) : Bool :=
  io.extension filename == ".vbin" || io.extension filename == ".vbgz"

/-- Embedding of `Model::save`, opening of the stream: the open mode, the file, the
optional gzip compressor, the push of the file. -/
def save_open (io : Streams P D S FS OF OS IF IS) (fs : FS) (path : String) : OS :=
  let binaryMode := is_dot_gz io path || is_dot_vbin io path
  let file := io.ofstream fs path binaryMode
  let ofs := io.filtering_ostream
  let ofs := if is_dot_gz io path then io.push_gzip_compressor ofs else ofs
  io.push_ofstream ofs file

/-- Embedding of `Model::save`, the archive block: a binary archive for `.vbin`/`.vbgz`, a
text archive otherwise; parameters, LUT sequences, then the subtype hook. -/
def save_records (io : Streams P D S FS OF OS IF IS) (m : Model P D S)
    (path : String) (ofs : OS) : OS :=
  if is_dot_vbin io path then
    let oa := io.oarchive ArchiveKind.binary ofs
    let oa := io.write_param ArchiveKind.binary m.m_param oa
    let oa := io.write_mluts ArchiveKind.binary m.m_mluts oa
    let oa := io.save_hook ArchiveKind.binary m.m_sub oa
    io.oarchive_done ArchiveKind.binary oa
  else
    let oa := io.oarchive ArchiveKind.text ofs
    let oa := io.write_param ArchiveKind.text m.m_param oa
    let oa := io.write_mluts ArchiveKind.text m.m_mluts oa
    let oa := io.save_hook ArchiveKind.text m.m_sub oa
    io.oarchive_done ArchiveKind.text oa

/-- Embedding of `Model::save(path)`: the returned flag and the file system afterwards. -/
def Model.save (io : Streams P D S FS OF OS IF IS) (fs : FS) (m : Model P D S)
    (path : String) : Bool × FS :=
  let ofs := save_open io fs path
  if io.ogood ofs == false then
    (false, io.close_out fs ofs)
  else
    let ofs := save_records io m path ofs
    (io.ogood ofs, io.close_out fs ofs)

/-- Embedding of `Model::load(path)`, opening of the stream: the open mode, the file, the
optional gzip decompressor, the push of the file. -/
def load_open (io : Streams P D S FS OF OS IF IS) (fs : FS) (path : String) : IS :=
  let binaryMode := is_dot_gz io path || is_dot_vbin io path
  let file := io.ifstream fs path binaryMode
  let ifs := io.filtering_istream
  let ifs := if is_dot_gz io path then io.push_gzip_decompressor ifs else ifs
  io.push_ifstream ifs file

/-- Embedding of `Model::load(path)`, the archive block: parameters, LUT sequences, then the
subtype hook, read into the members of the model. -/
def load_records (io : Streams P D S FS OF OS IF IS) (m : Model P D S)
    (path : String) (ifs : IS) : Model P D S × IS :=
  if is_dot_vbin io path then
    let ia := io.iarchive ArchiveKind.binary ifs
    let (param, ia) := io.read_param ArchiveKind.binary ia m.m_param
    let (mluts, ia) := io.read_mluts ArchiveKind.binary ia m.m_mluts
    let (sub, ia) := io.load_hook ArchiveKind.binary ia m.m_sub
    ({ m_param := param, m_mluts := mluts, m_sub := sub },
      io.iarchive_done ArchiveKind.binary ia)
  else
    let ia := io.iarchive ArchiveKind.text ifs
    let (param, ia) := io.read_param ArchiveKind.text ia m.m_param
    let (mluts, ia) := io.read_mluts ArchiveKind.text ia m.m_mluts
    let (sub, ia) := io.load_hook ArchiveKind.text ia m.m_sub
    ({ m_param := param, m_mluts := mluts, m_sub := sub },
      io.iarchive_done ArchiveKind.text ia)

/-- Embedding of `Model::load(path)`: the returned flag and the model afterwards. -/
def Model.load (io : Streams P D S FS OF OS IF IS) (fs : FS) (m : Model P D S)
    (path : String) : Bool × Model P D S :=
  let ifs := load_open io fs path
  if io.igood ifs == false then
    (false, m)
  else
    let (m1, ifs) := load_records io m path ifs
    (io.igood ifs, m1)

/-- Embedding of `Model::load(path, model)`, opening of the stream (the same statements as
in `Model::load(path)`, written a second time in the source). -/
def load_factory_open (io : Streams P D S FS OF OS IF IS) (fs : FS) (path : String) : IS :=
  let binaryMode := is_dot_gz io path || is_dot_vbin io path
  let file := io.ifstream fs path binaryMode
  let ifs := io.filtering_istream
  let ifs := if is_dot_gz io path then io.push_gzip_decompressor ifs else ifs
  io.push_ifstream ifs file

/-- Embedding of `Model::load(path, model)`, the archive block: only the parameter record
is read, into a local `param_t param` that starts as `param0`. -/
def load_factory_param (io : Streams P D S FS OF OS IF IS) (param0 : P)
    (path : String) (ifs : IS) : P × IS :=
  if is_dot_vbin io path then
    let ia := io.iarchive ArchiveKind.binary ifs
    let (param, ia) := io.read_param ArchiveKind.binary ia param0
    (param, io.iarchive_done ArchiveKind.binary ia)
  else
    let ia := io.iarchive ArchiveKind.text ifs
    let (param, ia) := io.read_param ArchiveKind.text ia param0
    (param, io.iarchive_done ArchiveKind.text ia)

/-- Embedding of `Model::load(path, model)`: the returned flag and the caller's pointer
afterwards (`none` is the null pointer).  `make_model` is the external
decoder, `param0` the default-constructed `param_t`. -/
def Model.load_factory (io : Streams P D S FS OF OS IF IS)
    (make_model : P → Model P D S) (param0 : P) (fs : FS) (path : String)
    (model : Option (Model P D S)) : Bool × Option (Model P D S) :=
  let ifs := load_factory_open io fs path
  if io.igood ifs == false then
    (false, model)
  else
    let (param, ifs) := load_factory_param io param0 path ifs
    if !io.igood ifs then
      (false, model)
    else
      let model1 := make_model param
      let (ok, model2) := Model.load io fs model1 path
      (ok, some model2)

/-! ### Archive operations that raise

`Model::save` and `Model::load(path)` contain no `try` block and no `throw`.
When an operation on an archive (its construction, `<<`, `>>`, the hook of the
subtype) raises, the statements after it are not executed and the exception
leaves the entry point.  `RaisingStreams` gives each of these operations the
choice to return, as in `Streams`, or to raise; the two entry points are
written a second time over it, statement by statement as above. -/

/-- The stream layer whose archive operations return or raise an exception of
type `E`.  Opening a stream, `good()` and the destructors are those of
`streams` and raise nothing. -/
structure RaisingStreams (E P D S FS OF OS IF IS : Type) where
  /-- Opening, `good()` and destruction. -/
  streams : Streams P D S FS OF OS IF IS
  /-- Construction of the output archive on the stream. -/
  oarchive : ArchiveKind → OS → Except E OS
  /-- Statement `oa << m_param`. -/
  write_param : ArchiveKind → P → OS → Except E OS
  /-- Statement `oa << m_mluts`. -/
  write_mluts : ArchiveKind → List (List (LUT D)) → OS → Except E OS
  /-- The virtual hook `save(oa)` of the subtype. -/
  save_hook : ArchiveKind → S → OS → Except E OS
  /-- Construction of the input archive on the stream. -/
  iarchive : ArchiveKind → IS → Except E IS
  /-- Statement `ia >> m_param`. -/
  read_param : ArchiveKind → IS → P → Except E (P × IS)
  /-- Statement `ia >> m_mluts`. -/
  read_mluts : ArchiveKind → IS → List (List (LUT D)) → Except E (List (List (LUT D)) × IS)
  /-- The virtual hook `load(ia)` of the subtype. -/
  load_hook : ArchiveKind → IS → S → Except E (S × IS)

/-- A stream layer none of whose archive operations raises. -/
def Streams.raising {E : Type} (io : Streams P D S FS OF OS IF IS) :
    RaisingStreams E P D S FS OF OS IF IS where
  streams := io
  oarchive := fun k s => Except.ok (io.oarchive k s)
  write_param := fun k p s => Except.ok (io.write_param k p s)
  write_mluts := fun k l s => Except.ok (io.write_mluts k l s)
  save_hook := fun k x s => Except.ok (io.save_hook k x s)
  iarchive := fun k s => Except.ok (io.iarchive k s)
  read_param := fun k s p => Except.ok (io.read_param k s p)
  read_mluts := fun k s l => Except.ok (io.read_mluts k s l)
  load_hook := fun k s x => Except.ok (io.load_hook k s x)

/-- The archive block of `Model::save` for the archive kind `k`, when its
operations may raise: the first one that raises ends the block. -/
def save_block_raising {E : Type} (io : RaisingStreams E P D S FS OF OS IF IS)
    (m : Model P D S) (k : ArchiveKind) (ofs : OS) : Except E OS :=
  match io.oarchive k ofs with
  | Except.error e => Except.error e
  | Except.ok oa =>
    match io.write_param k m.m_param oa with
    | Except.error e => Except.error e
    | Except.ok oa =>
      match io.write_mluts k m.m_mluts oa with
      | Except.error e => Except.error e
      | Except.ok oa =>
        match io.save_hook k m.m_sub oa with
        | Except.error e => Except.error e
        | Except.ok oa => Except.ok (io.streams.oarchive_done k oa)

/-- Embedding of `Model::save`, the archive block, when its operations may
raise: a binary archive for `.vbin`/`.vbgz`, a text archive otherwise. -/
def save_records_raising {E : Type} (io : RaisingStreams E P D S FS OF OS IF IS)
    (m : Model P D S) (path : String) (ofs : OS) : Except E OS :=
  if is_dot_vbin io.streams path then save_block_raising io m ArchiveKind.binary ofs
  else save_block_raising io m ArchiveKind.text ofs

/-- Embedding of `Model::save(path)` when the archive operations may raise: the
exception that leaves the call, or the returned flag and the file system
afterwards. -/
def Model.save_raising {E : Type} (io : RaisingStreams E P D S FS OF OS IF IS) (fs : FS)
    (m : Model P D S) (path : String) : Except E (Bool × FS) :=
  let ofs := save_open io.streams fs path
  if io.streams.ogood ofs == false then
    Except.ok (false, io.streams.close_out fs ofs)
  else
    match save_records_raising io m path ofs with
    | Except.error e => Except.error e
    | Except.ok ofs => Except.ok (io.streams.ogood ofs, io.streams.close_out fs ofs)

/-- The archive block of `Model::load(path)` for the archive kind `k`, when its
operations may raise: the first one that raises ends the block. -/
def load_block_raising {E : Type} (io : RaisingStreams E P D S FS OF OS IF IS)
    (m : Model P D S) (k : ArchiveKind) (ifs : IS) : Except E (Model P D S × IS) :=
  match io.iarchive k ifs with
  | Except.error e => Except.error e
  | Except.ok ia =>
    match io.read_param k ia m.m_param with
    | Except.error e => Except.error e
    | Except.ok (param, ia) =>
      match io.read_mluts k ia m.m_mluts with
      | Except.error e => Except.error e
      | Except.ok (mluts, ia) =>
        match io.load_hook k ia m.m_sub with
        | Except.error e => Except.error e
        | Except.ok (sub, ia) =>
          Except.ok ({ m_param := param, m_mluts := mluts, m_sub := sub },
            io.streams.iarchive_done k ia)

/-- Embedding of `Model::load(path)`, the archive block, when its operations
may raise. -/
def load_records_raising {E : Type} (io : RaisingStreams E P D S FS OF OS IF IS)
    (m : Model P D S) (path : String) (ifs : IS) : Except E (Model P D S × IS) :=
  if is_dot_vbin io.streams path then load_block_raising io m ArchiveKind.binary ifs
  else load_block_raising io m ArchiveKind.text ifs

/-- Embedding of `Model::load(path)` when the archive operations may raise: the
exception that leaves the call (what the model then holds is not described),
or the returned flag and the model afterwards. -/
def Model.load_raising {E : Type} (io : RaisingStreams E P D S FS OF OS IF IS) (fs : FS)
    (m : Model P D S) (path : String) : Except E (Bool × Model P D S) :=
  let ifs := load_open io.streams fs path
  if io.streams.igood ifs == false then
    Except.ok (false, m)
  else
    match load_records_raising io m path ifs with
    | Except.error e => Except.error e
    | Except.ok (m1, ifs) => Except.ok (io.streams.igood ifs, m1)

/-- The archive kind the two entry points choose for `path`. -/
def archive_kind (io : Streams P D S FS OF OS IF IS) (path : String) : ArchiveKind :=
  if is_dot_vbin io path then ArchiveKind.binary else ArchiveKind.text

/-! ### The recording stream layer

An instance of `Streams` in which a stream is the list of the operations
applied to it.  It answers the question which library calls an entry point
makes, whatever `good()` replies (`og`, `ig`). -/

/-- One operation on a stream. -/
inductive Ev (P D S : Type) where
  | gzip_compressor
  | gzip_decompressor
  | out_file (path : String) (binaryMode : Bool)
  | in_file (path : String) (binaryMode : Bool)
  | oarchive (k : ArchiveKind)
  | write_param (k : ArchiveKind) (p : P)
  | write_mluts (k : ArchiveKind) (l : List (List (LUT D)))
  | save_hook (k : ArchiveKind) (s : S)
  | oarchive_done (k : ArchiveKind)
  | iarchive (k : ArchiveKind)
  | read_param (k : ArchiveKind)
  | read_mluts (k : ArchiveKind)
  | load_hook (k : ArchiveKind)
  | iarchive_done (k : ArchiveKind)
deriving DecidableEq, Repr

/-- Whether the operation pushes a gzip filter. -/
def Ev.isGzip : Ev P D S → Bool
  | .gzip_compressor => true
  | .gzip_decompressor => true
  | _ => false

/-- The archive kind an archive operation belongs to. -/
def Ev.kind? : Ev P D S → Option ArchiveKind
  | .oarchive k => some k
  | .write_param k _ => some k
  | .write_mluts k _ => some k
  | .save_hook k _ => some k
  | .oarchive_done k => some k
  | .iarchive k => some k
  | .read_param k => some k
  | .read_mluts k => some k
  | .load_hook k => some k
  | .iarchive_done k => some k
  | _ => none

/-- The recording stream layer: every operation appends itself to the stream;
a read leaves the variable as it was; `good()` is answered by `og` / `ig`. -/
def traceStreams (ext : String → String) (og ig : List (Ev P D S) → Bool) :
    Streams P D S Unit (String × Bool) (List (Ev P D S)) (String × Bool) (List (Ev P D S)) where
  extension := ext
  ofstream := fun _ path b => (path, b)
  filtering_ostream := []
  push_gzip_compressor := fun s => s ++ [Ev.gzip_compressor]
  push_ofstream := fun s f => s ++ [Ev.out_file f.1 f.2]
  ogood := og
  oarchive := fun k s => s ++ [Ev.oarchive k]
  write_param := fun k p s => s ++ [Ev.write_param k p]
  write_mluts := fun k l s => s ++ [Ev.write_mluts k l]
  save_hook := fun k x s => s ++ [Ev.save_hook k x]
  oarchive_done := fun k s => s ++ [Ev.oarchive_done k]
  close_out := fun _ _ => ()
  ifstream := fun _ path b => (path, b)
  filtering_istream := []
  push_gzip_decompressor := fun s => s ++ [Ev.gzip_decompressor]
  push_ifstream := fun s f => s ++ [Ev.in_file f.1 f.2]
  igood := ig
  iarchive := fun k s => s ++ [Ev.iarchive k]
  read_param := fun k s p => (p, s ++ [Ev.read_param k])
  read_mluts := fun k s l => (l, s ++ [Ev.read_mluts k])
  load_hook := fun k s x => (x, s ++ [Ev.load_hook k])
  iarchive_done := fun k s => s ++ [Ev.iarchive_done k]

/-- The text of `name` from its last dot on, or nothing when it has no dot. -/
def lastDotSuffix : List Char → Option (List Char)
  | [] => none
  | c :: t =>
    match lastDotSuffix t with
    | some e => some e
    | none => if c = '.' then some (c :: t) else none

/-- An extension function used in examples: the text from the last dot on. -/
def demoExtension (name : String) : String :=
  match lastDotSuffix name.data with
  | some e => String.mk e
  | none => ""

/-! ### A stream layer over file contents

An instance of `Streams` in which a file is a sequence of symbols of a type
`B`, a stream is its content together with its `good()` flag, and the archives
are given by record encoders and decoders (`Codec`).  A write the device does
not accept, a file that cannot be opened and a record that cannot be decoded
all clear the `good()` flag; operations on a stream that is not good do
nothing. -/

/-- The record encoders and decoders of the two archive kinds, the gzip filter
pair, and the device: which paths can be opened for writing, which contents the
device accepts. -/
structure Codec (P D S B : Type) where
  extension : String → String
  can_open_out : String → Bool
  accepts : List B → Bool
  gzip : List B → List B
  gunzip : List B → Option (List B)
  header : ArchiveKind → List B
  read_header : ArchiveKind → List B → Option (List B)
  trailer : ArchiveKind → List B
  enc_param : ArchiveKind → P → List B
  dec_param : ArchiveKind → List B → Option (P × List B)
  enc_mluts : ArchiveKind → List (List (LUT D)) → List B
  dec_mluts : ArchiveKind → List B → Option (List (List (LUT D)) × List B)
  enc_sub : ArchiveKind → S → List B
  dec_sub : ArchiveKind → List B → Option (S × List B)

/-- The contract of the external codecs: decompression undoes compression, and
each decoder reads back the record its encoder wrote, leaving what follows. -/
structure Codec.Lawful {B : Type} (cd : Codec P D S B) : Prop where
  gunzip_gzip : ∀ b, cd.gunzip (cd.gzip b) = some b
  read_header_header : ∀ k rest, cd.read_header k (cd.header k ++ rest) = some rest
  dec_enc_param : ∀ k p rest, cd.dec_param k (cd.enc_param k p ++ rest) = some (p, rest)
  dec_enc_mluts : ∀ k l rest, cd.dec_mluts k (cd.enc_mluts k l ++ rest) = some (l, rest)
  dec_enc_sub : ∀ k x rest, cd.dec_sub k (cd.enc_sub k x ++ rest) = some (x, rest)

/-- An output file: its path and whether opening it succeeded. -/
structure OFile where
  path : String
  is_open : Bool

/-- An output stream: whether a gzip compressor was pushed, the file at the end
of the chain, the `good()` flag, and what was written so far. -/
structure OStream (B : Type) where
  gz : Bool
  file : Option OFile
  good : Bool
  buf : List B

/-- An input stream: whether a gzip decompressor was pushed, the `good()`
flag, and what remains to be read. -/
structure IStream (B : Type) where
  gz : Bool
  good : Bool
  rest : List B

/-- Writing `bytes`: nothing on a stream that is not good; otherwise the bytes
are appended when the device accepts the content, else the flag is cleared. -/
def OStream.put {B : Type} (accepts : List B → Bool) (bytes : List B)
    (s : OStream B) : OStream B :=
  if s.good then
    if accepts (s.buf ++ bytes) then { s with buf := s.buf ++ bytes }
    else { s with good := false }
  else s

/-- Reading a record into a variable holding `v`: nothing on a stream that is
not good; otherwise the decoded value and the rest, or, when decoding fails,
the variable as it was and the flag cleared. -/
def IStream.get {B α : Type} (dec : List B → Option (α × List B))
    (s : IStream B) (v : α) : α × IStream B :=
  if s.good then
    match dec s.rest with
    | some (v1, rest1) => (v1, { s with rest := rest1 })
    | none => (v, { s with good := false })
  else (v, s)

/-- The stream layer over file contents given by a codec.  The file system
maps a path to the content of the file there, if any. -/
def byteStreams {B : Type} (cd : Codec P D S B) :
    Streams P D S (String → Option (List B)) OFile (OStream B)
      (Option (List B)) (IStream B) where
  extension := cd.extension
  ofstream := fun _ path _ => { path := path, is_open := cd.can_open_out path }
  filtering_ostream := { gz := false, file := none, good := true, buf := [] }
  push_gzip_compressor := fun s => { s with gz := true }
  push_ofstream := fun s f => { s with file := some f, good := s.good && f.is_open }
  ogood := fun s => s.good
  oarchive := fun k s => s.put cd.accepts (cd.header k)
  write_param := fun k p s => s.put cd.accepts (cd.enc_param k p)
  write_mluts := fun k l s => s.put cd.accepts (cd.enc_mluts k l)
  save_hook := fun k x s => s.put cd.accepts (cd.enc_sub k x)
  oarchive_done := fun k s => s.put cd.accepts (cd.trailer k)
  close_out := fun fs s =>
    match s.file with
    | none => fs
    | some f =>
      if f.is_open then
        fun p => if p = f.path then some (if s.gz then cd.gzip s.buf else s.buf) else fs p
      else fs
  ifstream := fun fs path _ => fs path
  filtering_istream := { gz := false, good := true, rest := [] }
  push_gzip_decompressor := fun s => { s with gz := true }
  push_ifstream := fun s f =>
    match f with
    | none => { s with good := false }
    | some raw =>
      if s.gz then
        match cd.gunzip raw with
        | some b => { s with rest := b }
        | none => { s with good := false }
      else { s with rest := raw }
  igood := fun s => s.good
  iarchive := fun k s =>
    if s.good then
      match cd.read_header k s.rest with
      | some rest1 => { s with rest := rest1 }
      | none => { s with good := false }
    else s
  read_param := fun k s p => s.get (cd.dec_param k) p
  read_mluts := fun k s l => s.get (cd.dec_mluts k) l
  load_hook := fun k s x => s.get (cd.dec_sub k) x
  iarchive_done := fun _ s => s

/-- The three records of a persisted model, in no particular order here: the
parameter record, the per-output LUT sequences, the subtype-specific state. -/
inductive Record where
  | param
  | mluts
  | sub
deriving DecidableEq, Repr

/-- The record an operation writes, with the encoding of its archive. -/
def Ev.written? : Ev P D S → Option (ArchiveKind × Record)
  | .write_param k _ => some (k, Record.param)
  | .write_mluts k _ => some (k, Record.mluts)
  | .save_hook k _ => some (k, Record.sub)
  | _ => none

/-- The record an operation reads, with the encoding of its archive. -/
def Ev.consumed? : Ev P D S → Option (ArchiveKind × Record)
  | .read_param k => some (k, Record.param)
  | .read_mluts k => some (k, Record.mluts)
  | .load_hook k => some (k, Record.sub)
  | _ => none

/-! ## The boosting problem (visioner/model/trainers/lutproblems/lut_problem.h)

The header declares `LUTProblem`; its accessors are defined inline there.  The
data set is an external collaborator. -/

/-- Modelled from the spec: the external `DataSet`, a read-only quantized
sample store: the counts of features, samples, outputs and entries, the bucket
`value(feature, sample)`, the targets and the cost of a sample.  A bucket is a
small unsigned integer (`uint16_t`, the type `fvalue` returns). -/
structure DataSet (D : Type) where
  n_features : Nat
  n_samples : Nat
  n_outputs : Nat
  n_fvalues : Nat
  value : Nat → Nat → Nat
  value_lt : ∀ f s, value f s < 65536
  targets : Nat → List D
  cost : Nat → D

/-- The attributes of a `LUTProblem`: the data set, the parameters, the trained
model and the buffered LUTs, the score matrices (sample, output) as lists of
rows, the entry mask and the number of threads.  (The loss and the sharing
policy play no part below.) -/
structure LUTProblem (P D : Type) where
  m_data : DataSet D
  m_param : P
  m_mluts : List (List (LUT D))
  m_luts : List (LUT D)
  m_sscores : List (List D)
  m_wscores : List (List D)
  m_cscores : List (List D)
  m_umasks : List (List D)
  m_threads : Nat

/-- Modelled from the spec: the constructor `LUTProblem(dataset, param,
threads)`, defined outside the header.  It binds the data set, the parameters
and the thread count, and allocates the score matrices (samples x outputs). -/
def LUTProblem.construct [Zero D] (dataset : DataSet D) (param : P) (threads : Nat) :
    LUTProblem P D :=
  { m_data := dataset
    m_param := param
    m_mluts := List.replicate dataset.n_outputs []
    m_luts := []
    m_sscores := List.replicate dataset.n_samples (List.replicate dataset.n_outputs 0)
    m_wscores := List.replicate dataset.n_samples (List.replicate dataset.n_outputs 0)
    m_cscores := List.replicate dataset.n_samples (List.replicate dataset.n_outputs 0)
    m_umasks := List.replicate dataset.n_features (List.replicate dataset.n_fvalues 0)
    m_threads := threads }

/-- Embedding of `n_entries()`: `return m_data.n_fvalues();`. -/
def LUTProblem.n_entries (p : LUTProblem P D) : Nat := p.m_data.n_fvalues

/-- Embedding of `n_features()`: `return m_data.n_features();`. -/
def LUTProblem.n_features (p : LUTProblem P D) : Nat := p.m_data.n_features

/-- Embedding of `n_samples()`: `return m_data.n_samples();`. -/
def LUTProblem.n_samples (p : LUTProblem P D) : Nat := p.m_data.n_samples

/-- Embedding of `n_outputs()`: `return m_data.n_outputs();`. -/
def LUTProblem.n_outputs (p : LUTProblem P D) : Nat := p.m_data.n_outputs

/-- Embedding of `fvalue(f, s)`: `return m_data.value(f, s);`, as a `uint16_t`. -/
def LUTProblem.fvalue (p : LUTProblem P D) (f s : Nat) : Nat :=
  p.m_data.value f s % 65536

/-- Embedding of `target(s)`: `return m_data.targets()[s];`. -/
def LUTProblem.target (p : LUTProblem P D) (s : Nat) : List D := p.m_data.targets s

/-- Embedding of `cost(s)`: `return m_data.cost(s);`. -/
def LUTProblem.cost (p : LUTProblem P D) (s : Nat) : D := p.m_data.cost s

/-- Modelled from the spec: the range partitioner, defined outside the header.
It splits `[0, n_samples)` into `threads` contiguous chunks of size
`ceil(n_samples / threads)`, cut at `n_samples`, so that the last chunks hold
the remainder or nothing. -/
def thread_ranges (n_samples threads : Nat) : List (Nat × Nat) :=
  (List.range threads).map (fun i =>
    (min (i * ((n_samples + threads - 1) / threads)) n_samples,
     min ((i + 1) * ((n_samples + threads - 1) / threads)) n_samples))

/-- The element `(s, o)` of a matrix held as a list of rows. -/
def cell (m : List (List D)) (s o : Nat) : Option D :=
  match m[s]? with
  | none => none
  | some row => row[o]?

/-- The update `m(s, o) += e` of a matrix; undefined out of range. -/
def addAt [Add D] (m : List (List D)) (s o : Nat) (e : D) : Option (List (List D)) :=
  match m[s]? with
  | none => none
  | some row =>
    match row[o]? with
    | none => none
    | some v => some (m.set s (row.set o (v + e)))

/-- Modelled from the spec: the loop over the outputs of one sample `s` in a
worker of `update_scores`: `strong(s, o) += luts[o].entries[fvalue(luts[o].feature, s)]`
for the outputs `os` still to be visited. -/
def LUTProblem.update_scores_outputs [Add D] (p : LUTProblem P D) (luts : List (LUT D))
    (s : Nat) : List Nat → List (List D) → Option (List (List D))
  | [], strong => some strong
  | o :: os, strong =>
    match luts[o]? with
    | none => none
    | some lut =>
      match lut.index (p.fvalue lut.feature s) with
      | none => none
      | some e =>
        match addAt strong s o e with
        | none => none
        | some strong1 => LUTProblem.update_scores_outputs p luts s os strong1

/-- Modelled from the spec: the loop over the samples `ss` of a chunk in a
worker of `update_scores`. -/
def LUTProblem.update_scores_samples [Add D] (p : LUTProblem P D) (luts : List (LUT D)) :
    List Nat → List (List D) → Option (List (List D))
  | [], strong => some strong
  | s :: ss, strong =>
    match p.update_scores_outputs luts s (List.range p.n_outputs) strong with
    | none => none
    | some strong1 => LUTProblem.update_scores_samples p luts ss strong1

/-- Modelled from the spec: the worker `update_scores_mt(luts, range)` (declared
in the header, defined outside it): it folds the LUTs into the rows
`[range.first, range.second)` of `strong` and touches no other row. -/
def LUTProblem.update_scores_mt [Add D] (p : LUTProblem P D) (luts : List (LUT D))
    (range : Nat × Nat) : Option (LUTProblem P D) :=
  match p.update_scores_samples luts (List.range' range.1 (range.2 - range.1)) p.m_sscores with
  | none => none
  | some strong => some { p with m_sscores := strong }

/-- The workers of `update_scores`, one per chunk.  They write disjoint rows,
so running them one after the other in chunk order gives what running them side
by side gives. -/
def LUTProblem.update_scores_chunks [Add D] (luts : List (LUT D)) :
    List (Nat × Nat) → LUTProblem P D → Option (LUTProblem P D)
  | [], p => some p
  | range :: ranges, p =>
    match p.update_scores_mt luts range with
    | none => none
    | some p1 => LUTProblem.update_scores_chunks luts ranges p1

/-- Modelled from the spec: `update_scores(luts)` (declared in the header,
defined outside it): one worker per chunk of the range partitioner. -/
def LUTProblem.update_scores [Add D] (p : LUTProblem P D) (luts : List (LUT D)) :
    Option (LUTProblem P D) :=
  LUTProblem.update_scores_chunks luts (thread_ranges p.n_samples p.m_threads) p

/-- The chunk size of the range partitioner, `ceil(n_samples / threads)`. -/
def chunk_size (n_samples threads : Nat) : Nat :=
  (n_samples + threads - 1) / threads

/-- What every reading of the partitioner contract shares: `rs` consists of
`threads` ranges `[b_i, e_i)` that are contiguous (`b_0 = 0`, `b_{i+1} = e_i`),
pairwise disjoint, inside `[0, n_samples)`, and together cover `[0, n_samples)`. -/
def IsPartition (n_samples threads : Nat) (rs : List (Nat × Nat)) : Prop :=
  rs.length = threads ∧
  (∀ r : Nat × Nat, rs[0]? = some r → r.1 = 0) ∧
  (∀ (i : Nat) (r r1 : Nat × Nat), rs[i]? = some r → rs[i + 1]? = some r1 → r1.1 = r.2) ∧
  (∀ (i j : Nat) (r r1 : Nat × Nat), i < j → rs[i]? = some r → rs[j]? = some r1 →
    ∀ x, ¬ (r.1 ≤ x ∧ x < r.2 ∧ r1.1 ≤ x ∧ x < r1.2)) ∧
  (∀ r ∈ rs, r.1 ≤ r.2 ∧ r.2 ≤ n_samples) ∧
  (∀ x, x < n_samples → ∃ r ∈ rs, r.1 ≤ x ∧ x < r.2)

/-- The sizes as the claim words them: every range but the last has size
`ceil(n_samples / threads)`, the last one holds the remainder. -/
def SizesAsClaimed (n_samples threads : Nat) (rs : List (Nat × Nat)) : Prop :=
  (∀ (i : Nat) (r : Nat × Nat), i + 1 < threads → rs[i]? = some r →
    r.2 - r.1 = chunk_size n_samples threads) ∧
  (∀ r : Nat × Nat, rs[threads - 1]? = some r →
    r.2 - r.1 = n_samples - (threads - 1) * chunk_size n_samples threads)

/-- The contribution of the LUTs to the score of sample `s` and output `o` as
the spec words it: evaluating the LUT of output `o` at the sample yields
`entries[value(feature, sample)]`. -/
def lutEntry (d : DataSet D) (luts : List (LUT D)) (s o : Nat) : Option D :=
  match luts[o]? with
  | none => none
  | some lut => lut.entries[d.value lut.feature s]?

/-! ## Determinant (cxx/math/src/det.cc)

`double` is a type parameter `R`; the source compares entries with `0`,
multiplies them and multiplies by the sign, an `int`. -/

/-- A `blitz::Array<double,2>`: its two extents and its elements. -/
structure Array2 (R : Type) where
  extent0 : Nat
  extent1 : Nat
  elem : Nat → Nat → R

/-- The exceptions the sources raise. -/
inductive Exn where
  /-- A `std::runtime_error`; `what` names the mismatch, followed by the
  expected and the received size the message is formatted with. -/
  | runtime_error (what : String) (expected got : Nat)
  /-- The error the array assertions of `core/array_assert.h` raise. -/
  | shape_error
  /-- A `std::runtime_error` whose message is formatted with strings: the
  format and its arguments. -/
  | runtime_error_text (what : String) (args : List String)
  /-- A `std::invalid_argument`. -/
  | invalid_argument (what : String)
deriving DecidableEq, Repr

/-- Modelled from the spec: `bob::core::array::assertSameDimensionLength(d1, d2)`
of the missing header `core/array_assert.h`: a dimension mismatch fails
immediately with an error. -/
def assertSameDimensionLength (d1 d2 : Nat) : Except Exn Unit :=
  if d1 = d2 then Except.ok () else Except.error Exn.shape_error

/-- The inner loop of `det_` for row `i`, over the columns `js` still to be
visited: `if (P(i,j) > 0) { s = -s; break; }`. -/
def det_inner {R : Type} [Zero R] [LT R] [DecidableRel (fun a b : R => a < b)]
    (Pm : Array2 R) (i : Nat) : List Nat → Int → Int
  | [], s => s
  | j :: js, s => if 0 < Pm.elem i j then -s else det_inner Pm i js s

/-- The outer loop of `det_` over the rows `is` still to be visited, on the
sign `s` and the running product `Udiag`. -/
def det_outer {R : Type} [Zero R] [LT R] [DecidableRel (fun a b : R => a < b)] [Mul R]
    (N : Nat) (Um Pm : Array2 R) : List Nat → Int × R → Int × R
  | [], acc => acc
  | i :: is, (s, Udiag) =>
    det_outer N Um Pm is
      (det_inner Pm i (List.range' (i + 1) (N - (i + 1))) s, Udiag * Um.elem i i)

/-- Embedding of `bob::math::det_(A)`.  `lu A` stands for the external
`math::lu(A, L, U, P)` and gives `(L, U, P)`.  The product `P*L` the source
stores in `Lperm` is never read.  The result is `s*Udiag`. -/
def det_ {R : Type} [Zero R] [One R] [LT R] [DecidableRel (fun a b : R => a < b)] [Mul R]
    [IntCast R] (lu : Array2 R → Array2 R × Array2 R × Array2 R) (A : Array2 R) : R :=
  let N := A.extent0
  let (_, Um, Pm) := lu A
  let (s, Udiag) := det_outer N Um Pm (List.range N) (1, 1)
  (s : R) * Udiag

/-- Embedding of `bob::math::det(A)`: the assertion on the extents, then `det_`. -/
def det {R : Type} [Zero R] [One R] [LT R] [DecidableRel (fun a b : R => a < b)] [Mul R]
    [IntCast R] (lu : Array2 R → Array2 R × Array2 R × Array2 R) (A : Array2 R) :
    Except Exn R :=
  match assertSameDimensionLength A.extent0 A.extent1 with
  | Except.error e => Except.error e
  | Except.ok _ => Except.ok (det_ lu A)

/-- The square array `A` as a matrix over its `N = extent(0)` indices. -/
def Array2.toMatrix {R : Type} (A : Array2 R) :
    Matrix (Fin A.extent0) (Fin A.extent0) R :=
  Matrix.of (fun i j => A.elem i.val j.val)

/-- The contract of the LU decomposition as the claim words it: `A = P*L*U`
with `P` a permutation matrix, `L` unit lower triangular, `U` upper triangular,
all `N x N`. -/
def IsLU {N : Nat} (A L U Pm : Matrix (Fin N) (Fin N) ℚ) : Prop :=
  A = Pm * L * U ∧
  (∃ σ : Equiv.Perm (Fin N), ∀ i j, Pm i j = if σ i = j then 1 else 0) ∧
  (∀ i, L i i = 1) ∧ (∀ i j, i < j → L i j = 0) ∧
  (∀ i j, j < i → U i j = 0)

/-- A call that may raise: the state it leaves and the exception raised, if any. -/
structure Outcome (σ : Type) where
  state : σ
  raised : Option Exn

/-! ## Linear machine (machine/cxx/LinearMachine.cc)

A `blitz::Array<double,1>` is the list of its elements, its extent the length
of the list.  Operations of blitz on arrays of disagreeing shapes are
undefined; functions that perform them return an `Option`. -/

/-- The attributes of a `LinearMachine`; `m_activation` is the function `f` of
the activation object, `m_buffer` the mutable scratch buffer. -/
structure LinearMachine (R : Type) where
  m_input_sub : List R
  m_input_div : List R
  m_weight : Array2 R
  m_bias : List R
  m_activation : R → R
  m_buffer : List R

/-- The shape invariant of a linear machine: input subtraction, input division
and the buffer have as many elements as the weight matrix has rows, the biases
as many as it has columns. -/
def LinearMachine.ShapeInvariant {R : Type} (m : LinearMachine R) : Prop :=
  m.m_input_sub.length = m.m_weight.extent0 ∧
  m.m_input_div.length = m.m_weight.extent0 ∧
  m.m_buffer.length = m.m_weight.extent0 ∧
  m.m_bias.length = m.m_weight.extent1

/-- The assignment `m_buffer = (input - m_input_sub) / m_input_div`, element by
element; undefined unless the four arrays have the same extent. -/
def buffer_assign {R : Type} [Sub R] [Div R] (buffer input sub div : List R) :
    Option (List R) :=
  if input.length = sub.length ∧ sub.length = div.length ∧ buffer.length = input.length then
    some (List.zipWith (fun x d => x / d) (List.zipWith (fun x s => x - s) input sub) div)
  else none

/-- The sum `a(0)*B(0,i) + a(1)*B(1,i) + ...` accumulated from `acc`, over the
elements of `a` still to be visited, `j` being the index of the next one. -/
def dot_column {R : Type} [Add R] [Mul R] (B : Array2 R) (i : Nat) : List R → Nat → R → R
  | [], _, acc => acc
  | x :: xs, j, acc => dot_column B i xs (j + 1) (acc + x * B.elem j i)

/-- Modelled from the spec: `bob::math::prod_(a, B, c)` of the missing header
`math/linear.h`, the product of the vector `a` and the matrix `B` stored in
`c`, without checks: `c(i) = sum_j a(j) * B(j, i)`.  Undefined unless `a` has as
many elements as `B` has rows and `c` as many as `B` has columns. -/
def prod_ {R : Type} [Zero R] [Add R] [Mul R] (a : List R) (B : Array2 R) (c : List R) :
    Option (List R) :=
  if a.length = B.extent0 ∧ c.length = B.extent1 then
    some ((List.range B.extent1).map (fun i => dot_column B i a 0 0))
  else none

/-- The loop `for (i = 0; i < m_weight.extent(1); ++i)
output(i) = m_activation->f(output(i) + m_bias(i));` of `forward_`, over the
indices `is` still to be visited. -/
def activation_loop {R : Type} [Add R] (f : R → R) (bias : List R) :
    List Nat → List R → Option (List R)
  | [], output => some output
  | i :: is, output =>
    match output[i]?, bias[i]? with
    | some y, some b => activation_loop f bias is (output.set i (f (y + b)))
    | _, _ => none

/-- Embedding of `LinearMachine::forward_(input, output)`: the machine (its
buffer is written) and the output afterwards. -/
def LinearMachine.forward_ {R : Type} [Zero R] [Add R] [Sub R] [Mul R] [Div R]
    (m : LinearMachine R) (input output : List R) : Option (LinearMachine R × List R) :=
  match buffer_assign m.m_buffer input m.m_input_sub m.m_input_div with
  | none => none
  | some buffer =>
    match prod_ buffer m.m_weight output with
    | none => none
    | some output1 =>
      match activation_loop m.m_activation m.m_bias (List.range m.m_weight.extent1) output1 with
      | none => none
      | some output2 => some ({ m with m_buffer := buffer }, output2)

/-- Embedding of `LinearMachine::forward(input, output)`: the two dimension
checks, each raising a `std::runtime_error`, then `forward_`. -/
def LinearMachine.forward {R : Type} [Zero R] [Add R] [Sub R] [Mul R] [Div R]
    (m : LinearMachine R) (input output : List R) :
    Option (Outcome (LinearMachine R × List R)) :=
  if m.m_weight.extent0 ≠ input.length then
    some { state := (m, output),
           raised := some (Exn.runtime_error "mismatch on the input dimension"
             m.m_weight.extent0 input.length) }
  else if m.m_weight.extent1 ≠ output.length then
    some { state := (m, output),
           raised := some (Exn.runtime_error "mismatch on the output dimension"
             m.m_weight.extent1 output.length) }
  else
    match m.forward_ input output with
    | none => none
    | some st => some { state := st, raised := none }

/-- Embedding of `LinearMachine::setWeights(weight)`. -/
def LinearMachine.setWeights {R : Type} (m : LinearMachine R) (weight : Array2 R) :
    Outcome (LinearMachine R) :=
  if weight.extent0 ≠ m.m_input_sub.length then
    { state := m,
      raised := some (Exn.runtime_error "mismatch on the weight shape (number of rows)"
        m.m_input_sub.length weight.extent0) }
  else if weight.extent1 ≠ m.m_bias.length then
    { state := m,
      raised := some (Exn.runtime_error "mismatch on the weight shape (number of columns)"
        m.m_bias.length weight.extent1) }
  else { state := { m with m_weight := weight }, raised := none }

/-- Embedding of `LinearMachine::setBiases(bias)`. -/
def LinearMachine.setBiases {R : Type} (m : LinearMachine R) (bias : List R) :
    Outcome (LinearMachine R) :=
  if m.m_weight.extent1 ≠ bias.length then
    { state := m,
      raised := some (Exn.runtime_error "mismatch on the bias shape"
        m.m_weight.extent1 bias.length) }
  else { state := { m with m_bias := bias }, raised := none }

/-- Embedding of `LinearMachine::setInputSubtraction(v)`. -/
def LinearMachine.setInputSubtraction {R : Type} (m : LinearMachine R) (v : List R) :
    Outcome (LinearMachine R) :=
  if m.m_weight.extent0 ≠ v.length then
    { state := m,
      raised := some (Exn.runtime_error "mismatch on the input subtraction shape"
        m.m_weight.extent0 v.length) }
  else { state := { m with m_input_sub := v }, raised := none }

/-- Embedding of `LinearMachine::setInputDivision(v)`. -/
def LinearMachine.setInputDivision {R : Type} (m : LinearMachine R) (v : List R) :
    Outcome (LinearMachine R) :=
  if m.m_weight.extent0 ≠ v.length then
    { state := m,
      raised := some (Exn.runtime_error "mismatch on the input division shape"
        m.m_weight.extent0 v.length) }
  else { state := { m with m_input_div := v }, raised := none }

/-! ## Gaussian mixture (cxx/machine/src/GMMMachine.cc)

The class `Gaussian` is an external collaborator; its operations are the
fields of `GaussianOps`.  A `size_t` product is taken modulo `2^64`. -/

/-- The operations of the external class `Gaussian` that `GMMMachine` uses, on
a type `G` of Gaussian objects. -/
structure GaussianOps (G R : Type) where
  /-- Statement `new Gaussian(n_inputs)`. -/
  make : Nat → G
  /-- Statement `getMean()`. -/
  getMean : G → List R
  /-- Statement `getVariance()`. -/
  getVariance : G → List R
  /-- Statement `updateMean() = v`; undefined when the shapes disagree. -/
  assignMean : G → List R → Option G
  /-- Statement `updateVariance() = v`; undefined when the shapes disagree. -/
  assignVariance : G → List R → Option G
  /-- Statement `applyVarianceThresholds()`. -/
  applyVarianceThresholds : G → G
  /-- Statement `setVarianceThresholds(factor)`. -/
  setVarianceThresholdsFactor : G → R → G
  /-- Statement `setVarianceThresholds(thresholds)`. -/
  setVarianceThresholds : G → List R → G

/-- The attributes of a `GMMMachine`: the counts, the Gaussians, the weights,
and the cached supervectors with their validity flag.  (The scratch buffers of
the likelihood computations play no part below.) -/
structure GMMMachine (G R : Type) where
  m_n_gaussians : Nat
  m_n_inputs : Nat
  m_gaussians : List G
  m_weights : List R
  m_cache_supervector : Bool
  m_cache_mean_supervector : List R
  m_cache_variance_supervector : List R

/-- The product of two `size_t` values. -/
def size_mul (a b : Nat) : Nat := (a * b) % 2 ^ 64

/-- Modelled from the spec: `bob::core::array::assertSameShape(a, b)` of the
missing header `core/array_assert.h`, on one-dimensional arrays: a shape
mismatch fails immediately with an error. -/
def assertSameShape {R : Type} (a b : List R) : Except Exn Unit :=
  if a.length = b.length then Except.ok () else Except.error Exn.shape_error

/-- Row `i` of a two-dimensional array, `A(i, blitz::Range::all())`. -/
def Array2.row {R : Type} (A : Array2 R) (i : Nat) : List R :=
  (List.range A.extent1).map (fun j => A.elem i j)

/-- The slice `v(blitz::Range(first, last))`, both ends included; undefined
when it leaves the array. -/
def range_slice {R : Type} (v : List R) (first last : Nat) : Option (List R) :=
  if first ≤ last ∧ last < v.length then some ((v.drop first).take (last + 1 - first))
  else none

/-- The slice of Gaussian `i` in a supervector,
`blitz::Range(i*m_n_inputs, (i+1)*m_n_inputs-1)`, in `size_t` arithmetic. -/
def supervector_slice {R : Type} (v : List R) (n_inputs i : Nat) : Option (List R) :=
  range_slice v (size_mul i n_inputs) ((size_mul (i + 1) n_inputs + (2 ^ 64 - 1)) % 2 ^ 64)

/-- Embedding of `GMMMachine::setWeights(weights)`. -/
def GMMMachine.setWeights {G R : Type} (m : GMMMachine G R) (weights : List R) :
    Outcome (GMMMachine G R) :=
  match assertSameShape weights m.m_weights with
  | Except.error e => { state := m, raised := some e }
  | Except.ok _ => { state := { m with m_weights := weights }, raised := none }

/-- The loop of `setMeans` over the Gaussians `is` still to be visited:
`m_gaussians[i]->updateMean() = means(i, blitz::Range::all());`. -/
def setMeans_loop {G R : Type} (ops : GaussianOps G R) (means : Array2 R) :
    List Nat → List G → Option (List G)
  | [], gs => some gs
  | i :: is, gs =>
    match gs[i]? with
    | none => none
    | some g =>
      match ops.assignMean g (means.row i) with
      | none => none
      | some g1 => setMeans_loop ops means is (gs.set i g1)

/-- Embedding of `GMMMachine::setMeans(means)`. -/
def GMMMachine.setMeans {G R : Type} (ops : GaussianOps G R) (m : GMMMachine G R)
    (means : Array2 R) : Option (Outcome (GMMMachine G R)) :=
  match assertSameDimensionLength means.extent0 m.m_n_gaussians with
  | Except.error e => some { state := m, raised := some e }
  | Except.ok _ =>
    match assertSameDimensionLength means.extent1 m.m_n_inputs with
    | Except.error e => some { state := m, raised := some e }
    | Except.ok _ =>
      match setMeans_loop ops means (List.range m.m_n_gaussians) m.m_gaussians with
      | none => none
      | some gs =>
        some { state := { m with m_gaussians := gs, m_cache_supervector := false },
               raised := none }

/-- The loop of `setMeanSupervector` over the Gaussians `is` still to be
visited. -/
def setMeanSupervector_loop {G R : Type} (ops : GaussianOps G R) (v : List R)
    (n_inputs : Nat) : List Nat → List G → Option (List G)
  | [], gs => some gs
  | i :: is, gs =>
    match gs[i]?, supervector_slice v n_inputs i with
    | some g, some part =>
      match ops.assignMean g part with
      | none => none
      | some g1 => setMeanSupervector_loop ops v n_inputs is (gs.set i g1)
    | _, _ => none

/-- Embedding of `GMMMachine::setMeanSupervector(mean_supervector)`. -/
def GMMMachine.setMeanSupervector {G R : Type} (ops : GaussianOps G R)
    (m : GMMMachine G R) (mean_supervector : List R) : Option (Outcome (GMMMachine G R)) :=
  match assertSameDimensionLength mean_supervector.length
      (size_mul m.m_n_gaussians m.m_n_inputs) with
  | Except.error e => some { state := m, raised := some e }
  | Except.ok _ =>
    match setMeanSupervector_loop ops mean_supervector m.m_n_inputs
        (List.range m.m_n_gaussians) m.m_gaussians with
    | none => none
    | some gs =>
      some { state := { m with m_gaussians := gs, m_cache_supervector := false },
             raised := none }

/-- The loop of `setVariances` over the Gaussians `is` still to be visited:
the variance is assigned, then the thresholds are applied. -/
def setVariances_loop {G R : Type} (ops : GaussianOps G R) (variances : Array2 R) :
    List Nat → List G → Option (List G)
  | [], gs => some gs
  | i :: is, gs =>
    match gs[i]? with
    | none => none
    | some g =>
      match ops.assignVariance g (variances.row i) with
      | none => none
      | some g1 =>
        setVariances_loop ops variances is (gs.set i (ops.applyVarianceThresholds g1))

/-- Embedding of `GMMMachine::setVariances(variances)`. -/
def GMMMachine.setVariances {G R : Type} (ops : GaussianOps G R) (m : GMMMachine G R)
    (variances : Array2 R) : Option (Outcome (GMMMachine G R)) :=
  match assertSameDimensionLength variances.extent0 m.m_n_gaussians with
  | Except.error e => some { state := m, raised := some e }
  | Except.ok _ =>
    match assertSameDimensionLength variances.extent1 m.m_n_inputs with
    | Except.error e => some { state := m, raised := some e }
    | Except.ok _ =>
      match setVariances_loop ops variances (List.range m.m_n_gaussians) m.m_gaussians with
      | none => none
      | some gs =>
        some { state := { m with m_gaussians := gs, m_cache_supervector := false },
               raised := none }

/-- The loop of `setVarianceSupervector` over the Gaussians `is` still to be
visited. -/
def setVarianceSupervector_loop {G R : Type} (ops : GaussianOps G R) (v : List R)
    (n_inputs : Nat) : List Nat → List G → Option (List G)
  | [], gs => some gs
  | i :: is, gs =>
    match gs[i]?, supervector_slice v n_inputs i with
    | some g, some part =>
      match ops.assignVariance g part with
      | none => none
      | some g1 =>
        setVarianceSupervector_loop ops v n_inputs is
          (gs.set i (ops.applyVarianceThresholds g1))
    | _, _ => none

/-- Embedding of `GMMMachine::setVarianceSupervector(variance_supervector)`. -/
def GMMMachine.setVarianceSupervector {G R : Type} (ops : GaussianOps G R)
    (m : GMMMachine G R) (variance_supervector : List R) :
    Option (Outcome (GMMMachine G R)) :=
  match assertSameDimensionLength variance_supervector.length
      (size_mul m.m_n_gaussians m.m_n_inputs) with
  | Except.error e => some { state := m, raised := some e }
  | Except.ok _ =>
    match setVarianceSupervector_loop ops variance_supervector m.m_n_inputs
        (List.range m.m_n_gaussians) m.m_gaussians with
    | none => none
    | some gs =>
      some { state := { m with m_gaussians := gs, m_cache_supervector := false },
             raised := none }

/-! ## Codec registry (io/cxx/CodecRegistry.cc)

A `std::map` from strings is a function from strings to an optional value;
`find` is application, `m[key] = v` updates the function at `key`. -/

/-- The attributes of the `CodecRegistry`: the map from extension to codec, the
map from extension to description, and the ignore flag.  `C` is the type
`file_factory_t` of codecs. -/
structure CodecRegistry (C : Type) where
  s_extension2codec : String → Option C
  s_extension2description : String → Option String
  s_ignore : Bool

/-- Whether an exception is a `std::runtime_error`. -/
def Exn.isRuntimeError : Exn → Bool
  | .runtime_error _ _ _ => true
  | .runtime_error_text _ _ => true
  | _ => false

/-- The assignment `m[key] = v` on a `std::map`. -/
def map_assign {V : Type} (m : String → Option V) (key : String) (v : V) :
    String → Option V :=
  fun k => if k = key then some v else m k

/-- Embedding of `CodecRegistry::registerExtension(extension, description, codec)`. -/
def CodecRegistry.registerExtension {C : Type} (r : CodecRegistry C)
    (extension description : String) (codec : C) : Outcome (CodecRegistry C) :=
  match r.s_extension2codec extension with
  | none =>
    { state :=
        { r with
          s_extension2codec := map_assign r.s_extension2codec extension codec
          s_extension2description :=
            map_assign r.s_extension2description extension description }
      raised := none }
  | some _ =>
    if !r.s_ignore then
      { state := r
        raised := some (Exn.runtime_error_text
          "extension already registered: %s - ignoring second registration with description"
          [extension, description]) }
    else { state := r, raised := none }

/-- The copy of `extension` transformed by `::tolower`, character by character. -/
def lower_extension (extension : String) : String :=
  String.mk (extension.data.map Char.toLower)

/-- Embedding of `CodecRegistry::isRegistered(extension)`. -/
def CodecRegistry.isRegistered {C : Type} (r : CodecRegistry C) (extension : String) :
    Bool :=
  match r.s_extension2codec (lower_extension extension) with
  | none => false
  | some _ => true

/-- Embedding of `CodecRegistry::findByExtension(extension)`. -/
def CodecRegistry.findByExtension {C : Type} (r : CodecRegistry C) (extension : String) :
    Except Exn C :=
  match r.s_extension2codec (lower_extension extension) with
  | none =>
    Except.error (Exn.runtime_error_text "unregistered extension: %s"
      [lower_extension extension])
  | some codec => Except.ok codec

/-! ## Matlab file utilities (cxx/io/src/MatUtils.cc) -/

/-- Modelled from the spec: the enumeration `ElementType` of the array element
types, declared in a header outside `MatUtils.cc`: the unknown type, bool, the
signed and unsigned integers of 8 to 64 bits, the floats and the complex
numbers built on them. -/
inductive ElementType where
  | t_unknown
  | t_bool
  | t_int8
  | t_int16
  | t_int32
  | t_int64
  | t_uint8
  | t_uint16
  | t_uint32
  | t_uint64
  | t_float32
  | t_float64
  | t_float128
  | t_complex64
  | t_complex128
  | t_complex256
deriving DecidableEq, Repr

/-- The enumerators of `enum matio_classes` (external, `matio.h`) that the
source returns. -/
inductive matio_classes where
  | MAT_C_INT8
  | MAT_C_INT16
  | MAT_C_INT32
  | MAT_C_INT64
  | MAT_C_UINT8
  | MAT_C_UINT16
  | MAT_C_UINT32
  | MAT_C_UINT64
  | MAT_C_SINGLE
  | MAT_C_DOUBLE
deriving DecidableEq, Repr

/-- The enumerators of `enum matio_types` (external, `matio.h`) that the source
names. -/
inductive matio_types where
  | MAT_T_INT8
  | MAT_T_INT16
  | MAT_T_INT32
  | MAT_T_INT64
  | MAT_T_UINT8
  | MAT_T_UINT16
  | MAT_T_UINT32
  | MAT_T_UINT64
  | MAT_T_SINGLE
  | MAT_T_DOUBLE
deriving DecidableEq, Repr

/-- The value of an enumerator of `matio_types` as an `int`, as `matio.h`
gives it. -/
def matio_types.toInt : matio_types → Int
  | .MAT_T_INT8 => 1
  | .MAT_T_UINT8 => 2
  | .MAT_T_INT16 => 3
  | .MAT_T_UINT16 => 4
  | .MAT_T_INT32 => 5
  | .MAT_T_UINT32 => 6
  | .MAT_T_SINGLE => 7
  | .MAT_T_DOUBLE => 9
  | .MAT_T_INT64 => 12
  | .MAT_T_UINT64 => 13

/-- The exception of the `default` branch of `mio_class_type` and
`mio_data_type`. -/
def unsupported_type : Exn :=
  Exn.invalid_argument "data type '%s' is not supported by matio backend"

/-- Embedding of `mio_class_type(i)`. -/
def mio_class_type : ElementType → Except Exn matio_classes
  | .t_int8 => Except.ok .MAT_C_INT8
  | .t_int16 => Except.ok .MAT_C_INT16
  | .t_int32 => Except.ok .MAT_C_INT32
  | .t_int64 => Except.ok .MAT_C_INT64
  | .t_uint8 => Except.ok .MAT_C_UINT8
  | .t_uint16 => Except.ok .MAT_C_UINT16
  | .t_uint32 => Except.ok .MAT_C_UINT32
  | .t_uint64 => Except.ok .MAT_C_UINT64
  | .t_float32 => Except.ok .MAT_C_SINGLE
  | .t_complex64 => Except.ok .MAT_C_SINGLE
  | .t_float64 => Except.ok .MAT_C_DOUBLE
  | .t_complex128 => Except.ok .MAT_C_DOUBLE
  | _ => Except.error unsupported_type

/-- Embedding of `mio_data_type(i)`. -/
def mio_data_type : ElementType → Except Exn matio_types
  | .t_int8 => Except.ok .MAT_T_INT8
  | .t_int16 => Except.ok .MAT_T_INT16
  | .t_int32 => Except.ok .MAT_T_INT32
  | .t_int64 => Except.ok .MAT_T_INT64
  | .t_uint8 => Except.ok .MAT_T_UINT8
  | .t_uint16 => Except.ok .MAT_T_UINT16
  | .t_uint32 => Except.ok .MAT_T_UINT32
  | .t_uint64 => Except.ok .MAT_T_UINT64
  | .t_float32 => Except.ok .MAT_T_SINGLE
  | .t_complex64 => Except.ok .MAT_T_SINGLE
  | .t_float64 => Except.ok .MAT_T_DOUBLE
  | .t_complex128 => Except.ok .MAT_T_DOUBLE
  | _ => Except.error unsupported_type

/-- The `switch` of `torch_element_type`: the element type of a matio type
given as an `int`, or nothing in the `default` branch. -/
def torch_element_switch (mio_type : Int) : Option ElementType :=
  if mio_type = matio_types.MAT_T_INT8.toInt then some .t_int8
  else if mio_type = matio_types.MAT_T_INT16.toInt then some .t_int16
  else if mio_type = matio_types.MAT_T_INT32.toInt then some .t_int32
  else if mio_type = matio_types.MAT_T_INT64.toInt then some .t_int64
  else if mio_type = matio_types.MAT_T_UINT8.toInt then some .t_uint8
  else if mio_type = matio_types.MAT_T_UINT16.toInt then some .t_uint16
  else if mio_type = matio_types.MAT_T_UINT32.toInt then some .t_uint32
  else if mio_type = matio_types.MAT_T_UINT64.toInt then some .t_uint64
  else if mio_type = matio_types.MAT_T_SINGLE.toInt then some .t_float32
  else if mio_type = matio_types.MAT_T_DOUBLE.toInt then some .t_float64
  else none

/-- Embedding of `torch_element_type(mio_type, is_complex)`. -/
def torch_element_type (mio_type : Int) (is_complex : Bool) : ElementType :=
  match torch_element_switch mio_type with
  | none => .t_unknown
  | some eltype =>
    if is_complex then
      if eltype = .t_float32 then .t_complex64
      else if eltype = .t_float64 then .t_complex128
      else .t_unknown
    else eltype

/-- The twelve element types the matio backend supports. -/
def supported_types : List ElementType :=
  [.t_int8, .t_int16, .t_int32, .t_int64, .t_uint8, .t_uint16, .t_uint32, .t_uint64,
   .t_float32, .t_float64, .t_complex64, .t_complex128]

/-- The table of the claim: each supported type with the matio class and data
type of the same width, the complex types on the float of their parts. -/
def matio_table : List (ElementType × matio_classes × matio_types) :=
  [(.t_int8, .MAT_C_INT8, .MAT_T_INT8), (.t_int16, .MAT_C_INT16, .MAT_T_INT16),
   (.t_int32, .MAT_C_INT32, .MAT_T_INT32), (.t_int64, .MAT_C_INT64, .MAT_T_INT64),
   (.t_uint8, .MAT_C_UINT8, .MAT_T_UINT8), (.t_uint16, .MAT_C_UINT16, .MAT_T_UINT16),
   (.t_uint32, .MAT_C_UINT32, .MAT_T_UINT32), (.t_uint64, .MAT_C_UINT64, .MAT_T_UINT64),
   (.t_float32, .MAT_C_SINGLE, .MAT_T_SINGLE), (.t_float64, .MAT_C_DOUBLE, .MAT_T_DOUBLE),
   (.t_complex64, .MAT_C_SINGLE, .MAT_T_SINGLE),
   (.t_complex128, .MAT_C_DOUBLE, .MAT_T_DOUBLE)]

/-! ## K-means machine (cxx/machine/src/KMeansMachine.cc)

The scan for the closest mean only compares distances; `double` is here a type
`R` with the arithmetic of the distance and an order. -/

/-- The attributes of a `KMeansMachine`: the counts, the means (one per row)
and the scratch means. -/
structure KMeansMachine (R : Type) where
  m_n_means : Nat
  m_n_inputs : Nat
  m_means : Array2 R
  m_cache_means : Array2 R

/-- The value of `blitz::sum(blitz::pow2(a - b))` on two arrays of the same
extent: the squares of the differences, summed in index order from zero. -/
def sq_distance {R : Type} [Zero R] [Add R] [Sub R] [Mul R] (a b : List R) : R :=
  (List.zipWith (fun u v => (u - v) * (u - v)) a b).foldl (fun acc t => acc + t) 0

/-- Embedding of `KMeansMachine::getDistanceFromMean(x, i)`; undefined when
`i` is no row of the means or `x` has another extent than a row. -/
def KMeansMachine.getDistanceFromMean {R : Type} [Zero R] [Add R] [Sub R] [Mul R]
    (m : KMeansMachine R) (x : List R) (i : Nat) : Option R :=
  if i < m.m_means.extent0 ∧ x.length = m.m_means.extent1 then
    some (sq_distance (m.m_means.row i) x)
  else none

/-- The loop of `getClosestMean` over the means `is` still to be visited, on
the pair `(closest_mean, min_distance)`. -/
def KMeansMachine.getClosestMean_loop {R : Type} [Zero R] [Add R] [Sub R] [Mul R] [LT R]
    [DecidableRel (fun a b : R => a < b)] (m : KMeansMachine R) (x : List R) :
    List Nat → Int × R → Option (Int × R)
  | [], st => some st
  | i :: is, (closest_mean, min_distance) =>
    match m.getDistanceFromMean x i with
    | none => none
    | some this_distance =>
      if this_distance < min_distance then
        KMeansMachine.getClosestMean_loop m x is ((i : Int), this_distance)
      else KMeansMachine.getClosestMean_loop m x is (closest_mean, min_distance)

/-- Embedding of `KMeansMachine::getClosestMean(x, closest_mean, min_distance)`:
the two output arguments afterwards.  `closest_mean` is what the caller's
variable holds before, `dbl_max` is `DBL_MAX`. -/
def KMeansMachine.getClosestMean {R : Type} [Zero R] [Add R] [Sub R] [Mul R] [LT R]
    [DecidableRel (fun a b : R => a < b)] (m : KMeansMachine R) (dbl_max : R)
    (x : List R) (closest_mean : Int) : Option (Int × R) :=
  m.getClosestMean_loop x (List.range m.m_n_means) (closest_mean, dbl_max)

/-- Embedding of `KMeansMachine::getMinDistance(input)`. -/
def KMeansMachine.getMinDistance {R : Type} [Zero R] [Add R] [Sub R] [Mul R] [LT R]
    [DecidableRel (fun a b : R => a < b)] (m : KMeansMachine R) (dbl_max : R)
    (input : List R) : Option R :=
  match m.getClosestMean dbl_max input (-1) with
  | none => none
  | some st => some st.2

/-! ### Construction, assignment and resizing of a linear machine

A freshly allocated blitz array holds unspecified values; `junk` gives the
value found at each index of such an array. -/

/-- A freshly allocated array of `n` elements. -/
def fresh_array {R : Type} (junk : Nat → R) (n : Nat) : List R :=
  (List.range n).map junk

/-- The effect of `resizeAndPreserve(n)` on a one-dimensional array: the
elements that fit are kept, the new ones are unspecified. -/
def resizeAndPreserve1 {R : Type} (junk : Nat → R) (v : List R) (n : Nat) : List R :=
  v.take n ++ (List.range' v.length (n - v.length)).map junk

/-- The effect of `resizeAndPreserve(rows, cols)` on a two-dimensional array. -/
def resizeAndPreserve2 {R : Type} (junk : Nat → Nat → R) (A : Array2 R) (rows cols : Nat) :
    Array2 R :=
  { extent0 := rows
    extent1 := cols
    elem := fun i j => if i < A.extent0 ∧ j < A.extent1 then A.elem i j else junk i j }

/-- Embedding of the constructor `LinearMachine(weight)`; the activation is the
identity. -/
def LinearMachine.of_weight {R : Type} [Zero R] [One R] (junk : Nat → R)
    (weight : Array2 R) : LinearMachine R :=
  { m_input_sub := List.replicate weight.extent0 0
    m_input_div := List.replicate weight.extent0 1
    m_weight := weight
    m_bias := List.replicate weight.extent1 0
    m_activation := fun x => x
    m_buffer := fresh_array junk weight.extent0 }

/-- Embedding of the default constructor `LinearMachine()`. -/
def LinearMachine.empty {R : Type} (junk : Nat → Nat → R) : LinearMachine R :=
  { m_input_sub := []
    m_input_div := []
    m_weight := { extent0 := 0, extent1 := 0, elem := junk }
    m_bias := []
    m_activation := fun x => x
    m_buffer := [] }

/-- Embedding of the constructor `LinearMachine(n_input, n_output)`. -/
def LinearMachine.sized {R : Type} [Zero R] [One R] (junk : Nat → R)
    (n_input n_output : Nat) : LinearMachine R :=
  { m_input_sub := List.replicate n_input 0
    m_input_div := List.replicate n_input 1
    m_weight := { extent0 := n_input, extent1 := n_output, elem := fun _ _ => 0 }
    m_bias := List.replicate n_output 0
    m_activation := fun x => x
    m_buffer := fresh_array junk n_input }

/-- Embedding of the copy constructor `LinearMachine(other)`: the arrays are
copied, the buffer is allocated with the shape of the input subtraction. -/
def LinearMachine.copy {R : Type} (junk : Nat → R) (other : LinearMachine R) :
    LinearMachine R :=
  { m_input_sub := other.m_input_sub
    m_input_div := other.m_input_div
    m_weight := other.m_weight
    m_bias := other.m_bias
    m_activation := other.m_activation
    m_buffer := fresh_array junk other.m_input_sub.length }

/-- Embedding of `operator=(other)`; `same` says whether `this == &other`. -/
def LinearMachine.assign {R : Type} (junk : Nat → R) (m other : LinearMachine R)
    (same : Bool) : LinearMachine R :=
  if same then m
  else
    { m_input_sub := other.m_input_sub
      m_input_div := other.m_input_div
      m_weight := other.m_weight
      m_bias := other.m_bias
      m_activation := other.m_activation
      m_buffer := fresh_array junk other.m_input_sub.length }

/-- Embedding of `LinearMachine::resize(input, output)`. -/
def LinearMachine.resize {R : Type} (junk : Nat → R) (junk2 : Nat → Nat → R)
    (m : LinearMachine R) (input output : Nat) : LinearMachine R :=
  { m_input_sub := resizeAndPreserve1 junk m.m_input_sub input
    m_input_div := resizeAndPreserve1 junk m.m_input_div input
    m_buffer := resizeAndPreserve1 junk m.m_buffer input
    m_weight := resizeAndPreserve2 junk2 m.m_weight input output
    m_bias := resizeAndPreserve1 junk m.m_bias output
    m_activation := m.m_activation }

/-- Embedding of `LinearMachine::setActivation(a)`. -/
def LinearMachine.setActivation {R : Type} (m : LinearMachine R) (a : R → R) :
    LinearMachine R :=
  { m with m_activation := a }

/-- The machines obtained from the constructors other than the HDF5 one by
copy construction, copy assignment, `resize` and the setters, whether these
succeed or fail. -/
inductive LinearMachine.Reachable {R : Type} [Zero R] [One R] : LinearMachine R → Prop where
  | of_weight (junk : Nat → R) (weight : Array2 R) :
      Reachable (LinearMachine.of_weight junk weight)
  | empty (junk : Nat → Nat → R) : Reachable (LinearMachine.empty junk)
  | sized (junk : Nat → R) (n_input n_output : Nat) :
      Reachable (LinearMachine.sized junk n_input n_output)
  | copy (junk : Nat → R) (other : LinearMachine R) :
      Reachable other → Reachable (LinearMachine.copy junk other)
  | assign (junk : Nat → R) (m other : LinearMachine R) (same : Bool) :
      Reachable m → Reachable other → Reachable (LinearMachine.assign junk m other same)
  | resize (junk : Nat → R) (junk2 : Nat → Nat → R) (m : LinearMachine R)
      (input output : Nat) :
      Reachable m → Reachable (LinearMachine.resize junk junk2 m input output)
  | setWeights (m : LinearMachine R) (weight : Array2 R) :
      Reachable m → Reachable (m.setWeights weight).state
  | setBiases (m : LinearMachine R) (bias : List R) :
      Reachable m → Reachable (m.setBiases bias).state
  | setInputSubtraction (m : LinearMachine R) (v : List R) :
      Reachable m → Reachable (m.setInputSubtraction v).state
  | setInputDivision (m : LinearMachine R) (v : List R) :
      Reachable m → Reachable (m.setInputDivision v).state
  | setActivation (m : LinearMachine R) (a : R → R) :
      Reachable m → Reachable (m.setActivation a)

/-- Embedding of `GMMMachine::initCache()`: the scratch arrays are resized and
the flag of the supervector cache is cleared. -/
def GMMMachine.initCache {G R : Type} (m : GMMMachine G R) : GMMMachine G R :=
  { m with m_cache_supervector := false }

/-- Embedding of `GMMMachine::resize(n_gaussians, n_inputs)`; `weight_fill n`
stands for the `double` value `1.0 / n`. -/
def GMMMachine.resize {G R : Type} (ops : GaussianOps G R) (weight_fill : Nat → R)
    (m : GMMMachine G R) (n_gaussians n_inputs : Nat) : GMMMachine G R :=
  GMMMachine.initCache
    { m with
      m_n_gaussians := n_gaussians
      m_n_inputs := n_inputs
      m_weights := List.replicate n_gaussians (weight_fill n_gaussians)
      m_gaussians := List.replicate n_gaussians (ops.make n_inputs) }

/-- The loop of `copy` over the indices `is` still to be visited: a copy of
`other.m_gaussians[i]` is pushed at the back; undefined when an index leaves the
vector of `other`. -/
def copy_loop {G : Type} (src : List G) : List Nat → List G → Option (List G)
  | [], acc => some acc
  | i :: is, acc =>
    match src[i]? with
    | none => none
    | some g => copy_loop src is (acc ++ [g])

/-- Embedding of `GMMMachine::copy(other)`: the counts, the weights (an array
assignment after `m_weights.resize(m_n_gaussians)`, undefined when the extents
disagree), a copy of every Gaussian of `other`, then `initCache()`. -/
def GMMMachine.copy {G R : Type} (m other : GMMMachine G R) : Option (GMMMachine G R) :=
  if other.m_weights.length = other.m_n_gaussians then
    match copy_loop other.m_gaussians (List.range other.m_n_gaussians) [] with
    | none => none
    | some gs =>
      some (GMMMachine.initCache
        { m with
          m_n_gaussians := other.m_n_gaussians
          m_n_inputs := other.m_n_inputs
          m_weights := other.m_weights
          m_gaussians := gs })
  else none

/-- A loop `for (i ...) m_gaussians[i] = step(i, m_gaussians[i])` over the
Gaussians `is` still to be visited; undefined when an index is out of range or
a step is. -/
def gaussians_loop {G : Type} (step : Nat → G → Option G) : List Nat → List G → Option (List G)
  | [], gs => some gs
  | i :: is, gs =>
    match gs[i]? with
    | none => none
    | some g =>
      match step i g with
      | none => none
      | some g1 => gaussians_loop step is (gs.set i g1)

/-- Embedding of `GMMMachine::setVarianceThresholds(double factor)`. -/
def GMMMachine.setVarianceThresholdsFactor {G R : Type} (ops : GaussianOps G R)
    (m : GMMMachine G R) (factor : R) : Option (Outcome (GMMMachine G R)) :=
  match gaussians_loop (fun _ g => some (ops.setVarianceThresholdsFactor g factor))
      (List.range m.m_n_gaussians) m.m_gaussians with
  | none => none
  | some gs =>
    some { state := { m with m_gaussians := gs, m_cache_supervector := false },
           raised := none }

/-- Embedding of `GMMMachine::setVarianceThresholds(blitz::Array<double,1>)`. -/
def GMMMachine.setVarianceThresholds1 {G R : Type} (ops : GaussianOps G R)
    (m : GMMMachine G R) (variance_thresholds : List R) :
    Option (Outcome (GMMMachine G R)) :=
  match assertSameDimensionLength variance_thresholds.length m.m_n_inputs with
  | Except.error e => some { state := m, raised := some e }
  | Except.ok _ =>
    match gaussians_loop (fun _ g => some (ops.setVarianceThresholds g variance_thresholds))
        (List.range m.m_n_gaussians) m.m_gaussians with
    | none => none
    | some gs =>
      some { state := { m with m_gaussians := gs, m_cache_supervector := false },
             raised := none }

/-- Embedding of `GMMMachine::setVarianceThresholds(const blitz::Array<double,2>&)`. -/
def GMMMachine.setVarianceThresholds2 {G R : Type} (ops : GaussianOps G R)
    (m : GMMMachine G R) (variance_thresholds : Array2 R) :
    Option (Outcome (GMMMachine G R)) :=
  match assertSameDimensionLength variance_thresholds.extent0 m.m_n_gaussians with
  | Except.error e => some { state := m, raised := some e }
  | Except.ok _ =>
    match assertSameDimensionLength variance_thresholds.extent1 m.m_n_inputs with
    | Except.error e => some { state := m, raised := some e }
    | Except.ok _ =>
      match gaussians_loop
          (fun i g => some (ops.setVarianceThresholds g (variance_thresholds.row i)))
          (List.range m.m_n_gaussians) m.m_gaussians with
      | none => none
      | some gs =>
        some { state := { m with m_gaussians := gs, m_cache_supervector := false },
               raised := none }

/-- The assignment `v(blitz::Range(first, last)) = src`; undefined when the
range leaves the array or the extents disagree. -/
def assign_slice {R : Type} (v : List R) (first last : Nat) (src : List R) :
    Option (List R) :=
  if first ≤ last ∧ last < v.length ∧ src.length = last + 1 - first then
    some (v.take first ++ src ++ v.drop (last + 1))
  else none

/-- The assignment to the slice of Gaussian `i` of a supervector,
`v(blitz::Range(i*m_n_inputs, (i+1)*m_n_inputs-1)) = src`, in `size_t`
arithmetic. -/
def assign_supervector_slice {R : Type} (v : List R) (n_inputs i : Nat) (src : List R) :
    Option (List R) :=
  assign_slice v (size_mul i n_inputs)
    ((size_mul (i + 1) n_inputs + (2 ^ 64 - 1)) % 2 ^ 64) src

/-- The loop of `updateCacheSupervectors` over the Gaussians `is` still to be
visited, on the two cached supervectors. -/
def updateCache_loop {G R : Type} (ops : GaussianOps G R) (n_inputs : Nat) (gs : List G) :
    List Nat → List R × List R → Option (List R × List R)
  | [], caches => some caches
  | i :: is, (cache_mean, cache_variance) =>
    match gs[i]? with
    | none => none
    | some g =>
      match assign_supervector_slice cache_mean n_inputs i (ops.getMean g),
          assign_supervector_slice cache_variance n_inputs i (ops.getVariance g) with
      | some cache_mean1, some cache_variance1 =>
        updateCache_loop ops n_inputs gs is (cache_mean1, cache_variance1)
      | _, _ => none

/-- Embedding of `GMMMachine::updateCacheSupervectors()`: both caches are
resized (their content is then unspecified, `junk`), filled Gaussian by
Gaussian, and the flag is set. -/
def GMMMachine.updateCacheSupervectors {G R : Type} (ops : GaussianOps G R) (junk : Nat → R)
    (m : GMMMachine G R) : Option (GMMMachine G R) :=
  match updateCache_loop ops m.m_n_inputs m.m_gaussians (List.range m.m_n_gaussians)
      (fresh_array junk (size_mul m.m_n_gaussians m.m_n_inputs),
       fresh_array junk (size_mul m.m_n_gaussians m.m_n_inputs)) with
  | none => none
  | some (cache_mean, cache_variance) =>
    some { m with
           m_cache_mean_supervector := cache_mean
           m_cache_variance_supervector := cache_variance
           m_cache_supervector := true }

/-- Embedding of `GMMMachine::getMeanSupervector()`: the machine afterwards (its
cache is mutable) and the array returned. -/
def GMMMachine.getMeanSupervector {G R : Type} (ops : GaussianOps G R) (junk : Nat → R)
    (m : GMMMachine G R) : Option (GMMMachine G R × List R) :=
  if !m.m_cache_supervector then
    match m.updateCacheSupervectors ops junk with
    | none => none
    | some m1 => some (m1, m1.m_cache_mean_supervector)
  else some (m, m.m_cache_mean_supervector)

/-- Embedding of `GMMMachine::getVarianceSupervector()`. -/
def GMMMachine.getVarianceSupervector {G R : Type} (ops : GaussianOps G R) (junk : Nat → R)
    (m : GMMMachine G R) : Option (GMMMachine G R × List R) :=
  if !m.m_cache_supervector then
    match m.updateCacheSupervectors ops junk with
    | none => none
    | some m1 => some (m1, m1.m_cache_variance_supervector)
  else some (m, m.m_cache_variance_supervector)

/-- The contract of the external class `Gaussian` used below: a new Gaussian
of `n` inputs has a mean and a variance of `n` elements; an assignment to the
mean or the variance is defined when the extents agree; no operation changes
the extent of the mean or of the variance. -/
structure GaussianOps.KeepsExtents {G R : Type} (ops : GaussianOps G R) : Prop where
  make_mean : ∀ n, (ops.getMean (ops.make n)).length = n
  make_variance : ∀ n, (ops.getVariance (ops.make n)).length = n
  assignMean_defined : ∀ g v, v.length = (ops.getMean g).length →
    ∃ g1, ops.assignMean g v = some g1
  assignMean_extents : ∀ g v g1, ops.assignMean g v = some g1 →
    (ops.getMean g1).length = (ops.getMean g).length ∧
    (ops.getVariance g1).length = (ops.getVariance g).length
  assignVariance_defined : ∀ g v, v.length = (ops.getVariance g).length →
    ∃ g1, ops.assignVariance g v = some g1
  assignVariance_extents : ∀ g v g1, ops.assignVariance g v = some g1 →
    (ops.getMean g1).length = (ops.getMean g).length ∧
    (ops.getVariance g1).length = (ops.getVariance g).length
  apply_extents : ∀ g,
    (ops.getMean (ops.applyVarianceThresholds g)).length = (ops.getMean g).length ∧
    (ops.getVariance (ops.applyVarianceThresholds g)).length = (ops.getVariance g).length
  factor_extents : ∀ g x,
    (ops.getMean (ops.setVarianceThresholdsFactor g x)).length = (ops.getMean g).length ∧
    (ops.getVariance (ops.setVarianceThresholdsFactor g x)).length
      = (ops.getVariance g).length
  thresholds_extents : ∀ g t,
    (ops.getMean (ops.setVarianceThresholds g t)).length = (ops.getMean g).length ∧
    (ops.getVariance (ops.setVarianceThresholds g t)).length = (ops.getVariance g).length

/-- A machine of `n_gaussians` Gaussians of `n_inputs` dimensions: the vector
of Gaussians and the weights have `n_gaussians` elements, every Gaussian has a
mean and a variance of `n_inputs` elements; there is a dimension unless there
is no Gaussian; the supervector size is a `size_t`. -/
structure GMMMachine.Shaped {G R : Type} (ops : GaussianOps G R) (m : GMMMachine G R) :
    Prop where
  gaussians_length : m.m_gaussians.length = m.m_n_gaussians
  weights_length : m.m_weights.length = m.m_n_gaussians
  extents : ∀ g ∈ m.m_gaussians,
    (ops.getMean g).length = m.m_n_inputs ∧ (ops.getVariance g).length = m.m_n_inputs
  dimension : m.m_n_gaussians = 0 ∨ 1 ≤ m.m_n_inputs
  size : m.m_n_gaussians * m.m_n_inputs < 2 ^ 64

/-- The cache is sound: when its flag is set, the cached supervectors are the
concatenation, in Gaussian order, of the current means and variances. -/
def GMMMachine.CacheSound {G R : Type} (ops : GaussianOps G R) (m : GMMMachine G R) : Prop :=
  m.m_cache_supervector = true →
    m.m_cache_mean_supervector = (m.m_gaussians.map ops.getMean).flatten ∧
    m.m_cache_variance_supervector = (m.m_gaussians.map ops.getVariance).flatten

/-- A call on a Gaussian mixture: one of the mutating operations or one of the
two cached accessors. -/
inductive GMMCall (G R : Type) where
  | resize (n_gaussians n_inputs : Nat)
  | copy (other : GMMMachine G R)
  | setMeans (means : Array2 R)
  | setMeanSupervector (v : List R)
  | setVariances (variances : Array2 R)
  | setVarianceSupervector (v : List R)
  | setVarianceThresholdsFactor (factor : R)
  | setVarianceThresholds1 (thresholds : List R)
  | setVarianceThresholds2 (thresholds : Array2 R)
  | getMeanSupervector
  | getVarianceSupervector

/-- Whether a call is one of the mutating operations. -/
def GMMCall.isMutator {G R : Type} : GMMCall G R → Bool
  | .getMeanSupervector => false
  | .getVarianceSupervector => false
  | _ => true

/-- Whether a call is what a constructor runs: `GMMMachine()` runs
`resize(0,0)`, `GMMMachine(n_gaussians, n_inputs)` runs `resize`, the copy
constructor runs `copy`. -/
def GMMCall.constructs {G R : Type} : GMMCall G R → Bool
  | .resize _ _ => true
  | .copy _ => true
  | _ => false

/-- The arguments a call can be given: `resize` sizes that make a machine (a
dimension unless there is no Gaussian, a supervector size that is a `size_t`),
and for `copy` a machine of well-shaped Gaussians. -/
def GMMCall.Fits {G R : Type} (ops : GaussianOps G R) : GMMCall G R → Prop
  | .resize n_gaussians n_inputs =>
    (n_gaussians = 0 ∨ 1 ≤ n_inputs) ∧ n_gaussians * n_inputs < 2 ^ 64
  | .copy other => other.Shaped ops
  | _ => True

/-- The effect of a call: the machine afterwards and the exception raised, if
any; undefined when the call is. -/
def GMMCall.apply {G R : Type} (ops : GaussianOps G R) (junk : Nat → R)
    (weight_fill : Nat → R) (m : GMMMachine G R) :
    GMMCall G R → Option (Outcome (GMMMachine G R))
  | .resize n_gaussians n_inputs =>
    some { state := m.resize ops weight_fill n_gaussians n_inputs, raised := none }
  | .copy other =>
    match m.copy other with
    | none => none
    | some m1 => some { state := m1, raised := none }
  | .setMeans means => m.setMeans ops means
  | .setMeanSupervector v => m.setMeanSupervector ops v
  | .setVariances variances => m.setVariances ops variances
  | .setVarianceSupervector v => m.setVarianceSupervector ops v
  | .setVarianceThresholdsFactor factor => m.setVarianceThresholdsFactor ops factor
  | .setVarianceThresholds1 thresholds => m.setVarianceThresholds1 ops thresholds
  | .setVarianceThresholds2 thresholds => m.setVarianceThresholds2 ops thresholds
  | .getMeanSupervector =>
    match m.getMeanSupervector ops junk with
    | none => none
    | some st => some { state := st.1, raised := none }
  | .getVarianceSupervector =>
    match m.getVarianceSupervector ops junk with
    | none => none
    | some st => some { state := st.1, raised := none }

/-- A sequence of calls, each on the machine the previous one left (a call that
raises leaves its machine and the sequence goes on). -/
def GMMCall.run {G R : Type} (ops : GaussianOps G R) (junk : Nat → R)
    (weight_fill : Nat → R) : List (GMMCall G R) → GMMMachine G R → Option (GMMMachine G R)
  | [], m => some m
  | c :: cs, m =>
    match c.apply ops junk weight_fill m with
    | none => none
    | some o => GMMCall.run ops junk weight_fill cs o.state

/-! ## Concrete data used to exercise the statements -/

/-- A LUT on feature 2 with four entries. -/
def lutA : LUT Int := { feature := 2, entries := [0, 1, 0, 2] }

/-- A LUT on feature 5 with four entries. -/
def lutB : LUT Int := { feature := 5, entries := [3, -1, 4, 1] }

/-- A two-output model: output 0 holds `lutA, lutB, lutA`, output 1 holds `lutB`. -/
def demoModel : Model Nat Int Unit :=
  { m_param := 7, m_mluts := [[lutA, lutB, lutA], [lutB]], m_sub := () }

/-- A feature evaluation used in examples: feature `f` at `(x, y)` has value
`(f + x + y) mod 4`. -/
def demoGet (f : Nat) (x y : Int) : Nat :=
  ((f + x + y) % 4).toNat

/-- The symbols of the example codec: one symbol per record. -/
inductive Tok where
  | gz
  | hdr (k : ArchiveKind)
  | trl (k : ArchiveKind)
  | param (k : ArchiveKind) (p : Nat)
  | mluts (k : ArchiveKind) (l : List (List (LUT Int)))
  | sub (k : ArchiveKind) (x : Unit)
deriving DecidableEq

/-- An example codec: every record is one symbol tagged with its archive kind,
compression puts a mark in front; the empty path cannot be opened and the
device takes at most eight symbols. -/
def tokCodec : Codec Nat Int Unit Tok where
  extension := demoExtension
  can_open_out := fun path => path != ""
  accepts := fun b => b.length ≤ 8
  gzip := fun b => Tok.gz :: b
  gunzip := fun b =>
    match b with
    | Tok.gz :: rest => some rest
    | _ => none
  header := fun k => [Tok.hdr k]
  read_header := fun k b =>
    match b with
    | Tok.hdr k1 :: rest => if k = k1 then some rest else none
    | _ => none
  trailer := fun k => [Tok.trl k]
  enc_param := fun k p => [Tok.param k p]
  dec_param := fun k b =>
    match b with
    | Tok.param k1 p :: rest => if k = k1 then some (p, rest) else none
    | _ => none
  enc_mluts := fun k l => [Tok.mluts k l]
  dec_mluts := fun k b =>
    match b with
    | Tok.mluts k1 l :: rest => if k = k1 then some (l, rest) else none
    | _ => none
  enc_sub := fun k x => [Tok.sub k x]
  dec_sub := fun k b =>
    match b with
    | Tok.sub k1 x :: rest => if k = k1 then some (x, rest) else none
    | _ => none

/-- The empty file system. -/
def noFiles : String → Option (List Tok) := fun _ => none

/-- A model with other content than `demoModel`, to load into. -/
def blankModel : Model Nat Int Unit :=
  { m_param := 0, m_mluts := [], m_sub := () }

/-- The data set of the scenario: one feature of 4 buckets, one output, three
samples whose bucket values are 0, 1, 3. -/
def scenarioData : DataSet Int where
  n_features := 1
  n_samples := 3
  n_outputs := 1
  n_fvalues := 4
  value := fun _ s => if s = 0 then 0 else if s = 1 then 1 else 3
  value_lt := fun _ s => by
    by_cases h0 : s = 0
    · simp [h0]
    · by_cases h1 : s = 1 <;> simp [h0, h1]
  targets := fun _ => [0]
  cost := fun _ => 1

/-- The LUT of the scenario: feature 0, entries `[0.0, 1.0, 0.0, 2.0]`. -/
def scenarioLut : LUT Int := { feature := 0, entries := [0, 1, 0, 2] }

/-- The problem of the scenario with `threads` threads, whose column 0 of
`strong` holds `a, b, c`. -/
def scenarioProblem (threads : Nat) (a b c : Int) : LUTProblem Nat Int :=
  { LUTProblem.construct scenarioData 0 threads with m_sscores := [[a], [b], [c]] }

/-- The 3 x 3 permutation matrix with ones at (0,2), (1,0), (2,1). -/
def cycleArray : Array2 ℚ where
  extent0 := 3
  extent1 := 3
  elem := fun i j => if (i = 0 ∧ j = 2) ∨ (i = 1 ∧ j = 0) ∨ (i = 2 ∧ j = 1) then 1 else 0

/-- The 3 x 3 identity. -/
def identityArray : Array2 ℚ where
  extent0 := 3
  extent1 := 3
  elem := fun i j => if i = j then 1 else 0

/-- An LU decomposition for `cycleArray`: `L = U = 1` and `P` the array itself
(the only decomposition `A = P*L*U` a permutation matrix has). -/
def cycleLU : Array2 ℚ → Array2 ℚ × Array2 ℚ × Array2 ℚ :=
  fun A => (identityArray, identityArray, A)

/-- A 2 x 3 array. -/
def wideArray : Array2 ℚ where
  extent0 := 2
  extent1 := 3
  elem := fun _ _ => 1

/-- A linear machine with 2 inputs and 1 output, as `LinearMachine(2, 1)`
builds it. -/
def demoMachine : LinearMachine Int where
  m_input_sub := [0, 0]
  m_input_div := [1, 1]
  m_weight := { extent0 := 2, extent1 := 1, elem := fun _ _ => 0 }
  m_bias := [0]
  m_activation := fun x => x
  m_buffer := [0, 0]

/-- A 2 x 1 weight matrix. -/
def demoWeight : Array2 Int := { extent0 := 2, extent1 := 1, elem := fun i _ => i + 1 }

/-- A 3 x 1 weight matrix, one row too many for `demoMachine`. -/
def tallWeight : Array2 Int := { extent0 := 3, extent1 := 1, elem := fun _ _ => 1 }

/-- An example Gaussian object: mean, variance and variance thresholds. -/
structure DemoGaussian where
  mean : List Int
  variance : List Int
  thresholds : List Int
deriving DecidableEq, Repr

/-- Example operations on `DemoGaussian`: assignments need equal extents, the
thresholds bound the variance from below. -/
def demoOps : GaussianOps DemoGaussian Int where
  make := fun n =>
    { mean := List.replicate n 0, variance := List.replicate n 1,
      thresholds := List.replicate n 0 }
  getMean := fun g => g.mean
  getVariance := fun g => g.variance
  assignMean := fun g v => if v.length = g.mean.length then some { g with mean := v } else none
  assignVariance := fun g v =>
    if v.length = g.variance.length then some { g with variance := v } else none
  applyVarianceThresholds := fun g =>
    { g with variance := g.variance.enum.map (fun jv => max jv.2 (g.thresholds.getD jv.1 jv.2)) }
  setVarianceThresholdsFactor := fun g x =>
    { g with thresholds := g.thresholds.map (fun _ => x) }
  setVarianceThresholds := fun g t => { g with thresholds := t }

/-- A mixture of 2 Gaussians of 2 inputs. -/
def demoGMM : GMMMachine DemoGaussian Int where
  m_n_gaussians := 2
  m_n_inputs := 2
  m_gaussians := [demoOps.make 2, demoOps.make 2]
  m_weights := [1, 1]
  m_cache_supervector := false
  m_cache_mean_supervector := []
  m_cache_variance_supervector := []

/-- A 3 x 2 array, one row too many for `demoGMM`. -/
def tallMeans : Array2 Int := { extent0 := 3, extent1 := 2, elem := fun _ _ => 7 }

/-- A registry with nothing registered; codecs are numbers. -/
def emptyRegistry (ignore : Bool) : CodecRegistry Nat :=
  { s_extension2codec := fun _ => none
    s_extension2description := fun _ => none
    s_ignore := ignore }

/-- A registry in which `.mat` is registered with codec 1. -/
def matRegistry (ignore : Bool) : CodecRegistry Nat :=
  { s_extension2codec := fun k => if k = ".mat" then some 1 else none
    s_extension2description := fun k => if k = ".mat" then some "Matlab" else none
    s_ignore := ignore }

/-- A k-means machine with the three means (0,0), (3,4), (0,1) in the plane. -/
def demoKMeans : KMeansMachine Int where
  m_n_means := 3
  m_n_inputs := 2
  m_means :=
    { extent0 := 3, extent1 := 2,
      elem := fun i j => if i = 1 then (if j = 0 then 3 else 4) else if i = 2 then j else 0 }
  m_cache_means := { extent0 := 3, extent1 := 2, elem := fun _ _ => 0 }

/-- The values an unspecified element is given in examples. -/
def demoJunk : Nat → Int := fun i => 40 + i

/-- A 2 x 2 array of means for `demoGMM`. -/
def demoMeans : Array2 Int :=
  { extent0 := 2, extent1 := 2, elem := fun i j => 10 * (i : Int) + (j : Int) }

/-- A sequence of calls on a mixture: construction with 2 Gaussians of 2
inputs, then setters (one of them with a wrong shape) interleaved with the
accessors. -/
def demoCalls : List (GMMCall DemoGaussian Int) :=
  [GMMCall.setMeans demoMeans, GMMCall.getMeanSupervector,
   GMMCall.setVarianceSupervector [5, 6, 7, 8], GMMCall.setMeans tallMeans,
   GMMCall.setMeanSupervector [1, 2, 3, 4], GMMCall.getVarianceSupervector,
   GMMCall.setVarianceThresholdsFactor 6]

/-- A small arithmetic with a negative zero and a not-a-number value, as
`double` has them: `num 0` is the positive zero, `negzero` the negative one;
the sign of a zero result follows the rules of `double`; every operation on
`nan` gives `nan`.  It has no infinities: a division by zero gives `nan`. -/
inductive Quiet where
  | num (q : Int)
  | negzero
  | nan
deriving DecidableEq, Repr

/-- The number a value stands for, if it is one. -/
def Quiet.val : Quiet → Option Int
  | .num q => some q
  | .negzero => some 0
  | .nan => none

/-- Whether the sign bit is set. -/
def Quiet.signbit : Quiet → Bool
  | .num q => decide (q < 0)
  | .negzero => true
  | .nan => false

/-- The zero of the given sign bit. -/
def Quiet.zero (negative : Bool) : Quiet :=
  if negative then Quiet.negzero else Quiet.num 0

/-- The opposite of a value. -/
def Quiet.neg : Quiet → Quiet
  | .num q => if q = 0 then Quiet.negzero else Quiet.num (-q)
  | .negzero => Quiet.num 0
  | .nan => Quiet.nan

instance : Zero Quiet := ⟨Quiet.num 0⟩

instance : One Quiet := ⟨Quiet.num 1⟩

/-- A sum that is zero is the negative zero only when both terms are. -/
instance : Add Quiet :=
  ⟨fun a b => match a.val, b.val with
    | some x, some y =>
      if x + y = 0 then Quiet.zero (a.signbit && b.signbit && decide (x = 0))
      else Quiet.num (x + y)
    | _, _ => Quiet.nan⟩

instance : Sub Quiet := ⟨fun a b => a + b.neg⟩

/-- A product that is zero has the sign bit of its factors combined. -/
instance : Mul Quiet :=
  ⟨fun a b => match a.val, b.val with
    | some x, some y =>
      if x * y = 0 then Quiet.zero (a.signbit != b.signbit) else Quiet.num (x * y)
    | _, _ => Quiet.nan⟩

/-- A quotient that is zero has the sign bit of its terms combined. -/
instance : Div Quiet :=
  ⟨fun a b => match a.val, b.val with
    | some x, some y =>
      if y = 0 then Quiet.nan
      else if x / y = 0 then Quiet.zero (a.signbit != b.signbit) else Quiet.num (x / y)
    | _, _ => Quiet.nan⟩

/-- A stream layer whose stream cannot be written nor read: it opens and
answers `good()` with true, the archives are constructed, and the write of the
LUT sequences and the read of the parameters raise. -/
def brokenStreams : RaisingStreams String Nat Int Unit Unit (String × Bool)
    (List (Ev Nat Int Unit)) (String × Bool) (List (Ev Nat Int Unit)) :=
  { Streams.raising (traceStreams demoExtension (fun _ => true) (fun _ => true)) with
    write_mluts := fun _ _ _ => Except.error "output stream error"
    read_param := fun _ _ _ => Except.error "input stream error" }

/-- A stream layer whose stream is not good once opened; no archive operation
raises. -/
def unopenedStreams : RaisingStreams String Nat Int Unit Unit (String × Bool)
    (List (Ev Nat Int Unit)) (String × Bool) (List (Ev Nat Int Unit)) :=
  Streams.raising (traceStreams demoExtension (fun _ => false) (fun _ => false))

/-! ## Theorems -/

theorem assignAt_getElem? {α : Type} (v : List α) (o : Nat) (x : α) (w : List α)
    (h : assignAt v o x = some w) :
    w.length = v.length ∧ ∀ i, w[i]? = if i = o then some x else v[i]? := by
  unfold assignAt at h
  split at h
  · rename_i hlt
    cases h
    refine ⟨by simp, fun i => ?_⟩
    by_cases hi : i = o
    · subst hi; simp [hlt]
    · have : o ≠ i := fun e => hi e.symm
      simp [hi, List.getElem?_set, this]
  · cases h

theorem assignAt_isSome {α : Type} (v : List α) (o : Nat) (x : α) (h : o < v.length) :
    assignAt v o x = some (v.set o x) := by
  simp [assignAt, h]

theorem setLoop_spec (mluts : List (List (LUT D))) :
    ∀ (os : List Nat) (cur : List (List (LUT D))),
      (∀ o ∈ os, o < mluts.length) → cur.length = mluts.length →
      ∃ res, setLoop mluts os cur = some res ∧ res.length = mluts.length ∧
        ∀ i, res[i]? = if i ∈ os then mluts[i]? else cur[i]? := by
  intro os
  induction os with
  | nil => intro cur _ hlen; exact ⟨cur, rfl, hlen, fun i => by simp⟩
  | cons o os ih =>
    intro cur hos hlen
    have ho : o < mluts.length := hos o (by simp)
    have hsrc : mluts[o]? = some mluts[o] := List.getElem?_eq_getElem ho
    have hcur : assignAt cur o mluts[o] = some (cur.set o mluts[o]) :=
      assignAt_isSome cur o _ (by omega)
    obtain ⟨hl1, hget1⟩ := assignAt_getElem? cur o mluts[o] _ hcur
    obtain ⟨res, hres, hrl, hrg⟩ :=
      ih (cur.set o mluts[o]) (fun a ha => hos a (by simp [ha])) (by simp [hlen])
    refine ⟨res, ?_, hrl, fun i => ?_⟩
    · simp only [setLoop, hsrc, hcur, hres]
    · rw [hrg i, hget1 i]
      by_cases hio : i = o
      · subst hio; simp [hsrc]
      · by_cases him : i ∈ os <;> simp [hio, him]

theorem setLoop_range (mluts cur : List (List (LUT D))) (h : cur.length = mluts.length) :
    setLoop mluts (List.range cur.length) cur = some mluts := by
  obtain ⟨res, hres, hlen, hget⟩ :=
    setLoop_spec mluts (List.range cur.length) cur
      (fun o ho => by rw [List.mem_range] at ho; omega) h
  rw [hres]
  congr 1
  apply List.ext_getElem? 
  intro i
  rw [hget i]
  by_cases hi : i < cur.length
  · simp [hi]
  · have h1 : cur[i]? = none := List.getElem?_eq_none (by omega)
    have h2 : mluts[i]? = none := List.getElem?_eq_none (by omega)
    simp [hi, h1, h2]

/-- C1: when the size of `mluts` differs from `n_outputs()`, `Model::set`
returns false and the model (so every per-output LUT sequence) is exactly what
it was before the call. -/
theorem set_size_mismatch (m : Model P D S) (mluts : List (List (LUT D)))
    (h : mluts.length ≠ m.n_outputs) :
    m.set mluts = some (false, m) := by
  simp [Model.set, h]

theorem set_size_mismatch_witness :
    ([[lutA]] : List (List (LUT Int))).length ≠ demoModel.n_outputs ∧
      demoModel.set [[lutA]] = some (false, demoModel) :=
  ⟨by decide, set_size_mismatch demoModel [[lutA]] (by decide)⟩

/-- C2: when the size of `mluts` equals `n_outputs()`, `Model::set` returns
true, the sequence of every output `o` afterwards is `mluts[o]`, and
`n_outputs()` is unchanged (parameters and subtype state are untouched). -/
theorem set_size_match (m : Model P D S) (mluts : List (List (LUT D)))
    (h : mluts.length = m.n_outputs) :
    ∃ m1 : Model P D S, m.set mluts = some (true, m1) ∧
      m1.n_outputs = m.n_outputs ∧
      (∀ o, o < m.n_outputs → m1.m_mluts[o]? = mluts[o]?) ∧
      m1.m_mluts = mluts ∧ m1.m_param = m.m_param ∧ m1.m_sub = m.m_sub := by
  have hl : m.m_mluts.length = mluts.length := by
    simpa [Model.n_outputs] using h.symm
  refine ⟨{ m with m_mluts := mluts }, ?_, ?_, ?_, rfl, rfl, rfl⟩
  · have := setLoop_range mluts m.m_mluts hl
    simp [Model.set, h, Model.n_outputs, this]
  · simp [Model.n_outputs, hl]
  · intro o _; rfl

theorem set_size_match_witness :
    ∃ m1 : Model Nat Int Unit,
      demoModel.set [[lutB], [lutA, lutA]] = some (true, m1) ∧
      m1.n_outputs = demoModel.n_outputs ∧
      (∀ o, o < demoModel.n_outputs →
        m1.m_mluts[o]? = ([[lutB], [lutA, lutA]] : List (List (LUT Int)))[o]?) ∧
      m1.m_mluts = [[lutB], [lutA, lutA]] ∧ m1.m_param = demoModel.m_param ∧
      m1.m_sub = demoModel.m_sub :=
  set_size_match demoModel [[lutB], [lutA, lutA]] (by decide)

theorem scoreLoop_range' [Add D] (m : Model P D S) (get : Nat → Int → Int → Nat)
    (o : Nat) (x y : Int) (seq : List (LUT D)) (ho : m.m_mluts[o]? = some seq) :
    ∀ (k rbegin : Nat) (sum : D), rbegin + k ≤ seq.length →
      m.scoreLoop get o x y (List.range' rbegin k) sum =
        (entriesAt get x y ((seq.drop rbegin).take k)).map
          (fun es => es.foldl (fun acc e => acc + e) sum) := by
  intro k
  induction k with
  | zero => intro rbegin sum _; simp [Model.scoreLoop, entriesAt]
  | succ k ih =>
    intro rbegin sum hle
    have hlt : rbegin < seq.length := by omega
    have hr : seq[rbegin]? = some seq[rbegin] := List.getElem?_eq_getElem hlt
    rw [List.range'_succ, List.drop_eq_getElem_cons hlt, List.take_succ_cons]
    simp only [Model.scoreLoop, ho, hr, entriesAt]
    cases hlk : (seq[rbegin]).index (get (seq[rbegin]).feature x y) with
    | none => simp
    | some e =>
      simp only []
      rw [ih (rbegin + 1) (sum + e) (by omega)]
      cases entriesAt get x y (List.take k (List.drop (rbegin + 1) seq)) with
      | none => simp
      | some es => simp

theorem entriesAt_isSome (get : Nat → Int → Int → Nat) (x y : Int) :
    ∀ (l : List (LUT D)), (∀ lut ∈ l, get lut.feature x y < lut.entries.length) →
      ∃ es, entriesAt get x y l = some es := by
  intro l
  induction l with
  | nil => intro _; exact ⟨[], rfl⟩
  | cons lut t ih =>
    intro h
    obtain ⟨es, hes⟩ := ih (fun a ha => h a (by simp [ha]))
    have hl : get lut.feature x y < lut.entries.length := h lut (by simp)
    refine ⟨lut.entries[get lut.feature x y] :: es, ?_⟩
    simp [entriesAt, LUT.index, List.getElem?_eq_getElem hl, hes]

/-- C3: for a valid output `o` and `x, y` arbitrary, on every round range
`rbegin ≤ rend ≤ n_luts(o)` the ranged score equals the sum, taken in round
order from `0.0`, of `entries[get(feature, x, y)]` over the LUTs of the rounds
`[rbegin, rend)` of output `o`; it is a value whenever those lookups are in
range; and it is `0` whenever `rbegin ≥ rend`. -/
theorem scoreRange_eq_sum [Add D] [Zero D] (m : Model P D S)
    (get : Nat → Int → Int → Nat) (o : Nat) (x y : Int) (ho : o < m.n_outputs) :
    (∀ rbegin rend n, m.n_luts o = some n → rbegin ≤ rend → rend ≤ n →
      m.scoreRange get o rbegin rend x y = scoreSpec m get o rbegin rend x y ∧
      ((∀ seq, m.m_mluts[o]? = some seq →
          ∀ lut ∈ seq, get lut.feature x y < lut.entries.length) →
        ∃ v, m.scoreRange get o rbegin rend x y = some v)) ∧
    (∀ rbegin rend, rend ≤ rbegin → m.scoreRange get o rbegin rend x y = some 0) := by
  have hseq : m.m_mluts[o]? = some m.m_mluts[o] := List.getElem?_eq_getElem ho
  constructor
  · intro rbegin rend n hn hb he
    have hn1 : n = (m.m_mluts[o]).length := by
      simp [Model.n_luts, hseq] at hn; exact hn.symm
    have hmain : m.scoreRange get o rbegin rend x y = scoreSpec m get o rbegin rend x y := by
      unfold Model.scoreRange scoreSpec
      rw [scoreLoop_range' m get o x y _ hseq (rend - rbegin) rbegin 0 (by omega)]
      simp [hseq]
    refine ⟨hmain, fun hin => ?_⟩
    obtain ⟨es, hes⟩ := entriesAt_isSome get x y
      (((m.m_mluts[o]).drop rbegin).take (rend - rbegin))
      (fun lut hl => hin _ hseq lut (List.mem_of_mem_drop (List.mem_of_mem_take hl)))
    rw [hmain]
    simp [scoreSpec, hseq, hes]
  · intro rbegin rend h
    have : rend - rbegin = 0 := by omega
    simp [Model.scoreRange, this, Model.scoreLoop]

theorem scoreRange_eq_sum_witness :
    demoModel.scoreRange demoGet 0 1 3 1 0 = scoreSpec demoModel demoGet 0 1 3 1 0 ∧
      scoreSpec demoModel demoGet 0 1 3 1 0 = some (4 + 2) :=
  ⟨((scoreRange_eq_sum demoModel demoGet 0 1 0 (by decide)).1 1 3 3 rfl
      (by decide) (by decide)).1, by decide⟩

/-- C4: for a valid output `o` and every position, `score(o, 0, n_luts(o), x, y)`
is `score(o, x, y)`. -/
theorem score_full_range [Add D] [Zero D] (m : Model P D S)
    (get : Nat → Int → Int → Nat) (o : Nat) (x y : Int) (ho : o < m.n_outputs) :
    ∃ n, m.n_luts o = some n ∧
      m.scoreRange get o 0 n x y = m.score get o x y := by
  have hseq : m.m_mluts[o]? = some m.m_mluts[o] := List.getElem?_eq_getElem ho
  refine ⟨(m.m_mluts[o]).length, by simp [Model.n_luts, hseq], ?_⟩
  simp [Model.score, Model.n_luts, hseq]

theorem score_full_range_witness :
    ∃ n, demoModel.n_luts 0 = some n ∧
      demoModel.scoreRange demoGet 0 0 n 1 0 = demoModel.score demoGet 0 1 0 :=
  score_full_range demoModel demoGet 0 1 0 (by decide)

theorem featuresRounds_range' (m : Model P D S) (o : Nat) (seq : List (LUT D))
    (ho : m.m_mluts[o]? = some seq) :
    ∀ (k r : Nat) (result : List Nat), r + k ≤ seq.length →
      m.featuresRounds o (List.range' r k) result =
        some (result ++ ((seq.drop r).take k).map LUT.feature) := by
  intro k
  induction k with
  | zero => intro r result _; simp [Model.featuresRounds]
  | succ k ih =>
    intro r result hle
    have hlt : r < seq.length := by omega
    have hr : seq[r]? = some seq[r] := List.getElem?_eq_getElem hlt
    rw [List.range'_succ, List.drop_eq_getElem_cons hlt, List.take_succ_cons]
    simp only [Model.featuresRounds, ho, hr]
    rw [ih (r + 1) _ (by omega)]
    simp

theorem featuresOutputs_range' (m : Model P D S) :
    ∀ (k o : Nat) (result : List Nat), o + k ≤ m.m_mluts.length →
      m.featuresOutputs (List.range' o k) result =
        some (result ++
          (((m.m_mluts.drop o).take k).map (fun seq => seq.map LUT.feature)).flatten) := by
  intro k
  induction k with
  | zero => intro o result _; simp [Model.featuresOutputs]
  | succ k ih =>
    intro o result hle
    have hlt : o < m.m_mluts.length := by omega
    have hseq : m.m_mluts[o]? = some m.m_mluts[o] := List.getElem?_eq_getElem hlt
    rw [List.range'_succ, List.drop_eq_getElem_cons hlt, List.take_succ_cons]
    have hn : m.n_luts o = some (m.m_mluts[o]).length := by simp [Model.n_luts, hseq]
    have hin := featuresRounds_range' m o _ hseq (m.m_mluts[o]).length 0 result (by omega)
    simp only [Model.featuresOutputs, hn, List.range_eq_range', hin]
    rw [ih (o + 1) _ (by omega)]
    simp

theorem featuresOutputs_all (m : Model P D S) :
    m.featuresOutputs (List.range m.n_outputs) [] =
      some ((m.m_mluts.map (fun seq => seq.map LUT.feature)).flatten) := by
  have h := featuresOutputs_range' m m.m_mluts.length 0 [] (by omega)
  simpa [Model.n_outputs, List.range_eq_range'] using h

theorem mem_uniqueFrom (x : Nat) :
    ∀ (l : List Nat) (prev : Nat),
      (x ∈ uniqueFrom prev l → x ∈ l) ∧ (x ∈ l → x = prev ∨ x ∈ uniqueFrom prev l) := by
  intro l
  induction l with
  | nil => intro prev; simp [uniqueFrom]
  | cons b t ih =>
    intro prev
    unfold uniqueFrom
    split
    · rename_i hpb
      subst hpb
      refine ⟨fun h => List.mem_cons_of_mem _ ((ih prev).1 h), fun h => ?_⟩
      rcases List.mem_cons.mp h with h | h
      · exact Or.inl h
      · exact (ih prev).2 h
    · refine ⟨fun h => ?_, fun h => ?_⟩
      · rcases List.mem_cons.mp h with h | h
        · simp [h]
        · exact List.mem_cons_of_mem _ ((ih b).1 h)
      · rcases List.mem_cons.mp h with h | h
        · right; simp [h]
        · rcases (ih b).2 h with h | h
          · right; simp [h]
          · right; exact List.mem_cons_of_mem _ h

theorem mem_eraseAdjacent (x : Nat) (l : List Nat) : x ∈ eraseAdjacent l ↔ x ∈ l := by
  cases l with
  | nil => simp [eraseAdjacent]
  | cons a t =>
    simp only [eraseAdjacent, List.mem_cons]
    constructor
    · rintro (h | h)
      · exact Or.inl h
      · exact Or.inr ((mem_uniqueFrom x t a).1 h)
    · rintro (h | h)
      · exact Or.inl h
      · exact (mem_uniqueFrom x t a).2 h

theorem mem_unique (x : Nat) (l : List Nat) : x ∈ unique l ↔ x ∈ l := by
  unfold unique
  rw [mem_eraseAdjacent, List.mem_insertionSort]

theorem sorted_uniqueFrom :
    ∀ (l : List Nat) (prev : Nat), l.Sorted (fun a b => a ≤ b) → (∀ a ∈ l, prev ≤ a) →
      (uniqueFrom prev l).Sorted (fun a b => a < b) ∧ ∀ a ∈ uniqueFrom prev l, prev < a := by
  intro l
  induction l with
  | nil => intro prev _ _; simp [uniqueFrom]
  | cons b t ih =>
    intro prev hs hge
    have hst : t.Sorted (fun a b => a ≤ b) := List.Sorted.of_cons hs
    have hbt : ∀ a ∈ t, b ≤ a := fun a ha => List.rel_of_sorted_cons hs a ha
    have hpb : prev ≤ b := hge b (by simp)
    unfold uniqueFrom
    split
    · rename_i heq
      exact ih prev hst (fun a ha => le_trans hpb (hbt a ha))
    · rename_i hne
      obtain ⟨h1, h2⟩ := ih b hst hbt
      have hlt : prev < b := lt_of_le_of_ne hpb hne
      refine ⟨List.sorted_cons.mpr ⟨h2, h1⟩, fun a ha => ?_⟩
      rcases List.mem_cons.mp ha with h | h
      · rw [h]; exact hlt
      · exact lt_trans hlt (h2 a h)

theorem sorted_unique (l : List Nat) : (unique l).Sorted (fun a b => a < b) := by
  unfold unique
  have hs : (l.insertionSort (fun a b => a ≤ b)).Sorted (fun a b => a ≤ b) :=
    List.sorted_insertionSort (fun a b : Nat => a ≤ b) l
  cases hl : l.insertionSort (fun a b => a ≤ b) with
  | nil => simp [eraseAdjacent]
  | cons a t =>
    rw [hl] at hs
    obtain ⟨h1, h2⟩ := sorted_uniqueFrom t a (List.Sorted.of_cons hs)
      (fun x hx => List.rel_of_sorted_cons hs x hx)
    exact List.sorted_cons.mpr ⟨h2, h1⟩

/-- C5: `Model::features()` always returns, and its result is strictly
ascending: sorted in ascending order with no feature index occurring twice,
however many LUTs of whatever rounds and outputs share a feature. -/
theorem features_strictly_ascending (m : Model P D S) :
    ∃ fs, m.features = some fs ∧ fs.Sorted (fun a b => a < b) ∧
      fs.Sorted (fun a b => a ≤ b) ∧ fs.Nodup := by
  refine ⟨unique ((m.m_mluts.map (fun seq => seq.map LUT.feature)).flatten), ?_, ?_, ?_, ?_⟩
  · simp [Model.features, featuresOutputs_all]
  · exact sorted_unique _
  · exact (sorted_unique _).imp (fun h => Nat.le_of_lt h)
  · exact (sorted_unique _).imp (fun h => Nat.ne_of_lt h)

/-- C6: an index `f` occurs in `Model::features()` if and only if some LUT of
some output `o` and some round `r` of the model has `feature() == f`. -/
theorem mem_features_iff (m : Model P D S) (f : Nat) :
    ∃ fs, m.features = some fs ∧
      (f ∈ fs ↔ ∃ (o r : Nat) (seq : List (LUT D)) (lut : LUT D),
        m.m_mluts[o]? = some seq ∧ seq[r]? = some lut ∧ lut.feature = f) := by
  refine ⟨unique ((m.m_mluts.map (fun seq => seq.map LUT.feature)).flatten), ?_, ?_⟩
  · simp [Model.features, featuresOutputs_all]
  · rw [mem_unique]
    constructor
    · intro h
      obtain ⟨fl, hfl, hf⟩ := List.mem_flatten.mp h
      obtain ⟨seq, hseq, rfl⟩ := List.mem_map.mp hfl
      obtain ⟨lut, hlut, rfl⟩ := List.mem_map.mp hf
      obtain ⟨o, ho⟩ := List.getElem?_of_mem hseq
      obtain ⟨r, hr⟩ := List.getElem?_of_mem hlut
      exact ⟨o, r, seq, lut, ho, hr, rfl⟩
    · rintro ⟨o, r, seq, lut, ho, hr, rfl⟩
      exact List.mem_flatten.mpr ⟨seq.map LUT.feature,
        List.mem_map.mpr ⟨seq, List.getElem?_mem ho, rfl⟩,
        List.mem_map.mpr ⟨lut, List.getElem?_mem hr, rfl⟩⟩

theorem resize_length {α : Type} (v : List α) (n : Nat) (dflt : α) :
    (resize v n dflt).length = n := by
  simp [resize]; omega

theorem clearLoop_spec :
    ∀ (os : List Nat) (cur : List (List (LUT D))),
      (∀ o ∈ os, o < cur.length) →
      ∃ res, clearLoop os cur = some res ∧ res.length = cur.length ∧
        ∀ i, i < cur.length → res[i]? = if i ∈ os then some [] else cur[i]? := by
  intro os
  induction os with
  | nil => intro cur _; exact ⟨cur, rfl, rfl, fun i _ => by simp⟩
  | cons o os ih =>
    intro cur hos
    have ho : o < cur.length := hos o (by simp)
    have hcur : assignAt cur o [] = some (cur.set o []) := assignAt_isSome cur o _ ho
    obtain ⟨_, hget1⟩ := assignAt_getElem? cur o [] _ hcur
    obtain ⟨res, hres, hrl, hrg⟩ :=
      ih (cur.set o []) (fun a ha => by simpa using hos a (by simp [ha]))
    refine ⟨res, ?_, by simpa using hrl, fun i hi => ?_⟩
    · simp only [clearLoop, hcur, hres]
    · rw [hrg i (by simpa using hi), hget1 i]
      by_cases hio : i = o
      · subst hio; simp
      · by_cases him : i ∈ os <;> simp [hio, him]

theorem clearLoop_range (cur : List (List (LUT D))) :
    clearLoop (List.range cur.length) cur = some (List.replicate cur.length []) := by
  obtain ⟨res, hres, hlen, hget⟩ :=
    clearLoop_spec (List.range cur.length) cur (fun o ho => by simpa using ho)
  rw [hres]
  congr 1
  apply List.ext_getElem?
  intro i
  by_cases hi : i < cur.length
  · rw [hget i hi]
    simp [hi, List.getElem?_replicate]
  · have h1 : res[i]? = none := List.getElem?_eq_none (by omega)
    simp [h1, List.getElem?_replicate, hi]

theorem reset_eq (tagger_n_outputs : P → Nat) (m : Model P D S) (param : P) :
    m.reset tagger_n_outputs param =
      some { m_param := param,
             m_mluts := List.replicate (tagger_n_outputs param) [],
             m_sub := m.m_sub } := by
  have h := clearLoop_range (resize m.m_mluts (tagger_n_outputs param) ([] : List (LUT D)))
  rw [resize_length] at h
  simp [Model.reset, Model.n_outputs, resize_length, h]

/-- C7: after constructing a Model from `param`, and after `reset(param)` on
any model whatever it held before, the number of per-output LUT sequences is
the tagger's `n_outputs` for `param` and every one of those sequences is empty
(and the stored parameters are `param`). -/
theorem reset_invariant (tagger_n_outputs : P → Nat) (param : P) :
    (∀ m : Model P D S, ∃ m1, m.reset tagger_n_outputs param = some m1 ∧
      m1.n_outputs = tagger_n_outputs param ∧ (∀ seq ∈ m1.m_mluts, seq = []) ∧
      (∀ o, o < m1.n_outputs → m1.n_luts o = some 0) ∧ m1.m_param = param) ∧
    (∀ sub : S, ∃ m1 : Model P D S,
      Model.construct tagger_n_outputs param sub = some m1 ∧
      m1.n_outputs = tagger_n_outputs param ∧ (∀ seq ∈ m1.m_mluts, seq = []) ∧
      (∀ o, o < m1.n_outputs → m1.n_luts o = some 0) ∧ m1.m_param = param) := by
  have key : ∀ m : Model P D S, ∃ m1, m.reset tagger_n_outputs param = some m1 ∧
      m1.n_outputs = tagger_n_outputs param ∧ (∀ seq ∈ m1.m_mluts, seq = []) ∧
      (∀ o, o < m1.n_outputs → m1.n_luts o = some 0) ∧ m1.m_param = param := by
    intro m
    refine ⟨_, reset_eq tagger_n_outputs m param, ?_, ?_, ?_, rfl⟩
    · simp [Model.n_outputs]
    · intro seq hseq
      exact List.eq_of_mem_replicate hseq
    · intro o ho
      have ho1 : o < tagger_n_outputs param := by simpa [Model.n_outputs] using ho
      simp [Model.n_luts, List.getElem?_replicate, ho1]
  exact ⟨key, fun sub => key _⟩

theorem is_dot_gz_iff (io : Streams P D S FS OF OS IF IS) (path : String) :
    is_dot_gz io path = true ↔ (io.extension path = ".gz" ∨ io.extension path = ".vbgz") := by
  simp [is_dot_gz]

theorem is_dot_vbin_iff (io : Streams P D S FS OF OS IF IS) (path : String) :
    is_dot_vbin io path = true ↔
      (io.extension path = ".vbin" ∨ io.extension path = ".vbgz") := by
  simp [is_dot_vbin]

/-- C9: whatever the extension function, the replies of `good()`, the model and
the path, `Model::save` and both forms of `Model::load` push a gzip filter
exactly when the extension is `.gz` or `.vbgz`, and every archive operation
they perform is on a binary archive when the extension is `.vbin` or `.vbgz`
and on a text archive otherwise; so the three make the same choice for the
same path, and any other extension (or none) gives unframed text records. -/
theorem format_by_extension (ext : String → String) (og ig : List (Ev P D S) → Bool)
    (m : Model P D S) (param0 : P) (path : String) :
    (((save_open (traceStreams ext og ig) () path).any Ev.isGzip
        = decide (ext path = ".gz" ∨ ext path = ".vbgz")) ∧
     ((load_open (traceStreams ext og ig) () path).any Ev.isGzip
        = decide (ext path = ".gz" ∨ ext path = ".vbgz")) ∧
     ((load_factory_open (traceStreams ext og ig) () path).any Ev.isGzip
        = decide (ext path = ".gz" ∨ ext path = ".vbgz"))) ∧
    (((save_records (traceStreams ext og ig) m path
          (save_open (traceStreams ext og ig) () path)).filterMap Ev.kind?
        = List.replicate 5
            (if ext path = ".vbin" ∨ ext path = ".vbgz" then ArchiveKind.binary
             else ArchiveKind.text)) ∧
     ((load_records (traceStreams ext og ig) m path
          (load_open (traceStreams ext og ig) () path)).2.filterMap Ev.kind?
        = List.replicate 5
            (if ext path = ".vbin" ∨ ext path = ".vbgz" then ArchiveKind.binary
             else ArchiveKind.text)) ∧
     ((load_factory_param (traceStreams ext og ig) param0 path
          (load_factory_open (traceStreams ext og ig) () path)).2.filterMap Ev.kind?
        = List.replicate 3
            (if ext path = ".vbin" ∨ ext path = ".vbgz" then ArchiveKind.binary
             else ArchiveKind.text))) ∧
    (ext path ≠ ".gz" → ext path ≠ ".vbin" → ext path ≠ ".vbgz" →
      save_open (traceStreams ext og ig) () path = [Ev.out_file path false] ∧
      load_open (traceStreams ext og ig) () path = [Ev.in_file path false] ∧
      load_factory_open (traceStreams ext og ig) () path = [Ev.in_file path false] ∧
      (save_records (traceStreams ext og ig) m path
          (save_open (traceStreams ext og ig) () path)).filterMap Ev.kind?
        = List.replicate 5 ArchiveKind.text) := by
  by_cases h1 : ext path = ".gz" <;> by_cases h2 : ext path = ".vbin" <;>
    by_cases h3 : ext path = ".vbgz" <;>
    simp [save_open, load_open, load_factory_open, save_records, load_records,
      load_factory_param, is_dot_gz, is_dot_vbin, traceStreams, Ev.isGzip, Ev.kind?,
      h1, h2, h3, List.replicate]

theorem format_by_extension_witness :
    save_open (traceStreams demoExtension (fun _ => true) (fun _ => true)) () "model.txt"
        = ([Ev.out_file "model.txt" false] : List (Ev Nat Int Unit)) ∧
      load_open (traceStreams demoExtension (fun _ => true) (fun _ => true)) () "model.txt"
        = ([Ev.in_file "model.txt" false] : List (Ev Nat Int Unit)) ∧
      load_factory_open (traceStreams demoExtension (fun _ => true) (fun _ => true)) ()
          "model.txt"
        = ([Ev.in_file "model.txt" false] : List (Ev Nat Int Unit)) ∧
      (save_records (traceStreams demoExtension (fun _ => true) (fun _ => true)) demoModel
          "model.txt"
          (save_open (traceStreams demoExtension (fun _ => true) (fun _ => true)) ()
            "model.txt")).filterMap Ev.kind?
        = List.replicate 5 ArchiveKind.text :=
  (format_by_extension demoExtension (fun _ => true) (fun _ => true) demoModel 0
    "model.txt").2.2 (by decide) (by decide) (by decide)

theorem save_flag (io : Streams P D S FS OF OS IF IS) (fs : FS) (m : Model P D S)
    (path : String) :
    (Model.save io fs m path).1 =
      (io.ogood (save_open io fs path) &&
        io.ogood (save_records io m path (save_open io fs path))) := by
  unfold Model.save
  cases h : io.ogood (save_open io fs path) <;> simp [h]

theorem load_flag (io : Streams P D S FS OF OS IF IS) (fs : FS) (m : Model P D S)
    (path : String) :
    (Model.load io fs m path).1 =
      (io.igood (load_open io fs path) &&
        io.igood (load_records io m path (load_open io fs path)).2) := by
  unfold Model.load
  cases h : io.igood (load_open io fs path) <;> simp [h]

theorem save_records_raising_eq {E : Type} (io : RaisingStreams E P D S FS OF OS IF IS)
    (m : Model P D S) (path : String) (ofs : OS) :
    save_records_raising io m path ofs =
      save_block_raising io m (archive_kind io.streams path) ofs := by
  unfold save_records_raising archive_kind
  cases is_dot_vbin io.streams path <;> rfl

theorem load_records_raising_eq {E : Type} (io : RaisingStreams E P D S FS OF OS IF IS)
    (m : Model P D S) (path : String) (ifs : IS) :
    load_records_raising io m path ifs =
      load_block_raising io m (archive_kind io.streams path) ifs := by
  unfold load_records_raising archive_kind
  cases is_dot_vbin io.streams path <;> rfl

/-- When no archive operation raises, the entry points written over the
raising layer return what `Model.save` and `Model.load` return. -/
theorem raising_agrees {E : Type} (io : Streams P D S FS OF OS IF IS) (fs : FS)
    (m : Model P D S) (path : String) :
    Model.save_raising (Streams.raising io : RaisingStreams E P D S FS OF OS IF IS) fs m path
      = Except.ok (Model.save io fs m path) ∧
    Model.load_raising (Streams.raising io : RaisingStreams E P D S FS OF OS IF IS) fs m path
      = Except.ok (Model.load io fs m path) := by
  constructor
  · unfold Model.save_raising Model.save save_records_raising save_records
    cases h : io.ogood (save_open io fs path) <;>
      cases hv : is_dot_vbin io path <;>
      simp [Streams.raising, save_block_raising, h, hv]
  · unfold Model.load_raising Model.load load_records_raising load_records
    cases h : io.igood (load_open io fs path) <;>
      cases hv : is_dot_vbin io path <;>
      simp [Streams.raising, load_block_raising, h, hv]

/-- C10 (as amended): over any stream layer whose archive operations may raise.
When the stream is not good once opened, `Model::save(path)` and
`Model::load(path)` return false, raise nothing and touch no archive (`load`
leaves the model as it was).  When the stream is good once opened and every
archive operation returns, they return what `good()` answers after the
records, so false when the stream is not good then.  When an archive operation
raises, the exception leaves `save` or `load`, which then return nothing: the
archive block raises exactly when its first operation that does not return
raises, and the entry point raises what the block raises. -/
theorem stream_failure_outcome {E : Type} (io : RaisingStreams E P D S FS OF OS IF IS)
    (fs : FS) (m : Model P D S) (path : String) :
    (io.streams.ogood (save_open io.streams fs path) = false →
      Model.save_raising io fs m path =
        Except.ok (false, io.streams.close_out fs (save_open io.streams fs path))) ∧
    (io.streams.igood (load_open io.streams fs path) = false →
      Model.load_raising io fs m path = Except.ok (false, m)) ∧
    (∀ ofs1 : OS, io.streams.ogood (save_open io.streams fs path) = true →
      save_block_raising io m (archive_kind io.streams path) (save_open io.streams fs path)
        = Except.ok ofs1 →
      Model.save_raising io fs m path =
        Except.ok (io.streams.ogood ofs1, io.streams.close_out fs ofs1)) ∧
    (∀ (m1 : Model P D S) (ifs1 : IS),
      io.streams.igood (load_open io.streams fs path) = true →
      load_block_raising io m (archive_kind io.streams path) (load_open io.streams fs path)
        = Except.ok (m1, ifs1) →
      Model.load_raising io fs m path = Except.ok (io.streams.igood ifs1, m1)) ∧
    (∀ e : E, io.streams.ogood (save_open io.streams fs path) = true →
      save_block_raising io m (archive_kind io.streams path) (save_open io.streams fs path)
        = Except.error e →
      Model.save_raising io fs m path = Except.error e) ∧
    (∀ e : E, io.streams.igood (load_open io.streams fs path) = true →
      load_block_raising io m (archive_kind io.streams path) (load_open io.streams fs path)
        = Except.error e →
      Model.load_raising io fs m path = Except.error e) ∧
    (∀ (k : ArchiveKind) (ofs : OS) (e : E),
      save_block_raising io m k ofs = Except.error e ↔
        (io.oarchive k ofs = Except.error e ∨
         ∃ oa, io.oarchive k ofs = Except.ok oa ∧
           (io.write_param k m.m_param oa = Except.error e ∨
            ∃ oa1, io.write_param k m.m_param oa = Except.ok oa1 ∧
              (io.write_mluts k m.m_mluts oa1 = Except.error e ∨
               ∃ oa2, io.write_mluts k m.m_mluts oa1 = Except.ok oa2 ∧
                 io.save_hook k m.m_sub oa2 = Except.error e)))) ∧
    (∀ (k : ArchiveKind) (ifs : IS) (e : E),
      load_block_raising io m k ifs = Except.error e ↔
        (io.iarchive k ifs = Except.error e ∨
         ∃ ia, io.iarchive k ifs = Except.ok ia ∧
           (io.read_param k ia m.m_param = Except.error e ∨
            ∃ r1, io.read_param k ia m.m_param = Except.ok r1 ∧
              (io.read_mluts k r1.2 m.m_mluts = Except.error e ∨
               ∃ r2, io.read_mluts k r1.2 m.m_mluts = Except.ok r2 ∧
                 io.load_hook k r2.2 m.m_sub = Except.error e)))) := by
  refine ⟨fun h => ?_, fun h => ?_, fun ofs1 h hb => ?_, fun m1 ifs1 h hb => ?_,
    fun e h hb => ?_, fun e h hb => ?_, fun k ofs e => ?_, fun k ifs e => ?_⟩
  · simp [Model.save_raising, h]
  · simp [Model.load_raising, h]
  · simp [Model.save_raising, h, save_records_raising_eq, hb]
  · simp [Model.load_raising, h, load_records_raising_eq, hb]
  · simp [Model.save_raising, h, save_records_raising_eq, hb]
  · simp [Model.load_raising, h, load_records_raising_eq, hb]
  · unfold save_block_raising
    cases h1 : io.oarchive k ofs with
    | error e1 => simp
    | ok oa =>
      cases h2 : io.write_param k m.m_param oa with
      | error e2 => simp [h2]
      | ok oa1 =>
        cases h3 : io.write_mluts k m.m_mluts oa1 with
        | error e3 => simp [h2, h3]
        | ok oa2 =>
          cases h4 : io.save_hook k m.m_sub oa2 with
          | error e4 => simp [h2, h3, h4]
          | ok oa3 => simp [h2, h3, h4]
  · unfold load_block_raising
    cases h1 : io.iarchive k ifs with
    | error e1 => simp
    | ok ia =>
      cases h2 : io.read_param k ia m.m_param with
      | error e2 => simp [h2]
      | ok r1 =>
        obtain ⟨p1, ia1⟩ := r1
        cases h3 : io.read_mluts k ia1 m.m_mluts with
        | error e3 => simp [h2, h3, and_assoc]
        | ok r2 =>
          obtain ⟨l2, ia2⟩ := r2
          cases h4 : io.load_hook k ia2 m.m_sub with
          | error e4 => simp [h2, h3, h4, and_assoc]
          | ok r3 => simp [h2, h3, h4, and_assoc]

theorem stream_failure_outcome_witness :
    Model.save_raising unopenedStreams () demoModel "model.vbgz" = Except.ok (false, ()) ∧
    Model.load_raising unopenedStreams () demoModel "model.vbgz"
      = Except.ok (false, demoModel) ∧
    Model.save_raising brokenStreams () demoModel "model.vbin"
      = Except.error "output stream error" ∧
    Model.load_raising brokenStreams () demoModel "model.vbin"
      = Except.error "input stream error" :=
  ⟨(stream_failure_outcome unopenedStreams () demoModel "model.vbgz").1 rfl,
   (stream_failure_outcome unopenedStreams () demoModel "model.vbgz").2.1 rfl,
   (stream_failure_outcome brokenStreams () demoModel "model.vbin").2.2.2.2.1
     "output stream error" rfl rfl,
   (stream_failure_outcome brokenStreams () demoModel "model.vbin").2.2.2.2.2.1
     "input stream error" rfl rfl⟩

/-- C10, counterexample to the claim as first stated: over a stream layer
whose stream opens well and whose archive raises when the LUT sequences cannot
be written and when the parameters cannot be read, `Model::save(path)` and
`Model::load(path)` raise and so return nothing, not false. -/
theorem archive_failure_counterexample :
    brokenStreams.streams.ogood (save_open brokenStreams.streams () "model.vbin") = true ∧
    brokenStreams.write_mluts ArchiveKind.binary demoModel.m_mluts [] =
      Except.error "output stream error" ∧
    Model.save_raising brokenStreams () demoModel "model.vbin"
      = Except.error "output stream error" ∧
    (∀ r, Model.save_raising brokenStreams () demoModel "model.vbin" ≠ Except.ok r) ∧
    brokenStreams.read_param ArchiveKind.binary [] demoModel.m_param =
      Except.error "input stream error" ∧
    Model.load_raising brokenStreams () demoModel "model.vbin"
      = Except.error "input stream error" ∧
    (∀ r, Model.load_raising brokenStreams () demoModel "model.vbin" ≠ Except.ok r) := by
  have hs : Model.save_raising brokenStreams () demoModel "model.vbin"
      = Except.error "output stream error" := rfl
  have hl : Model.load_raising brokenStreams () demoModel "model.vbin"
      = Except.error "input stream error" := rfl
  refine ⟨rfl, rfl, hs, fun r h => ?_, rfl, hl, fun r h => ?_⟩
  · rw [hs] at h; exact Except.noConfusion h
  · rw [hl] at h; exact Except.noConfusion h

theorem OStream.put_good {B : Type} (acc : List B → Bool) (bytes : List B)
    (s : OStream B) (h : (s.put acc bytes).good = true) :
    s.good = true ∧ s.put acc bytes = { s with buf := s.buf ++ bytes } := by
  unfold OStream.put at h ⊢
  cases hg : s.good with
  | false => simp [hg] at h
  | true =>
    cases ha : acc (s.buf ++ bytes) with
    | false => simp [hg, ha] at h
    | true => simp

/-- The records `Model::save` writes for `path`, over file contents. -/
theorem byte_save_records {B : Type} (cd : Codec P D S B) (m : Model P D S)
    (path : String) (s : OStream B) (k : ArchiveKind)
    (hk : k = if is_dot_vbin (byteStreams cd) path then ArchiveKind.binary
              else ArchiveKind.text)
    (hgood : (save_records (byteStreams cd) m path s).good = true) :
    s.good = true ∧
    save_records (byteStreams cd) m path s =
      { s with buf := s.buf ++ cd.header k ++ cd.enc_param k m.m_param ++
          cd.enc_mluts k m.m_mluts ++ cd.enc_sub k m.m_sub ++ cd.trailer k } := by
  have hrec : save_records (byteStreams cd) m path s =
      ((((s.put cd.accepts (cd.header k)).put cd.accepts (cd.enc_param k m.m_param)).put
        cd.accepts (cd.enc_mluts k m.m_mluts)).put cd.accepts (cd.enc_sub k m.m_sub)).put
        cd.accepts (cd.trailer k) := by
    subst hk
    unfold save_records
    split <;> rfl
  rw [hrec] at hgood ⊢
  obtain ⟨h5, e5⟩ := OStream.put_good _ _ _ hgood
  obtain ⟨h4, e4⟩ := OStream.put_good _ _ _ h5
  obtain ⟨h3, e3⟩ := OStream.put_good _ _ _ h4
  obtain ⟨h2, e2⟩ := OStream.put_good _ _ _ h3
  obtain ⟨h1, e1⟩ := OStream.put_good _ _ _ h2
  refine ⟨h1, ?_⟩
  rw [e5, e4, e3, e2, e1]

/-- The records `Model::load` reads for `path`, over file contents, from a
good stream that holds what `Model::save` wrote. -/
theorem byte_load_records {B : Type} (cd : Codec P D S B) (hcd : cd.Lawful)
    (m m0 : Model P D S) (path : String) (s : IStream B) (k : ArchiveKind)
    (hk : k = if is_dot_vbin (byteStreams cd) path then ArchiveKind.binary
              else ArchiveKind.text)
    (hgood : s.good = true)
    (hrest : s.rest = cd.header k ++ cd.enc_param k m.m_param ++
          cd.enc_mluts k m.m_mluts ++ cd.enc_sub k m.m_sub ++ cd.trailer k) :
    load_records (byteStreams cd) m0 path s = (m, { s with rest := cd.trailer k }) := by
  have h1 : cd.read_header k s.rest = some (cd.enc_param k m.m_param ++
      (cd.enc_mluts k m.m_mluts ++ (cd.enc_sub k m.m_sub ++ cd.trailer k))) := by
    rw [hrest]; simp only [List.append_assoc]; exact hcd.read_header_header _ _
  have h2 := hcd.dec_enc_param k m.m_param
    (cd.enc_mluts k m.m_mluts ++ (cd.enc_sub k m.m_sub ++ cd.trailer k))
  have h3 := hcd.dec_enc_mluts k m.m_mluts (cd.enc_sub k m.m_sub ++ cd.trailer k)
  have h4 := hcd.dec_enc_sub k m.m_sub (cd.trailer k)
  unfold load_records
  split
  · rename_i hb
    rw [if_pos hb] at hk
    subst hk
    simp [byteStreams, IStream.get, hgood, h1, h2, h3, h4]
  · rename_i hb
    rw [if_neg hb] at hk
    subst hk
    simp [byteStreams, IStream.get, hgood, h1, h2, h3, h4]

/-- The stream `Model::load` opens on a file that holds `content`, framed as
the extension of `path` asks, is good and delivers `content`. -/
theorem byte_load_open {B : Type} (cd : Codec P D S B) (hcd : cd.Lawful)
    (fs : String → Option (List B)) (path : String) (content : List B)
    (hfs : fs path = some (if is_dot_gz (byteStreams cd) path then cd.gzip content
                           else content)) :
    (load_open (byteStreams cd) fs path).good = true ∧
      (load_open (byteStreams cd) fs path).rest = content := by
  unfold load_open
  cases hgz : is_dot_gz (byteStreams cd) path
  · rw [hgz] at hfs
    simp [byteStreams, hfs]
  · rw [hgz] at hfs
    simp [byteStreams, hfs, hcd.gunzip_gzip]

/-- C8: over file contents, with codecs that read back what they wrote, for
every model `m` and every path (whichever of the four format classes its
extension selects): if `save(path)` succeeds, then `load(path)` on any model,
from the file system `save` left, succeeds and leaves that model with the
parameters, the per-output LUT sequences (same features and entries in the
same order) and the subtype state of `m`. -/
theorem save_load_roundtrip {B : Type} (cd : Codec P D S B) (hcd : cd.Lawful)
    (fs : String → Option (List B)) (m m0 : Model P D S) (path : String)
    (hsave : (Model.save (byteStreams cd) fs m path).1 = true) :
    (Model.load (byteStreams cd) (Model.save (byteStreams cd) fs m path).2 m0 path).1 = true ∧
    (Model.load (byteStreams cd) (Model.save (byteStreams cd) fs m path).2 m0 path).2.m_param
      = m.m_param ∧
    (Model.load (byteStreams cd) (Model.save (byteStreams cd) fs m path).2 m0 path).2.m_mluts
      = m.m_mluts ∧
    Model.load (byteStreams cd) (Model.save (byteStreams cd) fs m path).2 m0 path
      = (true, m) := by
  have hopen : save_open (byteStreams cd) fs path =
      { gz := is_dot_gz (byteStreams cd) path,
        file := some { path := path, is_open := cd.can_open_out path },
        good := cd.can_open_out path, buf := [] } := by
    unfold save_open
    cases is_dot_gz (byteStreams cd) path <;> simp [byteStreams]
  rw [save_flag, Bool.and_eq_true] at hsave
  obtain ⟨_, hr⟩ := hsave
  obtain ⟨hsgood, hrec⟩ := byte_save_records cd m path _ _ rfl hr
  have hcan : cd.can_open_out path = true := by
    rw [hopen] at hsgood; exact hsgood
  have hfs : (Model.save (byteStreams cd) fs m path).2 path =
      some (if is_dot_gz (byteStreams cd) path then
          cd.gzip (save_records (byteStreams cd) m path
            (save_open (byteStreams cd) fs path)).buf
        else (save_records (byteStreams cd) m path
            (save_open (byteStreams cd) fs path)).buf) := by
    have hgood1 : (byteStreams cd).ogood (save_open (byteStreams cd) fs path) = true := hsgood
    simp only [Model.save, hgood1]
    rw [hrec, hopen]
    simp [byteStreams, hcan]
  have hin := byte_load_open cd hcd _ path _ hfs
  have hbuf : (save_records (byteStreams cd) m path (save_open (byteStreams cd) fs path)).buf =
      cd.header (if is_dot_vbin (byteStreams cd) path then ArchiveKind.binary
              else ArchiveKind.text) ++
        cd.enc_param (if is_dot_vbin (byteStreams cd) path then ArchiveKind.binary
              else ArchiveKind.text) m.m_param ++
        cd.enc_mluts (if is_dot_vbin (byteStreams cd) path then ArchiveKind.binary
              else ArchiveKind.text) m.m_mluts ++
        cd.enc_sub (if is_dot_vbin (byteStreams cd) path then ArchiveKind.binary
              else ArchiveKind.text) m.m_sub ++
        cd.trailer (if is_dot_vbin (byteStreams cd) path then ArchiveKind.binary
              else ArchiveKind.text) := by
    rw [hrec, hopen]; simp
  have hload := byte_load_records cd hcd m m0 path
    (load_open (byteStreams cd) (Model.save (byteStreams cd) fs m path).2 path) _ rfl
    hin.1 (hin.2.trans hbuf)
  have hfinal : Model.load (byteStreams cd) (Model.save (byteStreams cd) fs m path).2 m0 path
      = (true, m) := by
    have hgood2 : (byteStreams cd).igood
        (load_open (byteStreams cd) (Model.save (byteStreams cd) fs m path).2 path) = true :=
      hin.1
    simp only [Model.load, hgood2, hload]
    change ((load_open (byteStreams cd) _ path).good, m) = (true, m)
    rw [hin.1]
  rw [hfinal]
  exact ⟨rfl, rfl, rfl, rfl⟩

theorem tokCodec_lawful : tokCodec.Lawful where
  gunzip_gzip := fun b => rfl
  read_header_header := fun k rest => by simp [tokCodec]
  dec_enc_param := fun k p rest => by simp [tokCodec]
  dec_enc_mluts := fun k l rest => by simp [tokCodec]
  dec_enc_sub := fun k x rest => by simp [tokCodec]

theorem save_load_roundtrip_witness :
    (Model.load (byteStreams tokCodec)
        (Model.save (byteStreams tokCodec) noFiles demoModel "model.vbin").2 blankModel
        "model.vbin" = (true, demoModel)) ∧
    (Model.load (byteStreams tokCodec)
        (Model.save (byteStreams tokCodec) noFiles demoModel "model.gz").2 blankModel
        "model.gz" = (true, demoModel)) ∧
    (Model.load (byteStreams tokCodec)
        (Model.save (byteStreams tokCodec) noFiles demoModel "model.vbgz").2 blankModel
        "model.vbgz" = (true, demoModel)) ∧
    (Model.load (byteStreams tokCodec)
        (Model.save (byteStreams tokCodec) noFiles demoModel "model").2 blankModel
        "model" = (true, demoModel)) :=
  ⟨(save_load_roundtrip tokCodec tokCodec_lawful noFiles demoModel blankModel
      "model.vbin" (by decide)).2.2.2,
   (save_load_roundtrip tokCodec tokCodec_lawful noFiles demoModel blankModel
      "model.gz" (by decide)).2.2.2,
   (save_load_roundtrip tokCodec tokCodec_lawful noFiles demoModel blankModel
      "model.vbgz" (by decide)).2.2.2,
   (save_load_roundtrip tokCodec tokCodec_lawful noFiles demoModel blankModel
      "model" (by decide)).2.2.2⟩

/-- C11: whatever the extension function, the replies of `good()`, the models
and the path, with `k` the binary encoding for `.vbin`/`.vbgz` and the text
encoding otherwise: `Model::save` performs on its stream exactly archive
construction, parameter record, LUT sequences, subtype hook, archive
destruction, all in encoding `k`; `Model::load(path)` performs exactly archive
construction, read of the parameter record, of the LUT sequences, of the
subtype state, archive destruction, all in encoding `k`.  So the records
written are the three records read, in the same order and encoding. -/
theorem record_order (ext : String → String) (og ig : List (Ev P D S) → Bool)
    (m m0 : Model P D S) (path : String) (s : List (Ev P D S)) :
    (save_records (traceStreams ext og ig) m path s =
      s ++ [Ev.oarchive (if ext path = ".vbin" ∨ ext path = ".vbgz" then ArchiveKind.binary
                         else ArchiveKind.text),
            Ev.write_param (if ext path = ".vbin" ∨ ext path = ".vbgz"
                            then ArchiveKind.binary else ArchiveKind.text) m.m_param,
            Ev.write_mluts (if ext path = ".vbin" ∨ ext path = ".vbgz"
                            then ArchiveKind.binary else ArchiveKind.text) m.m_mluts,
            Ev.save_hook (if ext path = ".vbin" ∨ ext path = ".vbgz"
                          then ArchiveKind.binary else ArchiveKind.text) m.m_sub,
            Ev.oarchive_done (if ext path = ".vbin" ∨ ext path = ".vbgz"
                              then ArchiveKind.binary else ArchiveKind.text)]) ∧
    ((load_records (traceStreams ext og ig) m0 path s).2 =
      s ++ [Ev.iarchive (if ext path = ".vbin" ∨ ext path = ".vbgz" then ArchiveKind.binary
                         else ArchiveKind.text),
            Ev.read_param (if ext path = ".vbin" ∨ ext path = ".vbgz"
                           then ArchiveKind.binary else ArchiveKind.text),
            Ev.read_mluts (if ext path = ".vbin" ∨ ext path = ".vbgz"
                           then ArchiveKind.binary else ArchiveKind.text),
            Ev.load_hook (if ext path = ".vbin" ∨ ext path = ".vbgz"
                          then ArchiveKind.binary else ArchiveKind.text),
            Ev.iarchive_done (if ext path = ".vbin" ∨ ext path = ".vbgz"
                              then ArchiveKind.binary else ArchiveKind.text)]) ∧
    ((save_records (traceStreams ext og ig) m path
        (save_open (traceStreams ext og ig) () path)).filterMap Ev.written? =
      [((if ext path = ".vbin" ∨ ext path = ".vbgz" then ArchiveKind.binary
         else ArchiveKind.text), Record.param),
       ((if ext path = ".vbin" ∨ ext path = ".vbgz" then ArchiveKind.binary
         else ArchiveKind.text), Record.mluts),
       ((if ext path = ".vbin" ∨ ext path = ".vbgz" then ArchiveKind.binary
         else ArchiveKind.text), Record.sub)]) ∧
    ((load_records (traceStreams ext og ig) m0 path
        (load_open (traceStreams ext og ig) () path)).2.filterMap Ev.consumed? =
      (save_records (traceStreams ext og ig) m path
        (save_open (traceStreams ext og ig) () path)).filterMap Ev.written?) := by
  by_cases h1 : ext path = ".gz" <;> by_cases h2 : ext path = ".vbin" <;>
    by_cases h3 : ext path = ".vbgz" <;>
    simp [save_open, load_open, save_records, load_records, is_dot_gz, is_dot_vbin,
      traceStreams, Ev.written?, Ev.consumed?, h1, h2, h3]

/-- C12: the factory form `Model::load(path, model)`, over any stream layer.
If the stream is not good once opened, or not good after the read of the
parameter record, it returns false and the caller's pointer is what it was.
Otherwise the pointer is set to `make_model(param)` for the parameters read and
the result is exactly that of `load(path)` on that model.  On the recorded
library calls, the only record it reads itself is the parameter record. -/
theorem factory_load (io : Streams P D S FS OF OS IF IS) (make_model : P → Model P D S)
    (param0 : P) (fs : FS) (path : String) (model : Option (Model P D S))
    (ext : String → String) (og ig : List (Ev P D S) → Bool) :
    (io.igood (load_factory_open io fs path) = false →
      Model.load_factory io make_model param0 fs path model = (false, model)) ∧
    (io.igood (load_factory_open io fs path) = true →
      io.igood (load_factory_param io param0 path (load_factory_open io fs path)).2 = false →
      Model.load_factory io make_model param0 fs path model = (false, model)) ∧
    (io.igood (load_factory_open io fs path) = true →
      io.igood (load_factory_param io param0 path (load_factory_open io fs path)).2 = true →
      Model.load_factory io make_model param0 fs path model =
        ((Model.load io fs
            (make_model (load_factory_param io param0 path
              (load_factory_open io fs path)).1) path).1,
         some (Model.load io fs
            (make_model (load_factory_param io param0 path
              (load_factory_open io fs path)).1) path).2)) ∧
    ((load_factory_param (traceStreams ext og ig) param0 path
        (load_factory_open (traceStreams ext og ig) () path)).2.filterMap Ev.consumed? =
      [((if ext path = ".vbin" ∨ ext path = ".vbgz" then ArchiveKind.binary
         else ArchiveKind.text), Record.param)]) := by
  refine ⟨fun h => ?_, fun h1 h2 => ?_, fun h1 h2 => ?_, ?_⟩
  · simp [Model.load_factory, h]
  · simp [Model.load_factory, h1, h2]
  · simp [Model.load_factory, h1, h2]
  · by_cases h1 : ext path = ".gz" <;> by_cases h2 : ext path = ".vbin" <;>
      by_cases h3 : ext path = ".vbgz" <;>
      simp [load_factory_open, load_factory_param, is_dot_gz, is_dot_vbin,
        traceStreams, Ev.consumed?, h1, h2, h3]

theorem factory_load_witness :
    (Model.load_factory (traceStreams demoExtension (fun _ => true) (fun _ => false))
        (fun p => { m_param := p, m_mluts := [], m_sub := () }) 0 () "model.vbin"
        (some demoModel) = (false, some demoModel)) ∧
    (Model.load_factory (traceStreams demoExtension (fun _ => true) (fun s => s.length < 2))
        (fun p => { m_param := p, m_mluts := [], m_sub := () }) 0 () "model.vbin"
        (some demoModel) = (false, some demoModel)) ∧
    (Model.load_factory (traceStreams demoExtension (fun _ => true) (fun _ => true))
        (fun p => { m_param := p, m_mluts := [], m_sub := () }) 3 () "model.vbin"
        (some demoModel) = (true, some { m_param := 3, m_mluts := [], m_sub := () })) :=
  ⟨(factory_load (traceStreams demoExtension (fun _ => true) (fun _ => false))
      (fun p => { m_param := p, m_mluts := [], m_sub := () }) 0 () "model.vbin"
      (some demoModel) demoExtension (fun _ => true) (fun _ => true)).1 rfl,
   (factory_load (traceStreams demoExtension (fun _ => true) (fun s => s.length < 2))
      (fun p => { m_param := p, m_mluts := [], m_sub := () }) 0 () "model.vbin"
      (some demoModel) demoExtension (fun _ => true) (fun _ => true)).2.1
      (by decide) (by decide),
   (factory_load (traceStreams demoExtension (fun _ => true) (fun _ => true))
      (fun p => { m_param := p, m_mluts := [], m_sub := () }) 3 () "model.vbin"
      (some demoModel) demoExtension (fun _ => true) (fun _ => true)).2.2.1 rfl rfl⟩

theorem thread_ranges_getElem? (n T i : Nat) (r : Nat × Nat)
    (h : (thread_ranges n T)[i]? = some r) :
    i < T ∧ r = (min (i * chunk_size n T) n, min ((i + 1) * chunk_size n T) n) := by
  unfold thread_ranges at h
  rw [List.getElem?_map] at h
  by_cases hi : i < T
  · rw [List.getElem?_range hi] at h
    simp only [Option.map_some', Option.some.injEq] at h
    exact ⟨hi, by rw [← h]; rfl⟩
  · rw [List.getElem?_eq_none (by simpa using hi)] at h
    simp at h

theorem thread_ranges_getElem (n T i : Nat) (hi : i < T) :
    (thread_ranges n T)[i]? =
      some (min (i * chunk_size n T) n, min ((i + 1) * chunk_size n T) n) := by
  unfold thread_ranges
  rw [List.getElem?_map, List.getElem?_range hi]
  rfl

theorem chunk_size_covers (n T : Nat) (hT : 1 ≤ T) : n ≤ T * chunk_size n T := by
  unfold chunk_size
  have h := Nat.lt_mul_div_succ (n + T - 1) (by omega : 0 < T)
  rw [Nat.mul_succ] at h
  omega

theorem chunk_size_pos (n T : Nat) (hT : 1 ≤ T) (hn : 0 < n) : 0 < chunk_size n T := by
  unfold chunk_size
  exact Nat.div_pos (by omega) (by omega)

theorem thread_ranges_isPartition (n T : Nat) (hT : 1 ≤ T) :
    IsPartition n T (thread_ranges n T) := by
  refine ⟨by simp [thread_ranges], ?_, ?_, ?_, ?_, ?_⟩
  · intro r h
    obtain ⟨_, hr⟩ := thread_ranges_getElem? n T 0 r h
    rw [hr]; simp
  · intro i r r1 h h1
    obtain ⟨_, hr⟩ := thread_ranges_getElem? n T i r h
    obtain ⟨_, hr1⟩ := thread_ranges_getElem? n T (i + 1) r1 h1
    rw [hr, hr1]
  · intro i j r r1 hij h h1 x hx
    obtain ⟨_, hr⟩ := thread_ranges_getElem? n T i r h
    obtain ⟨_, hr1⟩ := thread_ranges_getElem? n T j r1 h1
    have hmul : (i + 1) * chunk_size n T ≤ j * chunk_size n T :=
      Nat.mul_le_mul_right _ hij
    rw [hr, hr1] at hx
    simp only at hx
    omega
  · intro r hr
    obtain ⟨i, hi⟩ := List.getElem?_of_mem hr
    obtain ⟨_, hr1⟩ := thread_ranges_getElem? n T i r hi
    have hmul : i * chunk_size n T ≤ (i + 1) * chunk_size n T :=
      Nat.mul_le_mul_right _ (Nat.le_succ i)
    rw [hr1]
    simp only
    omega
  · intro x hx
    have hc : 0 < chunk_size n T := chunk_size_pos n T hT (by omega)
    have hcov := chunk_size_covers n T hT
    have hi : x / chunk_size n T < T :=
      Nat.div_lt_of_lt_mul (by rw [Nat.mul_comm]; omega)
    have hlo : x / chunk_size n T * chunk_size n T ≤ x := Nat.div_mul_le_self x _
    have hhi : x < (x / chunk_size n T + 1) * chunk_size n T := by
      have := Nat.lt_mul_div_succ x hc
      rw [Nat.mul_comm] at this
      exact this
    refine ⟨_, List.getElem?_mem (thread_ranges_getElem n T _ hi), ?_, ?_⟩
    · simp only; omega
    · simp only; omega

/-- C14 (as amended): for every `n_samples` and thread count `T ≥ 1` the range
partitioner yields exactly `T` ranges that are contiguous from 0, pairwise
disjoint, inside `[0, n_samples)` and together cover it.  Every range has at
most `ceil(n_samples / T)` elements, and exactly that many unless it ends at
`n_samples`.  When `(T - 1) * ceil(n_samples / T) ≤ n_samples`, every range but
the last has size `ceil(n_samples / T)` and the last one holds the remainder. -/
theorem thread_ranges_partition (n T : Nat) (hT : 1 ≤ T) :
    IsPartition n T (thread_ranges n T) ∧
    (∀ r ∈ thread_ranges n T, r.2 - r.1 ≤ chunk_size n T) ∧
    (∀ r ∈ thread_ranges n T, r.2 < n → r.2 - r.1 = chunk_size n T) ∧
    ((T - 1) * chunk_size n T ≤ n → SizesAsClaimed n T (thread_ranges n T)) := by
  refine ⟨thread_ranges_isPartition n T hT, ?_, ?_, ?_⟩
  · intro r hr
    obtain ⟨i, hi⟩ := List.getElem?_of_mem hr
    obtain ⟨_, hr1⟩ := thread_ranges_getElem? n T i r hi
    have hmul : (i + 1) * chunk_size n T = i * chunk_size n T + chunk_size n T :=
      Nat.succ_mul _ _
    rw [hr1]
    simp only
    omega
  · intro r hr hlt
    obtain ⟨i, hi⟩ := List.getElem?_of_mem hr
    obtain ⟨_, hr1⟩ := thread_ranges_getElem? n T i r hi
    have hmul : (i + 1) * chunk_size n T = i * chunk_size n T + chunk_size n T :=
      Nat.succ_mul _ _
    rw [hr1] at hlt ⊢
    simp only at hlt ⊢
    omega
  · intro hfit
    constructor
    · intro i r hi h
      obtain ⟨_, hr1⟩ := thread_ranges_getElem? n T i r h
      have hmul : (i + 1) * chunk_size n T = i * chunk_size n T + chunk_size n T :=
        Nat.succ_mul _ _
      have hle : (i + 1) * chunk_size n T ≤ (T - 1) * chunk_size n T :=
        Nat.mul_le_mul_right _ (by omega)
      rw [hr1]
      simp only
      omega
    · intro r h
      obtain ⟨_, hr1⟩ := thread_ranges_getElem? n T (T - 1) r h
      have hcov := chunk_size_covers n T hT
      have hmul : (T - 1 + 1) * chunk_size n T = T * chunk_size n T := by
        rw [Nat.sub_add_cancel hT]
      rw [hr1, hmul]
      simp only
      omega

theorem thread_ranges_partition_witness :
    IsPartition 5 4 (thread_ranges 5 4) ∧
    (∀ r ∈ thread_ranges 5 4, r.2 - r.1 ≤ chunk_size 5 4) ∧
    (∀ r ∈ thread_ranges 5 4, r.2 < 5 → r.2 - r.1 = chunk_size 5 4) ∧
    ((4 - 1) * chunk_size 5 4 ≤ 5 → SizesAsClaimed 5 4 (thread_ranges 5 4)) :=
  thread_ranges_partition 5 4 (by decide)

/-- C14 (as worded) fails for 5 samples and 4 threads: the chunk size is 2,
the ranges are `[0,2) [2,4) [4,5) [5,5)`, and the third range, which is not the
last, has one element.  No list of ranges can do better: three ranges of two
elements placed one after the other from 0 do not fit in `[0, 5)`. -/
theorem thread_ranges_sizes_counterexample :
    thread_ranges 5 4 = [(0, 2), (2, 4), (4, 5), (5, 5)] ∧
    ¬ SizesAsClaimed 5 4 (thread_ranges 5 4) ∧
    ¬ ∃ rs, IsPartition 5 4 rs ∧ SizesAsClaimed 5 4 rs := by
  refine ⟨by decide, ?_, ?_⟩
  · intro h
    have h2 := h.1 2 (4, 5) (by decide) (by decide)
    simp [chunk_size] at h2
  · rintro ⟨rs, ⟨hlen, h0, hcont, _, hin, _⟩, hsz, _⟩
    match rs, hlen with
    | [r0, r1, r2, r3], _ =>
      have a0 := h0 r0 rfl
      have c01 := hcont 0 r0 r1 rfl rfl
      have c12 := hcont 1 r1 r2 rfl rfl
      have s0 := hsz 0 r0 (by decide) rfl
      have s1 := hsz 1 r1 (by decide) rfl
      have s2 := hsz 2 r2 (by decide) rfl
      have i0 := hin r0 (by simp)
      have i1 := hin r1 (by simp)
      have i2 := hin r2 (by simp)
      have hc : chunk_size 5 4 = 2 := by decide
      rw [hc] at s0 s1 s2
      omega

/-- C15: a `LUTProblem` built on a data set `d` reports the counts of `d`
(`n_features`, `n_samples`, `n_outputs`, and `n_entries() = d.n_fvalues()`), and
its `fvalue(f, s)` and `cost(s)` are `d.value(f, s)` and `d.cost(s)`. -/
theorem lutproblem_accessors [Zero D] (d : DataSet D) (param : P) (threads : Nat) :
    (LUTProblem.construct d param threads).n_features = d.n_features ∧
    (LUTProblem.construct d param threads).n_samples = d.n_samples ∧
    (LUTProblem.construct d param threads).n_outputs = d.n_outputs ∧
    (LUTProblem.construct d param threads).n_entries = d.n_fvalues ∧
    (∀ f s, (LUTProblem.construct d param threads).fvalue f s = d.value f s) ∧
    (∀ s, (LUTProblem.construct d param threads).cost s = d.cost s) ∧
    (∀ s, (LUTProblem.construct d param threads).target s = d.targets s) := by
  refine ⟨rfl, rfl, rfl, rfl, fun f s => ?_, fun s => rfl, fun s => rfl⟩
  exact Nat.mod_eq_of_lt (d.value_lt f s)

theorem fvalue_eq_value (p : LUTProblem P D) (f s : Nat) :
    p.fvalue f s = p.m_data.value f s :=
  Nat.mod_eq_of_lt (p.m_data.value_lt f s)

theorem addAt_spec [Add D] (m : List (List D)) (s o : Nat) (e v : D)
    (hv : cell m s o = some v) :
    ∃ m1, addAt m s o e = some m1 ∧ m1.map List.length = m.map List.length ∧
      ∀ s1 o1, cell m1 s1 o1 =
        if s1 = s ∧ o1 = o then some (v + e) else cell m s1 o1 := by
  unfold cell at hv
  cases hrow : m[s]? with
  | none => simp [hrow] at hv
  | some row =>
    simp only [hrow] at hv
    have hs : s < m.length := by
      by_contra hc
      rw [List.getElem?_eq_none (by omega)] at hrow
      cases hrow
    have ho : o < row.length := by
      by_contra hc
      rw [List.getElem?_eq_none (by omega)] at hv
      cases hv
    refine ⟨m.set s (row.set o (v + e)), by simp [addAt, hrow, hv], ?_, ?_⟩
    · apply List.ext_getElem?
      intro i
      by_cases hi : i = s
      · subst hi
        have hrow1 : m[i] = row := by
          have := List.getElem?_eq_getElem hs
          rw [hrow] at this
          exact (Option.some.inj this).symm
        simp [List.getElem?_map, List.getElem?_set, hs, hrow1]
      · have : s ≠ i := fun h => hi h.symm
        simp [List.getElem?_map, List.getElem?_set, this]
    · intro s1 o1
      unfold cell
      by_cases hs1 : s1 = s
      · subst hs1
        by_cases ho1 : o1 = o
        · subst ho1
          simp [List.getElem?_set, hs, ho]
        · have : o ≠ o1 := fun h => ho1 h.symm
          simp [List.getElem?_set, hs, ho1, this, hrow]
      · have : s ≠ s1 := fun h => hs1 h.symm
        simp [List.getElem?_set, hs1, this]

theorem lutEntry_index (p : LUTProblem P D) (luts : List (LUT D)) (s o : Nat) (e : D)
    (h : lutEntry p.m_data luts s o = some e) :
    ∃ lut, luts[o]? = some lut ∧ lut.index (p.fvalue lut.feature s) = some e := by
  unfold lutEntry at h
  cases hl : luts[o]? with
  | none => simp [hl] at h
  | some lut =>
    simp only [hl] at h
    exact ⟨lut, rfl, by rw [LUT.index, fvalue_eq_value]; exact h⟩

theorem update_scores_outputs_spec [Add D] (p : LUTProblem P D) (luts : List (LUT D))
    (s : Nat) (E : Nat → D) :
    ∀ (os : List Nat) (strong : List (List D)), os.Nodup →
      (∀ o ∈ os, lutEntry p.m_data luts s o = some (E o)) →
      (∀ o ∈ os, ∃ v, cell strong s o = some v) →
      ∃ strong1, p.update_scores_outputs luts s os strong = some strong1 ∧
        strong1.map List.length = strong.map List.length ∧
        ∀ s1 o1, cell strong1 s1 o1 =
          if s1 = s ∧ o1 ∈ os then (cell strong s1 o1).map (fun v => v + E o1)
          else cell strong s1 o1 := by
  intro os
  induction os with
  | nil => intro strong _ _ _; exact ⟨strong, rfl, rfl, fun s1 o1 => by simp⟩
  | cons o os ih =>
    intro strong hnd hE hcell
    obtain ⟨hno, hnd1⟩ := List.nodup_cons.mp hnd
    obtain ⟨lut, hlut, hidx⟩ := lutEntry_index p luts s o (E o) (hE o (by simp))
    obtain ⟨v, hv⟩ := hcell o (by simp)
    obtain ⟨sa, hsa, hshape, hcells⟩ := addAt_spec strong s o (E o) v hv
    have hcell1 : ∀ o1 ∈ os, ∃ v1, cell sa s o1 = some v1 := by
      intro o1 ho1
      rw [hcells s o1]
      by_cases h : o1 = o
      · exact ⟨v + E o, by simp [h]⟩
      · obtain ⟨v1, hv1⟩ := hcell o1 (by simp [ho1])
        exact ⟨v1, by simp [h, hv1]⟩
    obtain ⟨s1m, hs1m, hshape1, hcells1⟩ :=
      ih sa hnd1 (fun o1 ho1 => hE o1 (by simp [ho1])) hcell1
    refine ⟨s1m, ?_, hshape1.trans hshape, fun s1 o1 => ?_⟩
    · simp only [LUTProblem.update_scores_outputs, hlut, hidx, hsa, hs1m]
    · rw [hcells1 s1 o1, hcells s1 o1]
      by_cases hs : s1 = s
      · subst hs
        by_cases ho : o1 = o
        · subst ho
          simp [hno, hv]
        · by_cases hm : o1 ∈ os <;> simp [ho, hm]
      · simp [hs]

theorem update_scores_samples_spec [Add D] (p : LUTProblem P D) (luts : List (LUT D))
    (E : Nat → Nat → D) :
    ∀ (ss : List Nat) (strong : List (List D)), ss.Nodup →
      (∀ s ∈ ss, ∀ o, o < p.n_outputs → lutEntry p.m_data luts s o = some (E s o)) →
      (∀ s ∈ ss, ∀ o, o < p.n_outputs → ∃ v, cell strong s o = some v) →
      ∃ strong1, p.update_scores_samples luts ss strong = some strong1 ∧
        strong1.map List.length = strong.map List.length ∧
        ∀ s1 o1, cell strong1 s1 o1 =
          if s1 ∈ ss ∧ o1 < p.n_outputs then (cell strong s1 o1).map (fun v => v + E s1 o1)
          else cell strong s1 o1 := by
  intro ss
  induction ss with
  | nil => intro strong _ _ _; exact ⟨strong, rfl, rfl, fun s1 o1 => by simp⟩
  | cons s ss ih =>
    intro strong hnd hE hcell
    obtain ⟨hns, hnd1⟩ := List.nodup_cons.mp hnd
    obtain ⟨sa, hsa, hshape, hcells⟩ :=
      update_scores_outputs_spec p luts s (E s) (List.range p.n_outputs) strong
        (List.nodup_range _)
        (fun o ho => hE s (by simp) o (List.mem_range.mp ho))
        (fun o ho => hcell s (by simp) o (List.mem_range.mp ho))
    have hcell1 : ∀ s1 ∈ ss, ∀ o, o < p.n_outputs → ∃ v, cell sa s1 o = some v := by
      intro s1 hs1 o ho
      have hne : s1 ≠ s := fun h => hns (h ▸ hs1)
      rw [hcells s1 o]
      simpa [hne] using hcell s1 (by simp [hs1]) o ho
    obtain ⟨sb, hsb, hshape1, hcells1⟩ :=
      ih sa hnd1 (fun s1 hs1 => hE s1 (by simp [hs1])) hcell1
    refine ⟨sb, ?_, hshape1.trans hshape, fun s1 o1 => ?_⟩
    · simp only [LUTProblem.update_scores_samples, hsa, hsb]
    · rw [hcells1 s1 o1, hcells s1 o1]
      by_cases hs : s1 = s
      · subst hs
        by_cases ho : o1 < p.n_outputs <;> simp [hns, ho, List.mem_range]
      · by_cases hm : s1 ∈ ss <;> simp [hs, hm]

theorem update_scores_outputs_congr [Add D] (p : LUTProblem P D) (m1 : List (List D))
    (luts : List (LUT D)) (s : Nat) :
    ∀ (os : List Nat) (strong : List (List D)),
      LUTProblem.update_scores_outputs { p with m_sscores := m1 } luts s os strong =
        p.update_scores_outputs luts s os strong := by
  intro os
  induction os with
  | nil => intro strong; rfl
  | cons o os ih =>
    intro strong
    simp only [LUTProblem.update_scores_outputs]
    cases luts[o]? with
    | none => rfl
    | some lut =>
      simp only []
      have hf : LUTProblem.fvalue { p with m_sscores := m1 } lut.feature s =
          p.fvalue lut.feature s := rfl
      rw [hf]
      cases lut.index (p.fvalue lut.feature s) with
      | none => rfl
      | some e =>
        simp only []
        cases addAt strong s o e with
        | none => rfl
        | some sa => exact ih sa

theorem update_scores_samples_congr [Add D] (p : LUTProblem P D) (m1 : List (List D))
    (luts : List (LUT D)) :
    ∀ (ss : List Nat) (strong : List (List D)),
      LUTProblem.update_scores_samples { p with m_sscores := m1 } luts ss strong =
        p.update_scores_samples luts ss strong := by
  intro ss
  induction ss with
  | nil => intro strong; rfl
  | cons s ss ih =>
    intro strong
    simp only [LUTProblem.update_scores_samples]
    have hn : LUTProblem.n_outputs { p with m_sscores := m1 } = p.n_outputs := rfl
    rw [hn, update_scores_outputs_congr]
    cases p.update_scores_outputs luts s (List.range p.n_outputs) strong with
    | none => rfl
    | some sa => exact ih sa

theorem update_scores_samples_append [Add D] (p : LUTProblem P D) (luts : List (LUT D)) :
    ∀ (l1 l2 : List Nat) (strong : List (List D)),
      p.update_scores_samples luts (l1 ++ l2) strong =
        (p.update_scores_samples luts l1 strong).bind (p.update_scores_samples luts l2) := by
  intro l1
  induction l1 with
  | nil => intro l2 strong; rfl
  | cons s l1 ih =>
    intro l2 strong
    simp only [List.cons_append, LUTProblem.update_scores_samples]
    cases p.update_scores_outputs luts s (List.range p.n_outputs) strong with
    | none => rfl
    | some sa => exact ih l2 sa

theorem update_scores_chunks_eq [Add D] (luts : List (LUT D)) :
    ∀ (ranges : List (Nat × Nat)) (p : LUTProblem P D),
      LUTProblem.update_scores_chunks luts ranges p =
        (p.update_scores_samples luts
            (ranges.flatMap (fun r => List.range' r.1 (r.2 - r.1))) p.m_sscores).map
          (fun m => { p with m_sscores := m }) := by
  intro ranges
  induction ranges with
  | nil => intro p; rfl
  | cons r ranges ih =>
    intro p
    simp only [LUTProblem.update_scores_chunks, LUTProblem.update_scores_mt,
      List.flatMap_cons, update_scores_samples_append]
    cases p.update_scores_samples luts (List.range' r.1 (r.2 - r.1)) p.m_sscores with
    | none => rfl
    | some m1 =>
      simp only [Option.some_bind]
      rw [ih, update_scores_samples_congr]

theorem thread_ranges_flatten (n T : Nat) (hT : 1 ≤ T) :
    (thread_ranges n T).flatMap (fun r => List.range' r.1 (r.2 - r.1)) = List.range n := by
  have key : ∀ k, ((List.range k).map (fun i =>
        (min (i * chunk_size n T) n, min ((i + 1) * chunk_size n T) n))).flatMap
          (fun r => List.range' r.1 (r.2 - r.1)) = List.range (min (k * chunk_size n T) n) := by
    intro k
    induction k with
    | zero => simp
    | succ k ih =>
      rw [List.range_succ, List.map_append, List.flatMap_append, ih]
      have hmul : k * chunk_size n T ≤ (k + 1) * chunk_size n T :=
        Nat.mul_le_mul_right _ (Nat.le_succ k)
      simp only [List.map_cons, List.map_nil, List.flatMap_cons, List.flatMap_nil,
        List.append_nil, List.range_eq_range']
      have h := List.range'_append_1 0 (min (k * chunk_size n T) n)
        (min ((k + 1) * chunk_size n T) n - min (k * chunk_size n T) n)
      rw [Nat.zero_add] at h
      rw [h]
      congr 1
      omega
  have hcov := chunk_size_covers n T hT
  have := key T
  rw [Nat.min_eq_right (by omega)] at this
  exact this

theorem update_scores_cells [Add D] (p : LUTProblem P D) (luts : List (LUT D))
    (E : Nat → Nat → D) (hT : 1 ≤ p.m_threads)
    (hE : ∀ s o, s < p.n_samples → o < p.n_outputs →
      lutEntry p.m_data luts s o = some (E s o))
    (hshape : ∀ s o, s < p.n_samples → o < p.n_outputs →
      ∃ v, cell p.m_sscores s o = some v) :
    ∃ strong1, p.update_scores luts = some { p with m_sscores := strong1 } ∧
      strong1.map List.length = p.m_sscores.map List.length ∧
      (∀ s o, s < p.n_samples → o < p.n_outputs →
        cell strong1 s o = (cell p.m_sscores s o).map (fun v => v + E s o)) ∧
      (∀ s o, ¬ (s < p.n_samples ∧ o < p.n_outputs) →
        cell strong1 s o = cell p.m_sscores s o) := by
  obtain ⟨strong1, hrun, hlen, hcells⟩ :=
    update_scores_samples_spec p luts E (List.range p.n_samples) p.m_sscores
      (List.nodup_range _)
      (fun s hs o ho => hE s o (List.mem_range.mp hs) ho)
      (fun s hs o ho => hshape s o (List.mem_range.mp hs) ho)
  refine ⟨strong1, ?_, hlen, fun s o hs ho => ?_, fun s o hno => ?_⟩
  · unfold LUTProblem.update_scores
    rw [update_scores_chunks_eq, thread_ranges_flatten _ _ hT, hrun]
    rfl
  · rw [hcells s o]; simp [hs, ho]
  · rw [hcells s o]
    have : ¬ (s ∈ List.range p.n_samples ∧ o < p.n_outputs) := by
      simpa [List.mem_range] using hno
    rw [if_neg this]

theorem column_of_three (m : List (List Int)) (h : m.map List.length = [1, 1, 1]) :
    ∃ x y z, m = [[x], [y], [z]] := by
  rcases m with _ | ⟨r0, _ | ⟨r1, _ | ⟨r2, _ | ⟨r3, t⟩⟩⟩⟩ <;> simp at h
  obtain ⟨h0, h1, h2⟩ := h
  obtain ⟨x, rfl⟩ := List.length_eq_one.mp h0
  obtain ⟨y, rfl⟩ := List.length_eq_one.mp h1
  obtain ⟨z, rfl⟩ := List.length_eq_one.mp h2
  exact ⟨x, y, z, rfl⟩

theorem scenario_entries (s o : Nat) (hs : s < 3) (ho : o < 1) :
    lutEntry scenarioData [scenarioLut] s o =
      some (if s = 0 then 0 else if s = 1 then 1 else 2) := by
  have ho0 : o = 0 := by omega
  subst ho0
  interval_cases s <;> rfl

theorem scenario_update (T : Nat) (hT : 1 ≤ T) (a b c : Int) :
    (scenarioProblem T a b c).update_scores [scenarioLut] =
      some (scenarioProblem T (a + 0) (b + 1) (c + 2)) := by
  obtain ⟨strong1, hrun, hlen, hin, _⟩ :=
    update_scores_cells (scenarioProblem T a b c) [scenarioLut]
      (fun s _ => if s = 0 then 0 else if s = 1 then 1 else 2) hT
      (fun s o hs ho => scenario_entries s o hs ho)
      (fun s o hs ho => by
        have hs3 : s < 3 := hs
        have ho0 : o = 0 := by have : o < 1 := ho; omega
        subst ho0
        interval_cases s
        · exact ⟨a, rfl⟩
        · exact ⟨b, rfl⟩
        · exact ⟨c, rfl⟩)
  obtain ⟨x, y, z, hxyz⟩ := column_of_three strong1 hlen
  subst hxyz
  have hn : (scenarioProblem T a b c).n_samples = 3 := rfl
  have hm : (scenarioProblem T a b c).n_outputs = 1 := rfl
  have h0 := hin 0 0 (by rw [hn]; decide) (by rw [hm]; decide)
  have h1 := hin 1 0 (by rw [hn]; decide) (by rw [hm]; decide)
  have h2 := hin 2 0 (by rw [hn]; decide) (by rw [hm]; decide)
  simp [cell, scenarioProblem] at h0 h1 h2
  rw [hrun, h0, h1, h2]
  simp [scenarioProblem]

/-- C13: for a problem on any data set, with at least one worker, LUTs whose
entry `luts[o].entries[value(luts[o].feature, s)]` exists (it is `E s o`) for
every sample `s` and output `o`, and a `strong` matrix that has those cells:
`update_scores(luts)` returns, changes nothing but `strong`, keeps its shape,
adds exactly `E s o` to `strong[s][o]` and leaves every other cell alone.  In
the scenario (one feature of 4 buckets, bucket values 0, 1, 3, LUT entries
`[0.0, 1.0, 0.0, 2.0]`) it adds exactly 0, 1, 2 to column 0, whatever the
number of workers. -/
theorem update_scores_adds [Add D] (p : LUTProblem P D) (luts : List (LUT D))
    (E : Nat → Nat → D) (hT : 1 ≤ p.m_threads)
    (hE : ∀ s o, s < p.n_samples → o < p.n_outputs →
      lutEntry p.m_data luts s o = some (E s o))
    (hshape : ∀ s o, s < p.n_samples → o < p.n_outputs →
      ∃ v, cell p.m_sscores s o = some v) :
    (∃ strong1, p.update_scores luts = some { p with m_sscores := strong1 } ∧
      strong1.map List.length = p.m_sscores.map List.length ∧
      (∀ s o, s < p.n_samples → o < p.n_outputs →
        cell strong1 s o = (cell p.m_sscores s o).map (fun v => v + E s o)) ∧
      (∀ s o, ¬ (s < p.n_samples ∧ o < p.n_outputs) →
        cell strong1 s o = cell p.m_sscores s o)) ∧
    (∀ (T : Nat) (a b c : Int), 1 ≤ T →
      (scenarioProblem T a b c).update_scores [scenarioLut] =
        some (scenarioProblem T (a + 0) (b + 1) (c + 2))) :=
  ⟨update_scores_cells p luts E hT hE hshape,
   fun T a b c h => scenario_update T h a b c⟩

theorem update_scores_adds_witness :
    ((scenarioProblem 2 10 20 30).update_scores [scenarioLut]).map
        (fun q => q.m_sscores) = some [[10], [21], [32]] ∧
    (scenarioProblem 2 10 20 30).update_scores [scenarioLut] =
        some (scenarioProblem 2 (10 + 0) (20 + 1) (30 + 2)) :=
  ⟨by decide,
   (update_scores_adds (scenarioProblem 2 10 20 30) [scenarioLut]
      (fun s _ => if s = 0 then 0 else if s = 1 then 1 else 2) (by decide)
      (fun s o hs ho => scenario_entries s o hs ho)
      (fun s o hs ho => by
        have hs3 : s < 3 := hs
        have ho0 : o = 0 := by have : o < 1 := ho; omega
        subst ho0
        interval_cases s
        · exact ⟨10, rfl⟩
        · exact ⟨20, rfl⟩
        · exact ⟨30, rfl⟩)).2 2 10 20 30 (by decide)⟩

theorem identityArray_toMatrix : identityArray.toMatrix = 1 := by
  ext i j
  simp [Array2.toMatrix, identityArray, Matrix.one_apply, Fin.ext_iff]

theorem cycle_isLU :
    @IsLU 3 cycleArray.toMatrix identityArray.toMatrix identityArray.toMatrix
      cycleArray.toMatrix := by
  refine ⟨?_, ⟨(finRotate 3).symm, ?_⟩, ?_, ?_, ?_⟩
  · rw [identityArray_toMatrix]; simp
  · intro i j
    fin_cases i <;> fin_cases j <;> simp [Array2.toMatrix, cycleArray] <;> decide
  · intro i; rw [identityArray_toMatrix]; simp
  · intro i j h; rw [identityArray_toMatrix]; exact Matrix.one_apply_ne (ne_of_lt h)
  · intro i j h; rw [identityArray_toMatrix]; exact Matrix.one_apply_ne (ne_of_gt h)

/-- C16 fails on the code.  For the 3 x 3 permutation matrix `A` with ones at
(0,2), (1,0), (2,1), whose decomposition `A = P*L*U` has `L = U = 1` and
`P = A`: only row 0 of `P` has a positive entry right of the diagonal, so the
loop flips the sign once and `det_(A)` is `-1`, while `P` is an even
permutation (a 3-cycle) and the determinant of `A` is `+1`. -/
theorem det_sign_bug :
    cycleLU cycleArray = (identityArray, identityArray, cycleArray) ∧
    @IsLU 3 cycleArray.toMatrix identityArray.toMatrix identityArray.toMatrix
      cycleArray.toMatrix ∧
    det_ cycleLU cycleArray = -1 ∧
    Matrix.det cycleArray.toMatrix = 1 ∧
    det_ cycleLU cycleArray ≠ Matrix.det cycleArray.toMatrix := by
  have h1 : det_ cycleLU cycleArray = -1 := by
    simp [det_, cycleLU, det_outer, det_inner, cycleArray, identityArray, List.range,
      List.range.loop, List.range']
  have h2 : Matrix.det cycleArray.toMatrix = 1 := by
    rw [Matrix.det_fin_three]
    simp [Array2.toMatrix, cycleArray]
  refine ⟨rfl, cycle_isLU, h1, h2, ?_⟩
  rw [h1, h2]
  norm_num

/-- C17: `math::det(A)` raises the dimension error when `A.extent(0)` differs
from `A.extent(1)`, and returns exactly `det_(A)` when `A` is square. -/
theorem det_checks_square {R : Type} [Zero R] [One R] [LT R]
    [DecidableRel (fun a b : R => a < b)] [Mul R] [IntCast R]
    (lu : Array2 R → Array2 R × Array2 R × Array2 R) (A : Array2 R) :
    (A.extent0 ≠ A.extent1 → det lu A = Except.error Exn.shape_error) ∧
    (A.extent0 = A.extent1 → det lu A = Except.ok (det_ lu A)) := by
  constructor
  · intro h; simp [det, assertSameDimensionLength, h]
  · intro h; simp [det, assertSameDimensionLength, h]

theorem det_checks_square_witness :
    det cycleLU wideArray = Except.error Exn.shape_error ∧
    det cycleLU cycleArray = Except.ok (det_ cycleLU cycleArray) :=
  ⟨(det_checks_square cycleLU wideArray).1 (by decide),
   (det_checks_square cycleLU cycleArray).2 rfl⟩

/-- C18: `forward(input, output)` raises, and what it raises is a runtime
error, if and only if the length of `input` differs from the number of rows of
the weight matrix or the length of `output` from its number of columns.  When
it raises, the output (and the machine) are what they were; when it does not,
what it does is exactly what `forward_(input, output)` does. -/
theorem forward_checks {R : Type} [Zero R] [Add R] [Sub R] [Mul R] [Div R]
    (m : LinearMachine R) (input output : List R) :
    ((∃ o e, m.forward input output = some o ∧ o.raised = some e) ↔
      (input.length ≠ m.m_weight.extent0 ∨ output.length ≠ m.m_weight.extent1)) ∧
    ((input.length ≠ m.m_weight.extent0 ∨ output.length ≠ m.m_weight.extent1) →
      ∃ what expected got, m.forward input output =
        some { state := (m, output),
               raised := some (Exn.runtime_error what expected got) }) ∧
    (input.length = m.m_weight.extent0 → output.length = m.m_weight.extent1 →
      m.forward input output =
        (m.forward_ input output).map (fun st => { state := st, raised := none })) := by
  have hraise : (input.length ≠ m.m_weight.extent0 ∨ output.length ≠ m.m_weight.extent1) →
      ∃ what expected got, m.forward input output =
        some { state := (m, output),
               raised := some (Exn.runtime_error what expected got) } := by
    intro h
    unfold LinearMachine.forward
    by_cases h0 : m.m_weight.extent0 ≠ input.length
    · exact ⟨_, _, _, by rw [if_pos h0]⟩
    · have h1 : m.m_weight.extent1 ≠ output.length := by
        rcases h with h | h
        · exact absurd (fun e => h e.symm) h0
        · exact fun e => h e.symm
      exact ⟨_, _, _, by rw [if_neg h0, if_pos h1]⟩
  have hok : input.length = m.m_weight.extent0 → output.length = m.m_weight.extent1 →
      m.forward input output =
        (m.forward_ input output).map (fun st => { state := st, raised := none }) := by
    intro h0 h1
    unfold LinearMachine.forward
    rw [if_neg (by simp [h0]), if_neg (by simp [h1])]
    cases m.forward_ input output <;> rfl
  refine ⟨⟨?_, ?_⟩, hraise, hok⟩
  · rintro ⟨o, e, ho, he⟩
    by_contra hc
    have h0 : input.length = m.m_weight.extent0 := by
      by_contra h; exact hc (Or.inl h)
    have h1 : output.length = m.m_weight.extent1 := by
      by_contra h; exact hc (Or.inr h)
    rw [hok h0 h1] at ho
    cases hf : m.forward_ input output with
    | none => rw [hf] at ho; cases ho
    | some st =>
      rw [hf] at ho
      cases ho
      cases he
  · intro h
    obtain ⟨what, expected, got, hw⟩ := hraise h
    exact ⟨_, _, hw, rfl⟩

theorem forward_checks_witness :
    (∃ what expected got, demoMachine.forward [1, 2, 3] [0] =
        some { state := (demoMachine, [0]),
               raised := some (Exn.runtime_error what expected got) }) ∧
    (demoMachine.forward [1, 2] [5] =
        (demoMachine.forward_ [1, 2] [5]).map (fun st => { state := st, raised := none })) ∧
    ((demoMachine.forward_ [1, 2] [5]).map (fun st => st.2) = some [0]) :=
  ⟨(forward_checks demoMachine [1, 2, 3] [0]).2.1 (Or.inl (by decide)),
   (forward_checks demoMachine [1, 2] [5]).2.2 rfl rfl,
   by decide⟩

/-- C19: each of the four setters of a linear machine raises a runtime error
when the shape of its argument disagrees with the sizes the machine holds
(for `setWeights` the lengths of input subtraction and of the biases, for the
three others the extents of the weight matrix), and then leaves the whole
machine, so weights, biases, input subtraction and input division, as it was;
when the shape agrees it raises nothing and replaces its own field by the
argument, nothing else.  On a machine that satisfies the shape invariant the
sizes `setWeights` compares with are the extents of the weight matrix too. -/
theorem setters_check_shape {R : Type} (m : LinearMachine R) :
    (∀ weight : Array2 R,
      ((weight.extent0 ≠ m.m_input_sub.length ∨ weight.extent1 ≠ m.m_bias.length) →
        ∃ what expected got, m.setWeights weight =
          { state := m, raised := some (Exn.runtime_error what expected got) }) ∧
      (weight.extent0 = m.m_input_sub.length → weight.extent1 = m.m_bias.length →
        m.setWeights weight = { state := { m with m_weight := weight }, raised := none })) ∧
    (∀ bias : List R,
      (bias.length ≠ m.m_weight.extent1 →
        ∃ what expected got, m.setBiases bias =
          { state := m, raised := some (Exn.runtime_error what expected got) }) ∧
      (bias.length = m.m_weight.extent1 →
        m.setBiases bias = { state := { m with m_bias := bias }, raised := none })) ∧
    (∀ v : List R,
      (v.length ≠ m.m_weight.extent0 →
        ∃ what expected got, m.setInputSubtraction v =
          { state := m, raised := some (Exn.runtime_error what expected got) }) ∧
      (v.length = m.m_weight.extent0 →
        m.setInputSubtraction v =
          { state := { m with m_input_sub := v }, raised := none })) ∧
    (∀ v : List R,
      (v.length ≠ m.m_weight.extent0 →
        ∃ what expected got, m.setInputDivision v =
          { state := m, raised := some (Exn.runtime_error what expected got) }) ∧
      (v.length = m.m_weight.extent0 →
        m.setInputDivision v =
          { state := { m with m_input_div := v }, raised := none })) ∧
    (m.ShapeInvariant → ∀ weight : Array2 R,
      (weight.extent0 ≠ m.m_weight.extent0 ∨ weight.extent1 ≠ m.m_weight.extent1) →
        ∃ what expected got, m.setWeights weight =
          { state := m, raised := some (Exn.runtime_error what expected got) }) := by
  have hw : ∀ weight : Array2 R,
      (weight.extent0 ≠ m.m_input_sub.length ∨ weight.extent1 ≠ m.m_bias.length) →
        ∃ what expected got, m.setWeights weight =
          { state := m, raised := some (Exn.runtime_error what expected got) } := by
    intro weight h
    unfold LinearMachine.setWeights
    by_cases h0 : weight.extent0 ≠ m.m_input_sub.length
    · exact ⟨_, _, _, by rw [if_pos h0]⟩
    · have h1 : weight.extent1 ≠ m.m_bias.length := by
        rcases h with h | h
        · exact absurd h h0
        · exact h
      exact ⟨_, _, _, by rw [if_neg h0, if_pos h1]⟩
  refine ⟨fun weight => ⟨hw weight, fun h0 h1 => ?_⟩,
    fun bias => ⟨fun h => ?_, fun h => ?_⟩,
    fun v => ⟨fun h => ?_, fun h => ?_⟩,
    fun v => ⟨fun h => ?_, fun h => ?_⟩,
    fun hinv weight h => hw weight (by
      obtain ⟨h1, _, _, h4⟩ := hinv
      rw [h1, h4]; exact h)⟩
  · simp [LinearMachine.setWeights, h0, h1]
  · have h1 : m.m_weight.extent1 ≠ bias.length := fun e => h e.symm
    exact ⟨_, _, _, by rw [LinearMachine.setBiases, if_pos h1]⟩
  · simp [LinearMachine.setBiases, h]
  · have h1 : m.m_weight.extent0 ≠ v.length := fun e => h e.symm
    exact ⟨_, _, _, by rw [LinearMachine.setInputSubtraction, if_pos h1]⟩
  · simp [LinearMachine.setInputSubtraction, h]
  · have h1 : m.m_weight.extent0 ≠ v.length := fun e => h e.symm
    exact ⟨_, _, _, by rw [LinearMachine.setInputDivision, if_pos h1]⟩
  · simp [LinearMachine.setInputDivision, h]

theorem setters_check_shape_witness :
    (∃ what expected got, demoMachine.setWeights tallWeight =
        { state := demoMachine, raised := some (Exn.runtime_error what expected got) }) ∧
    (demoMachine.setWeights demoWeight =
        { state := { demoMachine with m_weight := demoWeight }, raised := none }) ∧
    (∃ what expected got, demoMachine.setBiases [1, 2] =
        { state := demoMachine, raised := some (Exn.runtime_error what expected got) }) ∧
    (demoMachine.setBiases [4] =
        { state := { demoMachine with m_bias := [4] }, raised := none }) ∧
    (∃ what expected got, demoMachine.setInputSubtraction [1] =
        { state := demoMachine, raised := some (Exn.runtime_error what expected got) }) ∧
    (demoMachine.setInputSubtraction [1, 2] =
        { state := { demoMachine with m_input_sub := [1, 2] }, raised := none }) ∧
    (∃ what expected got, demoMachine.setInputDivision [] =
        { state := demoMachine, raised := some (Exn.runtime_error what expected got) }) ∧
    (demoMachine.setInputDivision [2, 2] =
        { state := { demoMachine with m_input_div := [2, 2] }, raised := none }) ∧
    (∃ what expected got, demoMachine.setWeights tallWeight =
        { state := demoMachine, raised := some (Exn.runtime_error what expected got) }) :=
  ⟨((setters_check_shape demoMachine).1 tallWeight).1 (Or.inl (by decide)),
   ((setters_check_shape demoMachine).1 demoWeight).2 rfl rfl,
   ((setters_check_shape demoMachine).2.1 [1, 2]).1 (by decide),
   ((setters_check_shape demoMachine).2.1 [4]).2 rfl,
   ((setters_check_shape demoMachine).2.2.1 [1]).1 (by decide),
   ((setters_check_shape demoMachine).2.2.1 [1, 2]).2 rfl,
   ((setters_check_shape demoMachine).2.2.2.1 []).1 (by decide),
   ((setters_check_shape demoMachine).2.2.2.1 [2, 2]).2 rfl,
   (setters_check_shape demoMachine).2.2.2.2 ⟨rfl, rfl, rfl, rfl⟩ tallWeight
     (Or.inl (by decide))⟩

theorem size_mul_eq (a b : Nat) (h : a * b < 2 ^ 64) : size_mul a b = a * b :=
  Nat.mod_eq_of_lt h

/-- C20: on a mixture whose weights have `n_gaussians` elements (and whose
`n_gaussians * n_inputs` is a `size_t`), each of `setWeights`, `setMeans`,
`setMeanSupervector`, `setVariances` and `setVarianceSupervector` raises the
shape error when the extents of its argument differ from `n_gaussians`, from
`n_gaussians x n_inputs`, or from `n_gaussians * n_inputs`, and then leaves the
whole machine as it was: no weight, no mean and no variance is modified. -/
theorem gmm_setters_check_shape {G R : Type} (ops : GaussianOps G R) (m : GMMMachine G R)
    (hw : m.m_weights.length = m.m_n_gaussians)
    (hsz : m.m_n_gaussians * m.m_n_inputs < 2 ^ 64) :
    (∀ weights : List R, weights.length ≠ m.m_n_gaussians →
      m.setWeights weights = { state := m, raised := some Exn.shape_error }) ∧
    (∀ means : Array2 R,
      (means.extent0 ≠ m.m_n_gaussians ∨ means.extent1 ≠ m.m_n_inputs) →
      m.setMeans ops means = some { state := m, raised := some Exn.shape_error }) ∧
    (∀ v : List R, v.length ≠ m.m_n_gaussians * m.m_n_inputs →
      m.setMeanSupervector ops v = some { state := m, raised := some Exn.shape_error }) ∧
    (∀ variances : Array2 R,
      (variances.extent0 ≠ m.m_n_gaussians ∨ variances.extent1 ≠ m.m_n_inputs) →
      m.setVariances ops variances =
        some { state := m, raised := some Exn.shape_error }) ∧
    (∀ v : List R, v.length ≠ m.m_n_gaussians * m.m_n_inputs →
      m.setVarianceSupervector ops v =
        some { state := m, raised := some Exn.shape_error }) := by
  refine ⟨fun weights h => ?_, fun means h => ?_, fun v h => ?_, fun variances h => ?_,
    fun v h => ?_⟩
  · simp [GMMMachine.setWeights, assertSameShape, hw, h]
  · unfold GMMMachine.setMeans assertSameDimensionLength
    by_cases h0 : means.extent0 = m.m_n_gaussians
    · have h1 : means.extent1 ≠ m.m_n_inputs := by
        rcases h with h | h
        · exact absurd h0 h
        · exact h
      simp [h0, h1]
    · simp [h0]
  · simp [GMMMachine.setMeanSupervector, assertSameDimensionLength, size_mul_eq _ _ hsz, h]
  · unfold GMMMachine.setVariances assertSameDimensionLength
    by_cases h0 : variances.extent0 = m.m_n_gaussians
    · have h1 : variances.extent1 ≠ m.m_n_inputs := by
        rcases h with h | h
        · exact absurd h0 h
        · exact h
      simp [h0, h1]
    · simp [h0]
  · simp [GMMMachine.setVarianceSupervector, assertSameDimensionLength,
      size_mul_eq _ _ hsz, h]

theorem gmm_setters_check_shape_witness :
    demoGMM.setWeights [1, 2, 3] = { state := demoGMM, raised := some Exn.shape_error } ∧
    demoGMM.setMeans demoOps tallMeans =
      some { state := demoGMM, raised := some Exn.shape_error } ∧
    demoGMM.setMeanSupervector demoOps [1, 2, 3] =
      some { state := demoGMM, raised := some Exn.shape_error } ∧
    demoGMM.setVariances demoOps tallMeans =
      some { state := demoGMM, raised := some Exn.shape_error } ∧
    demoGMM.setVarianceSupervector demoOps [1, 2, 3, 4, 5] =
      some { state := demoGMM, raised := some Exn.shape_error } :=
  ⟨(gmm_setters_check_shape demoOps demoGMM rfl (by decide)).1 [1, 2, 3] (by decide),
   (gmm_setters_check_shape demoOps demoGMM rfl (by decide)).2.1 tallMeans
     (Or.inl (by decide)),
   (gmm_setters_check_shape demoOps demoGMM rfl (by decide)).2.2.1 [1, 2, 3] (by decide),
   (gmm_setters_check_shape demoOps demoGMM rfl (by decide)).2.2.2.1 tallMeans
     (Or.inl (by decide)),
   (gmm_setters_check_shape demoOps demoGMM rfl (by decide)).2.2.2.2 [1, 2, 3, 4, 5]
     (by decide)⟩

/-- C21: when `extension` is already present in the codec map,
`registerExtension` leaves the registry, so both maps, as it was (the first
registration is kept), and it raises, a runtime error, if and only if the
ignore flag is not set. -/
theorem register_existing {C : Type} (r : CodecRegistry C) (extension description : String)
    (codec c0 : C) (h : r.s_extension2codec extension = some c0) :
    (r.registerExtension extension description codec).state = r ∧
    ((∃ e, (r.registerExtension extension description codec).raised = some e) ↔
      r.s_ignore = false) ∧
    (∀ e, (r.registerExtension extension description codec).raised = some e →
      e.isRuntimeError = true) := by
  unfold CodecRegistry.registerExtension
  cases hi : r.s_ignore <;> simp [h, hi, Exn.isRuntimeError]

theorem register_existing_witness :
    ((matRegistry false).registerExtension ".mat" "again" 2).state = matRegistry false ∧
    ((∃ e, ((matRegistry false).registerExtension ".mat" "again" 2).raised = some e) ↔
      (matRegistry false).s_ignore = false) ∧
    (∀ e, ((matRegistry false).registerExtension ".mat" "again" 2).raised = some e →
      e.isRuntimeError = true) :=
  register_existing (matRegistry false) ".mat" "again" 2 1 (by decide)

/-- Registration of a new extension: when `ext` is not yet present in the codec
map, `registerExtension(ext, description, c)` raises nothing and stores `c` and
the description under `ext` itself; afterwards `isRegistered(e)` is true and
`findByExtension(e)` returns `c` for every `e` whose lower-case form is `ext`,
so for `ext` itself when it contains no upper-case letter. -/
theorem register_fresh {C : Type} (r : CodecRegistry C) (ext description : String) (c : C)
    (h : r.s_extension2codec ext = none) :
    (r.registerExtension ext description c).raised = none ∧
    (r.registerExtension ext description c).state.s_extension2codec ext = some c ∧
    (r.registerExtension ext description c).state.s_extension2description ext
      = some description ∧
    (∀ e, lower_extension e = ext →
      (r.registerExtension ext description c).state.isRegistered e = true ∧
      (r.registerExtension ext description c).state.findByExtension e = Except.ok c) ∧
    (lower_extension ext = ext →
      (r.registerExtension ext description c).state.isRegistered ext = true ∧
      (r.registerExtension ext description c).state.findByExtension ext = Except.ok c) := by
  have key : ∀ e, lower_extension e = ext →
      (r.registerExtension ext description c).state.isRegistered e = true ∧
      (r.registerExtension ext description c).state.findByExtension e = Except.ok c := by
    intro e he
    simp [CodecRegistry.registerExtension, h, CodecRegistry.isRegistered,
      CodecRegistry.findByExtension, map_assign, he]
  refine ⟨?_, ?_, ?_, key, fun he => key ext he⟩
  · simp [CodecRegistry.registerExtension, h]
  · simp [CodecRegistry.registerExtension, h, map_assign]
  · simp [CodecRegistry.registerExtension, h, map_assign]

theorem register_fresh_witness :
    ((emptyRegistry false).registerExtension ".png" "image" 7).state.isRegistered ".PNG"
      = true ∧
    ((emptyRegistry false).registerExtension ".png" "image" 7).state.findByExtension ".PNG"
      = Except.ok 7 ∧
    ((emptyRegistry false).registerExtension ".png" "image" 7).state.isRegistered ".png"
      = true ∧
    ((emptyRegistry false).registerExtension ".png" "image" 7).state.findByExtension ".png"
      = Except.ok 7 :=
  ⟨((register_fresh (emptyRegistry false) ".png" "image" 7 rfl).2.2.2.1 ".PNG"
      (by decide)).1,
   ((register_fresh (emptyRegistry false) ".png" "image" 7 rfl).2.2.2.1 ".PNG"
      (by decide)).2,
   ((register_fresh (emptyRegistry false) ".png" "image" 7 rfl).2.2.2.2 (by decide)).1,
   ((register_fresh (emptyRegistry false) ".png" "image" 7 rfl).2.2.2.2 (by decide)).2⟩

/-- C24 fails on the code.  `.PNG` is not present in the empty registry;
`registerExtension(".PNG", ..., 7)` raises nothing and stores the codec under
the key `.PNG` as given, while `isRegistered(".PNG")` and
`findByExtension(".PNG")` lower-case their argument and look up `.png`: the
first returns false, the second raises `unregistered extension`.  The same
extension in lower case, `.png`, is found after its registration, under either
spelling. -/
theorem register_uppercase_bug :
    (emptyRegistry false).s_extension2codec ".PNG" = none ∧
    ((emptyRegistry false).registerExtension ".PNG" "image" 7).raised = none ∧
    ((emptyRegistry false).registerExtension ".PNG" "image" 7).state.isRegistered ".PNG"
      = false ∧
    ((emptyRegistry false).registerExtension ".PNG" "image" 7).state.findByExtension ".PNG"
      = Except.error (Exn.runtime_error_text "unregistered extension: %s" [".png"]) ∧
    ¬ (((emptyRegistry false).registerExtension ".PNG" "image" 7).state.isRegistered ".PNG"
        = true ∧
       ((emptyRegistry false).registerExtension ".PNG" "image" 7).state.findByExtension
        ".PNG" = Except.ok 7) ∧
    ((emptyRegistry false).registerExtension ".png" "image" 7).state.isRegistered ".png"
      = true ∧
    ((emptyRegistry false).registerExtension ".png" "image" 7).state.isRegistered ".PNG"
      = true ∧
    ((emptyRegistry false).registerExtension ".png" "image" 7).state.findByExtension ".PNG"
      = Except.ok 7 := by
  refine ⟨rfl, rfl, by decide, rfl, ?_, by decide, by decide, rfl⟩
  rintro ⟨h, _⟩
  revert h
  decide

/-- C22: for every element type `t`, `mio_class_type(t)` raises if and only if
`t` is not one of the twelve supported types, and so does `mio_data_type(t)`;
what they raise is `invalid_argument`; for each supported type they return
the class and the data type the table gives: the one of the same width, with
`complex64` on single and `complex128` on double. -/
theorem matio_type_support (t : ElementType) :
    ((∃ e, mio_class_type t = Except.error e) ↔ t ∉ supported_types) ∧
    ((∃ e, mio_data_type t = Except.error e) ↔ t ∉ supported_types) ∧
    (∀ e, mio_class_type t = Except.error e → e = unsupported_type) ∧
    (∀ e, mio_data_type t = Except.error e → e = unsupported_type) ∧
    (∀ c d, (t, c, d) ∈ matio_table →
      mio_class_type t = Except.ok c ∧ mio_data_type t = Except.ok d) ∧
    (t ∈ supported_types → ∃ c d, (t, c, d) ∈ matio_table) := by
  cases t <;> simp [mio_class_type, mio_data_type, supported_types, matio_table,
    unsupported_type]

theorem matio_type_support_witness :
    mio_class_type .t_complex64 = Except.ok .MAT_C_SINGLE ∧
    mio_data_type .t_complex64 = Except.ok .MAT_T_SINGLE ∧
    (∃ e, mio_class_type .t_bool = Except.error e) :=
  ⟨((matio_type_support .t_complex64).2.2.2.2.1 .MAT_C_SINGLE .MAT_T_SINGLE
      (by decide)).1,
   ((matio_type_support .t_complex64).2.2.2.2.1 .MAT_C_SINGLE .MAT_T_SINGLE
      (by decide)).2,
   (matio_type_support .t_bool).1.mpr (by decide)⟩

/-- C28: for each of the twelve supported element types `t`,
`torch_element_type(mio_data_type(t), c) = t` with `c` true exactly for
`complex64` and `complex128`; `torch_element_type` returns `t_unknown` for any
`int` that is none of the ten matio types of its `switch`, and for the complex
flag together with any of the eight integer types. -/
theorem torch_element_type_inverse :
    (∀ t mt, t ∈ supported_types → mio_data_type t = Except.ok mt →
      torch_element_type mt.toInt
        (decide (t = ElementType.t_complex64 ∨ t = ElementType.t_complex128)) = t) ∧
    (∀ t, t ∈ supported_types → ∃ mt, mio_data_type t = Except.ok mt) ∧
    (∀ (n : Int) (c : Bool), (∀ mt : matio_types, n ≠ mt.toInt) →
      torch_element_type n c = ElementType.t_unknown) ∧
    (∀ mt : matio_types, mt ≠ matio_types.MAT_T_SINGLE → mt ≠ matio_types.MAT_T_DOUBLE →
      torch_element_type mt.toInt true = ElementType.t_unknown) := by
  refine ⟨?_, ?_, ?_, ?_⟩
  · intro t mt ht h
    cases t <;> simp [supported_types] at ht <;> simp [mio_data_type] at h <;>
      subst h <;> decide
  · intro t ht
    cases t <;> simp [supported_types] at ht <;> simp [mio_data_type]
  · intro n c hn
    have h1 := hn .MAT_T_INT8
    have h2 := hn .MAT_T_INT16
    have h3 := hn .MAT_T_INT32
    have h4 := hn .MAT_T_INT64
    have h5 := hn .MAT_T_UINT8
    have h6 := hn .MAT_T_UINT16
    have h7 := hn .MAT_T_UINT32
    have h8 := hn .MAT_T_UINT64
    have h9 := hn .MAT_T_SINGLE
    have h10 := hn .MAT_T_DOUBLE
    simp [torch_element_type, torch_element_switch, h1, h2, h3, h4, h5, h6, h7, h8, h9, h10]
  · intro mt h1 h2
    cases mt <;> first | exact absurd rfl h1 | exact absurd rfl h2 | decide

theorem torch_element_type_inverse_witness :
    torch_element_type matio_types.MAT_T_DOUBLE.toInt
        (decide (ElementType.t_complex128 = ElementType.t_complex64 ∨
          ElementType.t_complex128 = ElementType.t_complex128)) = ElementType.t_complex128 ∧
    torch_element_type 14 false = ElementType.t_unknown ∧
    torch_element_type matio_types.MAT_T_INT16.toInt true = ElementType.t_unknown :=
  ⟨torch_element_type_inverse.1 .t_complex128 .MAT_T_DOUBLE (by decide) rfl,
   torch_element_type_inverse.2.2.1 14 false (fun mt => by cases mt <;> decide),
   torch_element_type_inverse.2.2.2 .MAT_T_INT16 (by decide) (by decide)⟩

theorem getClosestMean_loop_spec {R : Type} [LinearOrder R] [Zero R] [Add R] [Sub R] [Mul R]
    (m : KMeansMachine R) (x : List R) (dist : Nat → R)
    (hd : ∀ i, i < m.m_n_means → m.getDistanceFromMean x i = some (dist i)) :
    ∀ (cnt s k : Nat), k < s → s + cnt ≤ m.m_n_means →
      (∀ i, i < s → dist k ≤ dist i) → (∀ i, i < k → dist k < dist i) →
      ∃ k1, k1 < s + cnt ∧
        m.getClosestMean_loop x (List.range' s cnt) ((k : Int), dist k)
          = some ((k1 : Int), dist k1) ∧
        (∀ i, i < s + cnt → dist k1 ≤ dist i) ∧ (∀ i, i < k1 → dist k1 < dist i) := by
  intro cnt
  induction cnt with
  | zero =>
    intro s k hk _ hmin hfirst
    exact ⟨k, by omega, rfl, by simpa using hmin, hfirst⟩
  | succ cnt ih =>
    intro s k hk hle hmin hfirst
    rw [List.range'_succ]
    simp only [KMeansMachine.getClosestMean_loop, hd s (by omega)]
    by_cases hlt : dist s < dist k
    · rw [if_pos hlt]
      obtain ⟨k1, hk1, hrun, h1, h2⟩ := ih (s + 1) s (by omega) (by omega)
        (fun i hi => by
          rcases Nat.lt_succ_iff_lt_or_eq.mp hi with h | h
          · exact le_of_lt (lt_of_lt_of_le hlt (hmin i h))
          · rw [h])
        (fun i hi => lt_of_lt_of_le hlt (hmin i hi))
      exact ⟨k1, by omega, hrun, fun i hi => h1 i (by omega), h2⟩
    · rw [if_neg hlt]
      obtain ⟨k1, hk1, hrun, h1, h2⟩ := ih (s + 1) k (by omega) (by omega)
        (fun i hi => by
          rcases Nat.lt_succ_iff_lt_or_eq.mp hi with h | h
          · exact hmin i h
          · rw [h]; exact not_lt.mp hlt)
        hfirst
      exact ⟨k1, by omega, hrun, fun i hi => h1 i (by omega), h2⟩

/-- C25: for a machine with at least one mean and an input `x` whose squared
distance `dist i` to every mean `i` is defined and below `DBL_MAX`:
`getClosestMean` sets `min_distance` to the least of the `dist i` and
`closest_mean` to the smallest index attaining it, whatever `closest_mean`
held; `getMinDistance(x)` returns that minimum.  The distance to mean `i` is
the sum over `j` of `(mean(i,j) - x(j))^2` whenever `i` is a row of the means
and `x` has the extent of a row. -/
theorem closest_mean_is_argmin {R : Type} [LinearOrder R] [Zero R] [Add R] [Sub R] [Mul R]
    (m : KMeansMachine R) (dbl_max : R) (x : List R) (closest_mean : Int) (dist : Nat → R)
    (hn : 0 < m.m_n_means)
    (hd : ∀ i, i < m.m_n_means → m.getDistanceFromMean x i = some (dist i))
    (hmax : ∀ i, i < m.m_n_means → dist i < dbl_max) :
    (∃ k, k < m.m_n_means ∧
      m.getClosestMean dbl_max x closest_mean = some ((k : Int), dist k) ∧
      m.getMinDistance dbl_max x = some (dist k) ∧
      (∀ i, i < m.m_n_means → dist k ≤ dist i) ∧ (∀ i, i < k → dist k < dist i)) ∧
    (∀ i, i < m.m_means.extent0 → x.length = m.m_means.extent1 →
      m.getDistanceFromMean x i = some (sq_distance (m.m_means.row i) x)) := by
  constructor
  · have hrange : List.range m.m_n_means = 0 :: List.range' 1 (m.m_n_means - 1) := by
      rw [List.range_eq_range']
      have : m.m_n_means = (m.m_n_means - 1) + 1 := by omega
      conv_lhs => rw [this, List.range'_succ]
    have first : ∀ c : Int, m.getClosestMean dbl_max x c =
        m.getClosestMean_loop x (List.range' 1 (m.m_n_means - 1)) (((0 : Nat) : Int), dist 0) := by
      intro c
      unfold KMeansMachine.getClosestMean
      rw [hrange]
      simp only [KMeansMachine.getClosestMean_loop, hd 0 hn, if_pos (hmax 0 hn)]
    obtain ⟨k, hk, hrun, h1, h2⟩ :=
      getClosestMean_loop_spec m x dist hd (m.m_n_means - 1) 1 0 (by omega) (by omega)
        (fun i hi => by
          have : i = 0 := by omega
          rw [this])
        (fun i hi => by omega)
    have hk' : k < m.m_n_means := by omega
    refine ⟨k, hk', ?_, ?_, fun i hi => h1 i (by omega), h2⟩
    · rw [first, hrun]
    · unfold KMeansMachine.getMinDistance
      rw [first, hrun]
  · intro i hi hx
    simp [KMeansMachine.getDistanceFromMean, hi, hx]

theorem closest_mean_is_argmin_witness :
    ∃ k, k < demoKMeans.m_n_means ∧
      demoKMeans.getClosestMean 1000000 [0, 1] (-1) =
        some ((k : Int), (if k = 0 then 1 else if k = 1 then 18 else 0 : Int)) ∧
      demoKMeans.getMinDistance 1000000 [0, 1] =
        some (if k = 0 then 1 else if k = 1 then 18 else 0 : Int) ∧
      (∀ i, i < demoKMeans.m_n_means →
        (if k = 0 then 1 else if k = 1 then 18 else 0 : Int) ≤
          (if i = 0 then 1 else if i = 1 then 18 else 0 : Int)) ∧
      (∀ i, i < k →
        (if k = 0 then 1 else if k = 1 then 18 else 0 : Int) <
          (if i = 0 then 1 else if i = 1 then 18 else 0 : Int)) :=
  (closest_mean_is_argmin demoKMeans 1000000 [0, 1] (-1)
    (fun i => if i = 0 then 1 else if i = 1 then 18 else 0) (by decide)
    (fun i hi => by
      have hi3 : i < 3 := hi
      interval_cases i <;> rfl)
    (fun i hi => by
      have hi3 : i < 3 := hi
      interval_cases i <;> decide)).1

theorem fresh_array_length {R : Type} (junk : Nat → R) (n : Nat) :
    (fresh_array junk n).length = n := by
  simp [fresh_array]

theorem resizeAndPreserve1_length {R : Type} (junk : Nat → R) (v : List R) (n : Nat) :
    (resizeAndPreserve1 junk v n).length = n := by
  simp [resizeAndPreserve1]; omega

theorem setters_keep_invariant {R : Type} (m : LinearMachine R) (h : m.ShapeInvariant) :
    (∀ weight, (m.setWeights weight).state.ShapeInvariant) ∧
    (∀ bias, (m.setBiases bias).state.ShapeInvariant) ∧
    (∀ v, (m.setInputSubtraction v).state.ShapeInvariant) ∧
    (∀ v, (m.setInputDivision v).state.ShapeInvariant) := by
  obtain ⟨h1, h2, h3, h4⟩ := h
  refine ⟨fun weight => ?_, fun bias => ?_, fun v => ?_, fun v => ?_⟩
  · unfold LinearMachine.setWeights
    by_cases c0 : weight.extent0 ≠ m.m_input_sub.length
    · rw [if_pos c0]; exact ⟨h1, h2, h3, h4⟩
    · rw [if_neg c0]
      by_cases c1 : weight.extent1 ≠ m.m_bias.length
      · rw [if_pos c1]; exact ⟨h1, h2, h3, h4⟩
      · rw [if_neg c1]
        have e0 : weight.extent0 = m.m_input_sub.length := not_not.mp c0
        have e1 : weight.extent1 = m.m_bias.length := not_not.mp c1
        exact ⟨e0.symm, by rw [h2, ← h1]; exact e0.symm, by rw [h3, ← h1]; exact e0.symm,
          e1.symm⟩
  · unfold LinearMachine.setBiases
    by_cases c : m.m_weight.extent1 ≠ bias.length
    · rw [if_pos c]; exact ⟨h1, h2, h3, h4⟩
    · rw [if_neg c]; exact ⟨h1, h2, h3, (not_not.mp c).symm⟩
  · unfold LinearMachine.setInputSubtraction
    by_cases c : m.m_weight.extent0 ≠ v.length
    · rw [if_pos c]; exact ⟨h1, h2, h3, h4⟩
    · rw [if_neg c]; exact ⟨(not_not.mp c).symm, h2, h3, h4⟩
  · unfold LinearMachine.setInputDivision
    by_cases c : m.m_weight.extent0 ≠ v.length
    · rw [if_pos c]; exact ⟨h1, h2, h3, h4⟩
    · rw [if_neg c]; exact ⟨h1, (not_not.mp c).symm, h3, h4⟩

/-- C27: every linear machine obtained from the constructors other than the
HDF5 one by copy construction, copy assignment, `resize` and setter calls,
successful or failed, satisfies the shape invariant: input subtraction, input
division and the buffer have as many elements as the weight matrix has rows,
the biases as many as it has columns. -/
theorem reachable_shape_invariant {R : Type} [Zero R] [One R] (m : LinearMachine R)
    (h : LinearMachine.Reachable m) : m.ShapeInvariant := by
  induction h with
  | of_weight junk weight =>
    exact ⟨by simp [LinearMachine.of_weight], by simp [LinearMachine.of_weight],
      by simp [LinearMachine.of_weight, fresh_array], by simp [LinearMachine.of_weight]⟩
  | empty junk => exact ⟨rfl, rfl, rfl, rfl⟩
  | sized junk n_input n_output =>
    exact ⟨by simp [LinearMachine.sized], by simp [LinearMachine.sized],
      by simp [LinearMachine.sized, fresh_array], by simp [LinearMachine.sized]⟩
  | copy junk other _ ih =>
    obtain ⟨h1, h2, _, h4⟩ := ih
    exact ⟨h1, h2, by simp [LinearMachine.copy, fresh_array, h1], h4⟩
  | assign junk m other same _ _ ihm iho =>
    unfold LinearMachine.assign
    cases same
    · obtain ⟨h1, h2, _, h4⟩ := iho
      exact ⟨h1, h2, by simp [fresh_array, h1], h4⟩
    · exact ihm
  | resize junk junk2 m input output _ _ =>
    exact ⟨resizeAndPreserve1_length _ _ _, resizeAndPreserve1_length _ _ _,
      resizeAndPreserve1_length _ _ _, resizeAndPreserve1_length _ _ _⟩
  | setWeights m weight _ ih => exact (setters_keep_invariant m ih).1 weight
  | setBiases m bias _ ih => exact (setters_keep_invariant m ih).2.1 bias
  | setInputSubtraction m v _ ih => exact (setters_keep_invariant m ih).2.2.1 v
  | setInputDivision m v _ ih => exact (setters_keep_invariant m ih).2.2.2 v
  | setActivation m a _ ih => exact ih

theorem reachable_shape_invariant_witness :
    ((LinearMachine.sized demoJunk 2 1).setBiases [4, 5]).state.ShapeInvariant ∧
    (LinearMachine.resize demoJunk (fun _ _ => 0)
      (LinearMachine.copy demoJunk (LinearMachine.of_weight demoJunk demoWeight))
      3 2).ShapeInvariant :=
  ⟨reachable_shape_invariant _
      (LinearMachine.Reachable.setBiases _ [4, 5] (LinearMachine.Reachable.sized demoJunk 2 1)),
   reachable_shape_invariant _
      (LinearMachine.Reachable.resize demoJunk (fun _ _ => 0) _ 3 2
        (LinearMachine.Reachable.copy demoJunk _
          (LinearMachine.Reachable.of_weight demoJunk demoWeight)))⟩

theorem gaussians_loop_spec {G : Type} (Q : G → Prop) (step : Nat → G → Option G) :
    ∀ (is : List Nat) (gs : List G), (∀ i ∈ is, i < gs.length) → (∀ g ∈ gs, Q g) →
      (∀ i g, i ∈ is → Q g → ∃ g1, step i g = some g1 ∧ Q g1) →
      ∃ gs1, gaussians_loop step is gs = some gs1 ∧ gs1.length = gs.length ∧
        ∀ g ∈ gs1, Q g := by
  intro is
  induction is with
  | nil => intro gs _ hQ _; exact ⟨gs, rfl, rfl, hQ⟩
  | cons i is ih =>
    intro gs hin hQ hstep
    have hi : i < gs.length := hin i (by simp)
    have hg : gs[i]? = some gs[i] := List.getElem?_eq_getElem hi
    obtain ⟨g1, hs, hq1⟩ := hstep i gs[i] (by simp) (hQ _ (List.getElem_mem hi))
    obtain ⟨gs1, hrun, hlen, hall⟩ := ih (gs.set i g1)
      (fun j hj => by simpa using hin j (by simp [hj]))
      (fun g hgm => by
        rcases List.mem_or_eq_of_mem_set hgm with h | h
        · exact hQ g h
        · rw [h]; exact hq1)
      (fun j g hj hq => hstep j g (by simp [hj]) hq)
    exact ⟨gs1, by simp only [gaussians_loop, hg, hs, hrun], by simpa using hlen, hall⟩

theorem setMeans_loop_eq {G R : Type} (ops : GaussianOps G R) (means : Array2 R) :
    ∀ (is : List Nat) (gs : List G),
      setMeans_loop ops means is gs =
        gaussians_loop (fun i g => ops.assignMean g (means.row i)) is gs := by
  intro is
  induction is with
  | nil => intro gs; rfl
  | cons i is ih =>
    intro gs
    simp only [setMeans_loop, gaussians_loop]
    cases gs[i]? with
    | none => rfl
    | some g =>
      simp only []
      cases ops.assignMean g (means.row i) with
      | none => rfl
      | some g1 => exact ih _

theorem setVariances_loop_eq {G R : Type} (ops : GaussianOps G R) (variances : Array2 R) :
    ∀ (is : List Nat) (gs : List G),
      setVariances_loop ops variances is gs =
        gaussians_loop (fun i g =>
          (ops.assignVariance g (variances.row i)).map ops.applyVarianceThresholds) is gs := by
  intro is
  induction is with
  | nil => intro gs; rfl
  | cons i is ih =>
    intro gs
    simp only [setVariances_loop, gaussians_loop]
    cases gs[i]? with
    | none => rfl
    | some g =>
      simp only []
      cases ops.assignVariance g (variances.row i) with
      | none => rfl
      | some g1 => exact ih _

theorem setMeanSupervector_loop_eq {G R : Type} (ops : GaussianOps G R) (v : List R)
    (n_inputs : Nat) :
    ∀ (is : List Nat) (gs : List G),
      setMeanSupervector_loop ops v n_inputs is gs =
        gaussians_loop (fun i g =>
          (supervector_slice v n_inputs i).bind (fun part => ops.assignMean g part)) is gs := by
  intro is
  induction is with
  | nil => intro gs; rfl
  | cons i is ih =>
    intro gs
    simp only [setMeanSupervector_loop, gaussians_loop]
    cases gs[i]? with
    | none => rfl
    | some g =>
      cases supervector_slice v n_inputs i with
      | none => rfl
      | some part =>
        simp only [Option.some_bind]
        cases ops.assignMean g part with
        | none => rfl
        | some g1 => exact ih _

theorem setVarianceSupervector_loop_eq {G R : Type} (ops : GaussianOps G R) (v : List R)
    (n_inputs : Nat) :
    ∀ (is : List Nat) (gs : List G),
      setVarianceSupervector_loop ops v n_inputs is gs =
        gaussians_loop (fun i g =>
          (supervector_slice v n_inputs i).bind (fun part =>
            (ops.assignVariance g part).map ops.applyVarianceThresholds)) is gs := by
  intro is
  induction is with
  | nil => intro gs; rfl
  | cons i is ih =>
    intro gs
    simp only [setVarianceSupervector_loop, gaussians_loop]
    cases gs[i]? with
    | none => rfl
    | some g =>
      cases supervector_slice v n_inputs i with
      | none => rfl
      | some part =>
        simp only [Option.some_bind]
        cases ops.assignVariance g part with
        | none => rfl
        | some g1 => exact ih _

theorem slice_bounds (n_g n_in i : Nat) (hi : i < n_g) (hn : 1 ≤ n_in)
    (hsz : n_g * n_in < 2 ^ 64) :
    size_mul i n_in = i * n_in ∧
    (size_mul (i + 1) n_in + (2 ^ 64 - 1)) % 2 ^ 64 = i * n_in + n_in - 1 ∧
    i * n_in + n_in ≤ n_g * n_in := by
  have h1 : (i + 1) * n_in = i * n_in + n_in := Nat.succ_mul _ _
  have h2 : (i + 1) * n_in ≤ n_g * n_in := Nat.mul_le_mul_right _ hi
  have h3 : size_mul i n_in = i * n_in := Nat.mod_eq_of_lt (by omega)
  have h4 : size_mul (i + 1) n_in = i * n_in + n_in := by
    unfold size_mul
    rw [h1]
    exact Nat.mod_eq_of_lt (by omega)
  refine ⟨h3, ?_, by omega⟩
  rw [h4]
  omega

theorem supervector_slice_defined {R : Type} (v : List R) (n_g n_in i : Nat)
    (hv : v.length = n_g * n_in) (hi : i < n_g) (hn : 1 ≤ n_in)
    (hsz : n_g * n_in < 2 ^ 64) :
    ∃ part, supervector_slice v n_in i = some part ∧ part.length = n_in := by
  obtain ⟨h1, h2, h3⟩ := slice_bounds n_g n_in i hi hn hsz
  unfold supervector_slice range_slice
  rw [h1, h2, if_pos ⟨by omega, by omega⟩]
  refine ⟨_, rfl, ?_⟩
  simp only [List.length_take, List.length_drop]
  omega

theorem assign_supervector_slice_defined {R : Type} (v src : List R) (n_g n_in i : Nat)
    (hv : v.length = n_g * n_in) (hsrc : src.length = n_in) (hi : i < n_g) (hn : 1 ≤ n_in)
    (hsz : n_g * n_in < 2 ^ 64) :
    assign_supervector_slice v n_in i src =
      some (v.take (i * n_in) ++ src ++ v.drop (i * n_in + n_in)) := by
  obtain ⟨h1, h2, h3⟩ := slice_bounds n_g n_in i hi hn hsz
  unfold assign_supervector_slice assign_slice
  rw [h1, h2, if_pos ⟨by omega, by omega, by omega⟩]
  have : i * n_in + n_in - 1 + 1 = i * n_in + n_in := by omega
  rw [this]

theorem copy_loop_spec {G : Type} (src : List G) :
    ∀ (k s : Nat) (acc : List G), s + k ≤ src.length →
      copy_loop src (List.range' s k) acc = some (acc ++ (src.drop s).take k) := by
  intro k
  induction k with
  | zero => intro s acc _; simp [copy_loop]
  | succ k ih =>
    intro s acc h
    have hs : s < src.length := by omega
    rw [List.range'_succ]
    simp only [copy_loop, List.getElem?_eq_getElem hs]
    rw [ih (s + 1) (acc ++ [src[s]]) (by omega), List.drop_eq_getElem_cons hs,
      List.take_succ_cons, List.append_assoc]
    rfl

theorem copy_loop_all {G : Type} (src : List G) :
    copy_loop src (List.range src.length) [] = some src := by
  rw [List.range_eq_range', copy_loop_spec src src.length 0 [] (by omega)]
  simp

theorem flatten_take_succ {G R : Type} (f : G → List R) (gs : List G) (s : Nat)
    (hs : s < gs.length) :
    ((gs.take (s + 1)).map f).flatten = ((gs.take s).map f).flatten ++ f gs[s] := by
  rw [List.take_succ, List.getElem?_eq_getElem hs, List.map_append, List.flatten_append]
  simp

theorem cache_step {G R : Type} (f : G → List R) (gs : List G) (n s : Nat) (cache : List R)
    (hs : s < gs.length) (hf : (f gs[s]).length = n) (hn : 1 ≤ n)
    (hsz : gs.length * n < 2 ^ 64) (hlen : cache.length = gs.length * n)
    (hpre : cache.take (s * n) = ((gs.take s).map f).flatten) :
    ∃ cache1, assign_supervector_slice cache n s (f gs[s]) = some cache1 ∧
      cache1.length = gs.length * n ∧
      cache1.take ((s + 1) * n) = ((gs.take (s + 1)).map f).flatten := by
  obtain ⟨_, _, h3⟩ := slice_bounds gs.length n s hs hn hsz
  refine ⟨_, assign_supervector_slice_defined cache (f gs[s]) gs.length n s hlen hf hs hn hsz,
    ?_, ?_⟩
  · simp only [List.length_append, List.length_take, List.length_drop, hf]
    omega
  · rw [flatten_take_succ f gs s hs, List.append_assoc, ← List.append_assoc,
      List.take_left', hpre]
    simp only [List.length_append, List.length_take, hf]
    rw [Nat.succ_mul]
    omega

theorem updateCache_loop_spec {G R : Type} (ops : GaussianOps G R) (n : Nat) (gs : List G)
    (hext : ∀ g ∈ gs, (ops.getMean g).length = n ∧ (ops.getVariance g).length = n)
    (hdim : gs.length = 0 ∨ 1 ≤ n) (hsz : gs.length * n < 2 ^ 64) :
    ∀ (k s : Nat) (cm cv : List R), s + k ≤ gs.length →
      cm.length = gs.length * n → cv.length = gs.length * n →
      cm.take (s * n) = ((gs.take s).map ops.getMean).flatten →
      cv.take (s * n) = ((gs.take s).map ops.getVariance).flatten →
      ∃ cm1 cv1, updateCache_loop ops n gs (List.range' s k) (cm, cv) = some (cm1, cv1) ∧
        cm1.length = gs.length * n ∧ cv1.length = gs.length * n ∧
        cm1.take ((s + k) * n) = ((gs.take (s + k)).map ops.getMean).flatten ∧
        cv1.take ((s + k) * n) = ((gs.take (s + k)).map ops.getVariance).flatten := by
  intro k
  induction k with
  | zero =>
    intro s cm cv _ hm hv hpm hpv
    exact ⟨cm, cv, rfl, hm, hv, hpm, hpv⟩
  | succ k ih =>
    intro s cm cv h hm hv hpm hpv
    have hs : s < gs.length := by omega
    have hn : 1 ≤ n := by
      rcases hdim with h0 | h1
      · omega
      · exact h1
    have hg := hext gs[s] (List.getElem_mem hs)
    obtain ⟨cm1, ham, hm1, hpm1⟩ :=
      cache_step ops.getMean gs n s cm hs hg.1 hn hsz hm hpm
    obtain ⟨cv1, hav, hv1, hpv1⟩ :=
      cache_step ops.getVariance gs n s cv hs hg.2 hn hsz hv hpv
    obtain ⟨cm2, cv2, hrun, r1, r2, r3, r4⟩ :=
      ih (s + 1) cm1 cv1 (by omega) hm1 hv1 hpm1 hpv1
    refine ⟨cm2, cv2, ?_, r1, r2, ?_, ?_⟩
    · rw [List.range'_succ]
      simp only [updateCache_loop, List.getElem?_eq_getElem hs, ham, hav]
      exact hrun
    · have : s + (k + 1) = s + 1 + k := by omega
      rw [this]; exact r3
    · have : s + (k + 1) = s + 1 + k := by omega
      rw [this]; exact r4

theorem updateCacheSupervectors_spec {G R : Type} (ops : GaussianOps G R) (junk : Nat → R)
    (m : GMMMachine G R) (hm : m.Shaped ops) :
    m.updateCacheSupervectors ops junk =
      some { m with
             m_cache_mean_supervector := (m.m_gaussians.map ops.getMean).flatten
             m_cache_variance_supervector := (m.m_gaussians.map ops.getVariance).flatten
             m_cache_supervector := true } := by
  have hlen := hm.gaussians_length
  have hsize : size_mul m.m_n_gaussians m.m_n_inputs = m.m_gaussians.length * m.m_n_inputs := by
    rw [hlen]; exact Nat.mod_eq_of_lt hm.size
  obtain ⟨cm1, cv1, hrun, r1, r2, r3, r4⟩ :=
    updateCache_loop_spec ops m.m_n_inputs m.m_gaussians hm.extents
      (by rw [hlen]; exact hm.dimension) (by rw [hlen]; exact hm.size)
      m.m_gaussians.length 0
      (fresh_array junk (size_mul m.m_n_gaussians m.m_n_inputs))
      (fresh_array junk (size_mul m.m_n_gaussians m.m_n_inputs))
      (by omega) (by rw [fresh_array_length, hsize]) (by rw [fresh_array_length, hsize])
      (by simp) (by simp)
  rw [Nat.zero_add, List.take_of_length_le (by omega), List.take_length] at r3 r4
  have hr : List.range m.m_n_gaussians = List.range' 0 m.m_gaussians.length := by
    rw [hlen, List.range_eq_range']
  unfold GMMMachine.updateCacheSupervectors
  rw [hr, hrun, r3, r4]

theorem loop_state_shaped {G R : Type} (ops : GaussianOps G R) (m : GMMMachine G R)
    (hm : m.Shaped ops) (gs : List G) (hlen : gs.length = m.m_gaussians.length)
    (hext : ∀ g ∈ gs,
      (ops.getMean g).length = m.m_n_inputs ∧ (ops.getVariance g).length = m.m_n_inputs) :
    GMMMachine.Shaped ops { m with m_gaussians := gs, m_cache_supervector := false } ∧
    GMMMachine.CacheSound ops { m with m_gaussians := gs, m_cache_supervector := false } :=
  ⟨⟨hlen.trans hm.gaussians_length, hm.weights_length, hext, hm.dimension, hm.size⟩,
   fun h => Bool.noConfusion h⟩

theorem gaussians_loop_shaped {G R : Type} (ops : GaussianOps G R) (m : GMMMachine G R)
    (hm : m.Shaped ops) (step : Nat → G → Option G)
    (hstep : ∀ i g, i < m.m_n_gaussians →
      ((ops.getMean g).length = m.m_n_inputs ∧ (ops.getVariance g).length = m.m_n_inputs) →
      ∃ g1, step i g = some g1 ∧
        (ops.getMean g1).length = m.m_n_inputs ∧ (ops.getVariance g1).length = m.m_n_inputs) :
    ∃ gs, gaussians_loop step (List.range m.m_n_gaussians) m.m_gaussians = some gs ∧
      GMMMachine.Shaped ops { m with m_gaussians := gs, m_cache_supervector := false } ∧
      GMMMachine.CacheSound ops { m with m_gaussians := gs, m_cache_supervector := false } := by
  obtain ⟨gs, hrun, hlen, hall⟩ := gaussians_loop_spec
    (fun g => (ops.getMean g).length = m.m_n_inputs ∧ (ops.getVariance g).length = m.m_n_inputs)
    step (List.range m.m_n_gaussians) m.m_gaussians
    (fun i hi => by rw [hm.gaussians_length]; exact List.mem_range.mp hi)
    hm.extents
    (fun i g hi hq => hstep i g (List.mem_range.mp hi) hq)
  exact ⟨gs, hrun, loop_state_shaped ops m hm gs hlen hall⟩

theorem row_length {R : Type} (A : Array2 R) (i : Nat) : (A.row i).length = A.extent1 := by
  simp [Array2.row]

theorem setMeans_keeps {G R : Type} (ops : GaussianOps G R) (hops : ops.KeepsExtents)
    (m : GMMMachine G R) (hm : m.Shaped ops) (hc : m.CacheSound ops) (means : Array2 R) :
    ∃ o, m.setMeans ops means = some o ∧ o.state.Shaped ops ∧ o.state.CacheSound ops := by
  unfold GMMMachine.setMeans assertSameDimensionLength
  by_cases h0 : means.extent0 = m.m_n_gaussians
  · by_cases h1 : means.extent1 = m.m_n_inputs
    · obtain ⟨gs, hrun, hs⟩ := gaussians_loop_shaped ops m hm
        (fun i g => ops.assignMean g (means.row i))
        (fun i g _ hq => by
          obtain ⟨g1, hg1⟩ := hops.assignMean_defined g (means.row i)
            (by rw [row_length, h1, hq.1])
          have he := hops.assignMean_extents g _ g1 hg1
          exact ⟨g1, hg1, he.1.trans hq.1, he.2.trans hq.2⟩)
      rw [if_pos h0, if_pos h1]
      simp only [setMeans_loop_eq, hrun]
      exact ⟨_, rfl, hs⟩
    · rw [if_pos h0, if_neg h1]
      exact ⟨_, rfl, hm, hc⟩
  · rw [if_neg h0]
    exact ⟨_, rfl, hm, hc⟩

theorem setVariances_keeps {G R : Type} (ops : GaussianOps G R) (hops : ops.KeepsExtents)
    (m : GMMMachine G R) (hm : m.Shaped ops) (hc : m.CacheSound ops) (variances : Array2 R) :
    ∃ o, m.setVariances ops variances = some o ∧ o.state.Shaped ops ∧
      o.state.CacheSound ops := by
  unfold GMMMachine.setVariances assertSameDimensionLength
  by_cases h0 : variances.extent0 = m.m_n_gaussians
  · by_cases h1 : variances.extent1 = m.m_n_inputs
    · obtain ⟨gs, hrun, hs⟩ := gaussians_loop_shaped ops m hm
        (fun i g => (ops.assignVariance g (variances.row i)).map ops.applyVarianceThresholds)
        (fun i g _ hq => by
          obtain ⟨g1, hg1⟩ := hops.assignVariance_defined g (variances.row i)
            (by rw [row_length, h1, hq.2])
          have he := hops.assignVariance_extents g _ g1 hg1
          have ha := hops.apply_extents g1
          exact ⟨ops.applyVarianceThresholds g1, by simp only [hg1, Option.map_some'],
            ha.1.trans (he.1.trans hq.1), ha.2.trans (he.2.trans hq.2)⟩)
      rw [if_pos h0, if_pos h1]
      simp only [setVariances_loop_eq, hrun]
      exact ⟨_, rfl, hs⟩
    · rw [if_pos h0, if_neg h1]
      exact ⟨_, rfl, hm, hc⟩
  · rw [if_neg h0]
    exact ⟨_, rfl, hm, hc⟩

theorem setMeanSupervector_keeps {G R : Type} (ops : GaussianOps G R)
    (hops : ops.KeepsExtents) (m : GMMMachine G R) (hm : m.Shaped ops)
    (hc : m.CacheSound ops) (v : List R) :
    ∃ o, m.setMeanSupervector ops v = some o ∧ o.state.Shaped ops ∧
      o.state.CacheSound ops := by
  unfold GMMMachine.setMeanSupervector assertSameDimensionLength
  rw [size_mul_eq _ _ hm.size]
  by_cases h0 : v.length = m.m_n_gaussians * m.m_n_inputs
  · obtain ⟨gs, hrun, hs⟩ := gaussians_loop_shaped ops m hm
      (fun i g => (supervector_slice v m.m_n_inputs i).bind (fun part => ops.assignMean g part))
      (fun i g hi hq => by
        have hn : 1 ≤ m.m_n_inputs := by
          rcases hm.dimension with h | h
          · omega
          · exact h
        obtain ⟨part, hp, hpl⟩ :=
          supervector_slice_defined v m.m_n_gaussians m.m_n_inputs i h0 hi hn hm.size
        obtain ⟨g1, hg1⟩ := hops.assignMean_defined g part (by rw [hpl, hq.1])
        have he := hops.assignMean_extents g _ g1 hg1
        exact ⟨g1, by simp only [hp, Option.some_bind, hg1], he.1.trans hq.1, he.2.trans hq.2⟩)
    rw [if_pos h0]
    simp only [setMeanSupervector_loop_eq, hrun]
    exact ⟨_, rfl, hs⟩
  · rw [if_neg h0]
    exact ⟨_, rfl, hm, hc⟩

theorem setVarianceSupervector_keeps {G R : Type} (ops : GaussianOps G R)
    (hops : ops.KeepsExtents) (m : GMMMachine G R) (hm : m.Shaped ops)
    (hc : m.CacheSound ops) (v : List R) :
    ∃ o, m.setVarianceSupervector ops v = some o ∧ o.state.Shaped ops ∧
      o.state.CacheSound ops := by
  unfold GMMMachine.setVarianceSupervector assertSameDimensionLength
  rw [size_mul_eq _ _ hm.size]
  by_cases h0 : v.length = m.m_n_gaussians * m.m_n_inputs
  · obtain ⟨gs, hrun, hs⟩ := gaussians_loop_shaped ops m hm
      (fun i g => (supervector_slice v m.m_n_inputs i).bind (fun part =>
        (ops.assignVariance g part).map ops.applyVarianceThresholds))
      (fun i g hi hq => by
        have hn : 1 ≤ m.m_n_inputs := by
          rcases hm.dimension with h | h
          · omega
          · exact h
        obtain ⟨part, hp, hpl⟩ :=
          supervector_slice_defined v m.m_n_gaussians m.m_n_inputs i h0 hi hn hm.size
        obtain ⟨g1, hg1⟩ := hops.assignVariance_defined g part (by rw [hpl, hq.2])
        have he := hops.assignVariance_extents g _ g1 hg1
        have ha := hops.apply_extents g1
        exact ⟨ops.applyVarianceThresholds g1,
          by simp only [hp, Option.some_bind, hg1, Option.map_some'],
          ha.1.trans (he.1.trans hq.1), ha.2.trans (he.2.trans hq.2)⟩)
    rw [if_pos h0]
    simp only [setVarianceSupervector_loop_eq, hrun]
    exact ⟨_, rfl, hs⟩
  · rw [if_neg h0]
    exact ⟨_, rfl, hm, hc⟩

theorem setVarianceThresholds_keeps {G R : Type} (ops : GaussianOps G R)
    (hops : ops.KeepsExtents) (m : GMMMachine G R) (hm : m.Shaped ops)
    (hc : m.CacheSound ops) :
    (∀ factor : R, ∃ o, m.setVarianceThresholdsFactor ops factor = some o ∧
      o.state.Shaped ops ∧ o.state.CacheSound ops) ∧
    (∀ t : List R, ∃ o, m.setVarianceThresholds1 ops t = some o ∧
      o.state.Shaped ops ∧ o.state.CacheSound ops) ∧
    (∀ t : Array2 R, ∃ o, m.setVarianceThresholds2 ops t = some o ∧
      o.state.Shaped ops ∧ o.state.CacheSound ops) := by
  refine ⟨fun factor => ?_, fun t => ?_, fun t => ?_⟩
  · obtain ⟨gs, hrun, hs⟩ := gaussians_loop_shaped ops m hm
      (fun _ g => some (ops.setVarianceThresholdsFactor g factor))
      (fun i g _ hq =>
        ⟨_, rfl, (hops.factor_extents g factor).1.trans hq.1,
          (hops.factor_extents g factor).2.trans hq.2⟩)
    unfold GMMMachine.setVarianceThresholdsFactor
    simp only [hrun]
    exact ⟨_, rfl, hs⟩
  · unfold GMMMachine.setVarianceThresholds1 assertSameDimensionLength
    by_cases h0 : t.length = m.m_n_inputs
    · obtain ⟨gs, hrun, hs⟩ := gaussians_loop_shaped ops m hm
        (fun _ g => some (ops.setVarianceThresholds g t))
        (fun i g _ hq =>
          ⟨_, rfl, (hops.thresholds_extents g t).1.trans hq.1,
            (hops.thresholds_extents g t).2.trans hq.2⟩)
      rw [if_pos h0]
      simp only [hrun]
      exact ⟨_, rfl, hs⟩
    · rw [if_neg h0]
      exact ⟨_, rfl, hm, hc⟩
  · unfold GMMMachine.setVarianceThresholds2 assertSameDimensionLength
    by_cases h0 : t.extent0 = m.m_n_gaussians
    · by_cases h1 : t.extent1 = m.m_n_inputs
      · obtain ⟨gs, hrun, hs⟩ := gaussians_loop_shaped ops m hm
          (fun i g => some (ops.setVarianceThresholds g (t.row i)))
          (fun i g _ hq =>
            ⟨_, rfl, (hops.thresholds_extents g (t.row i)).1.trans hq.1,
              (hops.thresholds_extents g (t.row i)).2.trans hq.2⟩)
        rw [if_pos h0, if_pos h1]
        simp only [hrun]
        exact ⟨_, rfl, hs⟩
      · rw [if_pos h0, if_neg h1]
        exact ⟨_, rfl, hm, hc⟩
    · rw [if_neg h0]
      exact ⟨_, rfl, hm, hc⟩

theorem resize_shaped {G R : Type} (ops : GaussianOps G R) (hops : ops.KeepsExtents)
    (weight_fill : Nat → R) (m : GMMMachine G R) (n_gaussians n_inputs : Nat)
    (hdim : n_gaussians = 0 ∨ 1 ≤ n_inputs) (hsz : n_gaussians * n_inputs < 2 ^ 64) :
    (m.resize ops weight_fill n_gaussians n_inputs).Shaped ops ∧
    (m.resize ops weight_fill n_gaussians n_inputs).CacheSound ops := by
  refine ⟨⟨?_, ?_, ?_, hdim, hsz⟩, fun h => Bool.noConfusion h⟩
  · simp [GMMMachine.resize, GMMMachine.initCache]
  · simp [GMMMachine.resize, GMMMachine.initCache]
  · intro g hg
    have hg1 : g = ops.make n_inputs := List.eq_of_mem_replicate hg
    rw [hg1]
    exact ⟨hops.make_mean n_inputs, hops.make_variance n_inputs⟩

theorem copy_shaped {G R : Type} (ops : GaussianOps G R) (m other : GMMMachine G R)
    (ho : other.Shaped ops) :
    ∃ m1, m.copy other = some m1 ∧ m1.Shaped ops ∧ m1.CacheSound ops := by
  have hloop : copy_loop other.m_gaussians (List.range other.m_n_gaussians) []
      = some other.m_gaussians := by
    rw [← ho.gaussians_length]; exact copy_loop_all other.m_gaussians
  unfold GMMMachine.copy
  rw [if_pos ho.weights_length, hloop]
  exact ⟨_, rfl, ⟨ho.gaussians_length, ho.weights_length, ho.extents, ho.dimension, ho.size⟩,
    fun h => Bool.noConfusion h⟩

theorem getMeanSupervector_spec {G R : Type} (ops : GaussianOps G R) (junk : Nat → R)
    (m : GMMMachine G R) (hm : m.Shaped ops) (hc : m.CacheSound ops) :
    ∃ m1, m.getMeanSupervector ops junk =
        some (m1, (m.m_gaussians.map ops.getMean).flatten) ∧
      m1.m_gaussians = m.m_gaussians ∧ m1.Shaped ops ∧ m1.CacheSound ops := by
  unfold GMMMachine.getMeanSupervector
  cases hflag : m.m_cache_supervector with
  | false =>
    rw [updateCacheSupervectors_spec ops junk m hm]
    exact ⟨_, rfl, rfl,
      ⟨hm.gaussians_length, hm.weights_length, hm.extents, hm.dimension, hm.size⟩,
      fun _ => ⟨rfl, rfl⟩⟩
  | true =>
    refine ⟨m, ?_, rfl, hm, hc⟩
    rw [(hc hflag).1]
    rfl

theorem getVarianceSupervector_spec {G R : Type} (ops : GaussianOps G R) (junk : Nat → R)
    (m : GMMMachine G R) (hm : m.Shaped ops) (hc : m.CacheSound ops) :
    ∃ m1, m.getVarianceSupervector ops junk =
        some (m1, (m.m_gaussians.map ops.getVariance).flatten) ∧
      m1.m_gaussians = m.m_gaussians ∧ m1.Shaped ops ∧ m1.CacheSound ops := by
  unfold GMMMachine.getVarianceSupervector
  cases hflag : m.m_cache_supervector with
  | false =>
    rw [updateCacheSupervectors_spec ops junk m hm]
    exact ⟨_, rfl, rfl,
      ⟨hm.gaussians_length, hm.weights_length, hm.extents, hm.dimension, hm.size⟩,
      fun _ => ⟨rfl, rfl⟩⟩
  | true =>
    refine ⟨m, ?_, rfl, hm, hc⟩
    rw [(hc hflag).2]
    rfl

theorem apply_keeps {G R : Type} (ops : GaussianOps G R) (hops : ops.KeepsExtents)
    (junk weight_fill : Nat → R) (m : GMMMachine G R) (hm : m.Shaped ops)
    (hc : m.CacheSound ops) (c : GMMCall G R) (hfit : c.Fits ops) :
    ∃ o, c.apply ops junk weight_fill m = some o ∧ o.state.Shaped ops ∧
      o.state.CacheSound ops := by
  cases c with
  | resize n_gaussians n_inputs =>
    exact ⟨_, rfl, resize_shaped ops hops weight_fill m n_gaussians n_inputs hfit.1 hfit.2⟩
  | copy other =>
    obtain ⟨m1, h1, hs⟩ := copy_shaped ops m other hfit
    exact ⟨{ state := m1, raised := none }, by simp only [GMMCall.apply, h1], hs⟩
  | setMeans means => exact setMeans_keeps ops hops m hm hc means
  | setMeanSupervector v => exact setMeanSupervector_keeps ops hops m hm hc v
  | setVariances variances => exact setVariances_keeps ops hops m hm hc variances
  | setVarianceSupervector v => exact setVarianceSupervector_keeps ops hops m hm hc v
  | setVarianceThresholdsFactor factor =>
    exact (setVarianceThresholds_keeps ops hops m hm hc).1 factor
  | setVarianceThresholds1 t => exact (setVarianceThresholds_keeps ops hops m hm hc).2.1 t
  | setVarianceThresholds2 t => exact (setVarianceThresholds_keeps ops hops m hm hc).2.2 t
  | getMeanSupervector =>
    obtain ⟨m1, h1, _, hs⟩ := getMeanSupervector_spec ops junk m hm hc
    exact ⟨{ state := m1, raised := none }, by simp only [GMMCall.apply, h1], hs⟩
  | getVarianceSupervector =>
    obtain ⟨m1, h1, _, hs⟩ := getVarianceSupervector_spec ops junk m hm hc
    exact ⟨{ state := m1, raised := none }, by simp only [GMMCall.apply, h1], hs⟩

theorem construct_keeps {G R : Type} (ops : GaussianOps G R) (hops : ops.KeepsExtents)
    (junk weight_fill : Nat → R) (m : GMMMachine G R) (c : GMMCall G R)
    (hcon : c.constructs = true) (hfit : c.Fits ops) :
    ∃ o, c.apply ops junk weight_fill m = some o ∧ o.state.Shaped ops ∧
      o.state.CacheSound ops := by
  cases c with
  | resize n_gaussians n_inputs =>
    exact ⟨_, rfl, resize_shaped ops hops weight_fill m n_gaussians n_inputs hfit.1 hfit.2⟩
  | copy other =>
    obtain ⟨m1, h1, hs⟩ := copy_shaped ops m other hfit
    exact ⟨{ state := m1, raised := none }, by simp only [GMMCall.apply, h1], hs⟩
  | _ => exact Bool.noConfusion hcon

theorem run_keeps {G R : Type} (ops : GaussianOps G R) (hops : ops.KeepsExtents)
    (junk weight_fill : Nat → R) :
    ∀ (calls : List (GMMCall G R)) (m : GMMMachine G R), m.Shaped ops → m.CacheSound ops →
      (∀ c ∈ calls, c.Fits ops) →
      ∃ m1, GMMCall.run ops junk weight_fill calls m = some m1 ∧ m1.Shaped ops ∧
        m1.CacheSound ops := by
  intro calls
  induction calls with
  | nil => intro m hm hc _; exact ⟨m, rfl, hm, hc⟩
  | cons c cs ih =>
    intro m hm hc hfits
    obtain ⟨o, ho, hs, hcs⟩ := apply_keeps ops hops junk weight_fill m hm hc c
      (hfits c (by simp))
    obtain ⟨m1, hrun, r⟩ := ih o.state hs hcs (fun c1 h1 => hfits c1 (by simp [h1]))
    exact ⟨m1, by simp only [GMMCall.run, ho, hrun], r⟩

theorem mutator_outcome {G R : Type} (ops : GaussianOps G R) (junk weight_fill : Nat → R)
    (m : GMMMachine G R) (c : GMMCall G R) (o : Outcome (GMMMachine G R))
    (hmut : c.isMutator = true) (h : c.apply ops junk weight_fill m = some o) :
    (o.raised = none → o.state.m_cache_supervector = false) ∧
    (o.raised ≠ none → o.state = m) := by
  cases c with
  | resize n_gaussians n_inputs =>
    simp only [GMMCall.apply, Option.some.injEq] at h
    subst h
    exact ⟨fun _ => rfl, fun hr => absurd rfl hr⟩
  | copy other =>
    simp only [GMMCall.apply] at h
    cases hcp : m.copy other with
    | none => rw [hcp] at h; exact Option.noConfusion h
    | some m1 =>
      rw [hcp] at h
      simp only [Option.some.injEq] at h
      subst h
      refine ⟨fun _ => ?_, fun hr => absurd rfl hr⟩
      unfold GMMMachine.copy at hcp
      split at hcp
      · split at hcp
        · exact Option.noConfusion hcp
        · simp only [Option.some.injEq] at hcp
          subst hcp
          rfl
      · exact Option.noConfusion hcp
  | setMeans means =>
    simp only [GMMCall.apply, GMMMachine.setMeans] at h
    repeat' split at h
    all_goals first
      | exact Option.noConfusion h
      | (simp only [Option.some.injEq] at h; subst h
         first
           | exact ⟨fun _ => rfl, fun hr => absurd rfl hr⟩
           | exact ⟨fun hr => Option.noConfusion hr, fun _ => rfl⟩)
  | setMeanSupervector v =>
    simp only [GMMCall.apply, GMMMachine.setMeanSupervector] at h
    repeat' split at h
    all_goals first
      | exact Option.noConfusion h
      | (simp only [Option.some.injEq] at h; subst h
         first
           | exact ⟨fun _ => rfl, fun hr => absurd rfl hr⟩
           | exact ⟨fun hr => Option.noConfusion hr, fun _ => rfl⟩)
  | setVariances variances =>
    simp only [GMMCall.apply, GMMMachine.setVariances] at h
    repeat' split at h
    all_goals first
      | exact Option.noConfusion h
      | (simp only [Option.some.injEq] at h; subst h
         first
           | exact ⟨fun _ => rfl, fun hr => absurd rfl hr⟩
           | exact ⟨fun hr => Option.noConfusion hr, fun _ => rfl⟩)
  | setVarianceSupervector v =>
    simp only [GMMCall.apply, GMMMachine.setVarianceSupervector] at h
    repeat' split at h
    all_goals first
      | exact Option.noConfusion h
      | (simp only [Option.some.injEq] at h; subst h
         first
           | exact ⟨fun _ => rfl, fun hr => absurd rfl hr⟩
           | exact ⟨fun hr => Option.noConfusion hr, fun _ => rfl⟩)
  | setVarianceThresholdsFactor factor =>
    simp only [GMMCall.apply, GMMMachine.setVarianceThresholdsFactor] at h
    repeat' split at h
    all_goals first
      | exact Option.noConfusion h
      | (simp only [Option.some.injEq] at h; subst h
         exact ⟨fun _ => rfl, fun hr => absurd rfl hr⟩)
  | setVarianceThresholds1 t =>
    simp only [GMMCall.apply, GMMMachine.setVarianceThresholds1] at h
    repeat' split at h
    all_goals first
      | exact Option.noConfusion h
      | (simp only [Option.some.injEq] at h; subst h
         first
           | exact ⟨fun _ => rfl, fun hr => absurd rfl hr⟩
           | exact ⟨fun hr => Option.noConfusion hr, fun _ => rfl⟩)
  | setVarianceThresholds2 t =>
    simp only [GMMCall.apply, GMMMachine.setVarianceThresholds2] at h
    repeat' split at h
    all_goals first
      | exact Option.noConfusion h
      | (simp only [Option.some.injEq] at h; subst h
         first
           | exact ⟨fun _ => rfl, fun hr => absurd rfl hr⟩
           | exact ⟨fun hr => Option.noConfusion hr, fun _ => rfl⟩)
  | getMeanSupervector => exact Bool.noConfusion hmut
  | getVarianceSupervector => exact Bool.noConfusion hmut

theorem demoOps_keepsExtents : demoOps.KeepsExtents where
  make_mean := fun n => by simp [demoOps]
  make_variance := fun n => by simp [demoOps]
  assignMean_defined := fun g v h => ⟨_, if_pos h⟩
  assignMean_extents := fun g v g1 h => by
    simp only [demoOps] at h
    split at h
    · simp only [Option.some.injEq] at h
      subst h
      rename_i hv
      exact ⟨hv, rfl⟩
    · exact Option.noConfusion h
  assignVariance_defined := fun g v h => ⟨_, if_pos h⟩
  assignVariance_extents := fun g v g1 h => by
    simp only [demoOps] at h
    split at h
    · simp only [Option.some.injEq] at h
      subst h
      rename_i hv
      exact ⟨rfl, hv⟩
    · exact Option.noConfusion h
  apply_extents := fun g => by simp [demoOps, List.enum]
  factor_extents := fun g x => ⟨rfl, rfl⟩
  thresholds_extents := fun g t => ⟨rfl, rfl⟩

/-- C23: take any Gaussian class that keeps the extents of its mean and
variance.  A machine is built by a constructor (which runs `resize` or `copy`)
and then receives any sequence of `resize`, `copy`, `setMeans`,
`setMeanSupervector`, `setVariances`, `setVarianceSupervector`, the three
`setVarianceThresholds` and the two accessors themselves, with any arguments
(sizes that give every Gaussian a dimension and a supervector size that is a
`size_t`; calls that raise leave the machine and the sequence goes on).  The
whole sequence is defined, and on the machine it leaves `getMeanSupervector()`
and `getVarianceSupervector()` return the concatenation, in Gaussian order, of
the current means and of the current variances, without touching the
Gaussians.  Moreover every mutating call that does not raise leaves the
cache-valid flag cleared, and one that raises leaves the machine as it was. -/
theorem supervector_cache_fresh {G R : Type} (ops : GaussianOps G R)
    (hops : ops.KeepsExtents) (junk weight_fill : Nat → R) (m0 : GMMMachine G R)
    (c0 : GMMCall G R) (calls : List (GMMCall G R)) (hcon : c0.constructs = true)
    (hfits : ∀ c ∈ c0 :: calls, c.Fits ops) :
    (∃ m1, GMMCall.run ops junk weight_fill (c0 :: calls) m0 = some m1 ∧
      (∃ m2, m1.getMeanSupervector ops junk =
          some (m2, (m1.m_gaussians.map ops.getMean).flatten) ∧
        m2.m_gaussians = m1.m_gaussians) ∧
      (∃ m2, m1.getVarianceSupervector ops junk =
          some (m2, (m1.m_gaussians.map ops.getVariance).flatten) ∧
        m2.m_gaussians = m1.m_gaussians)) ∧
    (∀ (m : GMMMachine G R) (c : GMMCall G R) (o : Outcome (GMMMachine G R)),
      c.isMutator = true → c.apply ops junk weight_fill m = some o →
      (o.raised = none → o.state.m_cache_supervector = false) ∧
      (o.raised ≠ none → o.state = m)) := by
  refine ⟨?_, fun m c o hmut h => mutator_outcome ops junk weight_fill m c o hmut h⟩
  obtain ⟨o, ho, hs, hc⟩ := construct_keeps ops hops junk weight_fill m0 c0 hcon
    (hfits c0 (by simp))
  obtain ⟨m1, hrun, hs1, hc1⟩ := run_keeps ops hops junk weight_fill calls o.state hs hc
    (fun c h => hfits c (by simp [h]))
  obtain ⟨m2, hg, hsame, _⟩ := getMeanSupervector_spec ops junk m1 hs1 hc1
  obtain ⟨m3, hv, hsame3, _⟩ := getVarianceSupervector_spec ops junk m1 hs1 hc1
  exact ⟨m1, by simp only [GMMCall.run, ho, hrun], ⟨m2, hg, hsame⟩, ⟨m3, hv, hsame3⟩⟩

theorem supervector_cache_fresh_witness :
    (∃ m1, GMMCall.run demoOps (fun _ => 99) (fun _ => 1)
        (GMMCall.resize 2 2 :: demoCalls) demoGMM = some m1 ∧
      (∃ m2, m1.getMeanSupervector demoOps (fun _ => 99) =
          some (m2, (m1.m_gaussians.map demoOps.getMean).flatten) ∧
        m2.m_gaussians = m1.m_gaussians) ∧
      (∃ m2, m1.getVarianceSupervector demoOps (fun _ => 99) =
          some (m2, (m1.m_gaussians.map demoOps.getVariance).flatten) ∧
        m2.m_gaussians = m1.m_gaussians)) ∧
    (∀ (m : GMMMachine DemoGaussian Int) (c : GMMCall DemoGaussian Int)
      (o : Outcome (GMMMachine DemoGaussian Int)),
      c.isMutator = true → c.apply demoOps (fun _ => 99) (fun _ => 1) m = some o →
      (o.raised = none → o.state.m_cache_supervector = false) ∧
      (o.raised ≠ none → o.state = m)) :=
  supervector_cache_fresh demoOps demoOps_keepsExtents (fun _ => 99) (fun _ => 1) demoGMM
    (GMMCall.resize 2 2) demoCalls rfl
    (fun c hc => by
      simp only [demoCalls, List.mem_cons, List.mem_singleton, List.not_mem_nil,
        or_false] at hc
      rcases hc with h | h | h | h | h | h | h | h <;> subst h
      · exact ⟨Or.inr (by decide), by decide⟩
      all_goals exact trivial)

end Visioner
